import Mathlib

/-! # Sound manager (`apps/openmw/mwsound/soundmanagerimp.cpp`)

A shallow embedding of the sound definition table, the buffer cache with its
eviction loop, and the active-sound registry of `MWSound::SoundManager`,
followed by the properties proved about them.

Conventions of the embedding:
* `std::vector` / `std::deque` are lists; the front of a deque is the head.
* `std::map` is an association list kept in ascending key order.
* `float` values are rationals (exact arithmetic).
* A function that can throw returns an `Option` next to the state it leaves
  behind; `none` is the exception.
* Answers of the output backend (a loaded handle, a created instance) are
  inputs of the operation that asks for them.
-/

namespace ESM

/-- Record data of a sound (`ESM::SOUNstruct`): three unsigned bytes. -/
structure SOUNstruct where
  mVolume : Nat
  mMinRange : Nat
  mMaxRange : Nat
deriving DecidableEq, Repr

/-- A sound record of the game data (`ESM::Sound`). -/
structure Sound where
  mId : String
  mSound : String
  mData : SOUNstruct
deriving DecidableEq, Repr

/-- An entry of a region's sound list (`ESM::Region::SoundRef`): the sound and
its chance, an unsigned byte. -/
structure SoundRef where
  mSound : String
  mChance : Nat
deriving DecidableEq, Repr

end ESM

namespace MWSound

/-! ## Data model -/

/-- Backend buffer handle (`Sound_Handle`, a pointer): `0` is the null handle. -/
abbrev Sound_Handle := Nat

/-- Entity handle (`MWWorld::Ptr`), identified by the object it refers to;
`0` is the empty `MWWorld::Ptr()`. -/
abbrev Ptr := Nat

/-- A position (`osg::Vec3f`) over exact arithmetic. -/
structure Vec3f where
  x : Rat
  y : Rat
  z : Rat
deriving DecidableEq

/-- Componentwise difference (`operator-`). -/
def Vec3f.sub (a b : Vec3f) : Vec3f := ⟨a.x - b.x, a.y - b.y, a.z - b.z⟩

/-- Squared length (`length2()`). -/
def Vec3f.length2 (a : Vec3f) : Rat := a.x * a.x + a.y * a.y + a.z * a.z

/-- Cached sound data (`Sound_Buffer`); the constructor leaves the handle null
and the reference count 0. The count is an integer here, so that a decrement
below zero would show as a negative count instead of being cut off. -/
structure Sound_Buffer where
  mResourceName : String
  mVolume : Rat
  mMinDist : Rat
  mMaxDist : Rat
  mHandle : Sound_Handle := 0
  mReferences : Int := 0
deriving DecidableEq

instance : Inhabited Sound_Buffer := ⟨⟨"", 0, 0, 0, 0, 0⟩⟩

/-- A playing instance (`MWBase::Sound`): the fields this file reads or
writes, and `mPlaying`, the answer of the backend's `isPlaying()`. -/
structure Sound where
  mPos : Vec3f
  mVolume : Rat
  mBaseVolume : Rat
  mFlags : Nat
  mFadeOutTime : Rat
  mPlaying : Bool
deriving DecidableEq

/-- Game data and library routines the manager consults: the sound store, the
four distance settings read by `insertSound`, `Misc::StringUtils::lowerCase`,
`VFS::Manager::normalizeFilename`, `pow(10.0, x)` and the value of the play
mode bit `Play_RemoveAtDistance`. -/
structure World where
  sounds : List ESM.Sound
  fAudioDefaultMinDistance : Rat
  fAudioDefaultMaxDistance : Rat
  fAudioMinDistanceMult : Rat
  fAudioMaxDistanceMult : Rat
  lowerCase : String → String
  normalizeFilename : String → String
  pow10 : Rat → Rat
  Play_RemoveAtDistance : Nat

/-- The output backend as far as the manager's bookkeeping sees it:
`isInitialized()` and `getSoundDataSize(handle)`, a fixed size per handle. -/
structure Sound_Output where
  isInitialized : Bool
  getSoundDataSize : Sound_Handle → Nat

/-- Entries of one owner in the active-sound registry (`SoundIndexPairList`). -/
abbrev SoundIndexPairList := List (Sound × Nat)

/-- State of `SoundManager` that the modelled operations read or write. The
tracked cache size is an integer here, so that a subtraction below zero would
show as a negative total. -/
structure SoundManager where
  mBufferKeys : List String
  mSoundBuffers : List Sound_Buffer
  mBufferCacheSize : Int
  mUnusedBuffers : List Nat
  mActiveSounds : List (Ptr × SoundIndexPairList)
  mActiveSaySounds : List (Ptr × (Sound × String))
  mListenerPos : Vec3f

/-- The manager right after construction. -/
def SoundManager.init : SoundManager :=
  { mBufferKeys := [], mSoundBuffers := [], mBufferCacheSize := 0, mUnusedBuffers := [],
    mActiveSounds := [], mActiveSaySounds := [], mListenerPos := ⟨0, 0, 0⟩ }

/-! ## Sound definition table -/

/-- Comparison of two identities with `std::string::operator<`: lexicographic,
character by character. -/
def strLess (a b : String) : Bool := decide (a.data < b.data)

/-- The loop of `std::lower_bound` on `[first, first + len)`: halve the range
until it is empty. `fuel` bounds the number of iterations. -/
def lowerBoundLoop (keys : List String) (val : String) : Nat → Nat → Nat → Nat
  | 0, first, _ => first
  | fuel + 1, first, len =>
    if len = 0 then first
    else
      let half := len / 2
      let middle := first + half
      if strLess (keys.getD middle "") val then
        lowerBoundLoop keys val fuel (middle + 1) (len - half - 1)
      else
        lowerBoundLoop keys val fuel first half

/-- Position returned by `std::lower_bound(keys.begin(), keys.end(), val)`. -/
def lower_bound (keys : List String) (val : String) : Nat :=
  lowerBoundLoop keys val keys.length 0 keys.length

/-- `std::vector::insert(begin() + pos, x)`. -/
def vectorInsert {α : Type} (l : List α) (pos : Nat) (x : α) : List α :=
  l.take pos ++ x :: l.drop pos

/-- The test `bufkey != mBufferKeys.end() && *bufkey == soundId`. -/
def keyFoundAt (keys : List String) (bufkey : Nat) (soundId : String) : Bool :=
  decide (bufkey < keys.length) && decide (keys.getD bufkey "" = soundId)

/-- Attributes computed by `insertSound` for a record: resource name, volume,
min and max distance (lines 136-153, 161, 170). -/
def makeBuffer (w : World) (sound : ESM.Sound) : Sound_Buffer :=
  let volume := w.pow10 (((sound.mData.mVolume : Rat) / 255 * 3348 - 3348) / 2000)
  let min0 : Rat :=
    if sound.mData.mMinRange = 0 ∧ sound.mData.mMaxRange = 0 then w.fAudioDefaultMinDistance
    else (sound.mData.mMinRange : Rat)
  let max0 : Rat :=
    if sound.mData.mMinRange = 0 ∧ sound.mData.mMaxRange = 0 then w.fAudioDefaultMaxDistance
    else (sound.mData.mMaxRange : Rat)
  let min1 := min0 * w.fAudioMinDistanceMult
  let max1 := max0 * w.fAudioMaxDistanceMult
  let min2 := max min1 1
  let max2 := max min2 max1
  { mResourceName := w.normalizeFilename ("Sound/" ++ sound.mSound),
    mVolume := volume, mMinDist := min2, mMaxDist := max2, mHandle := 0, mReferences := 0 }

/-- `SoundManager::insertSound`: skip a duplicate, else insert key and buffer
at the position found by the binary search. -/
def insertSound (w : World) (s : SoundManager) (soundId : String) (sound : ESM.Sound) :
    SoundManager :=
  let bufkey := lower_bound s.mBufferKeys soundId
  if keyFoundAt s.mBufferKeys bufkey soundId then s
  else
    { s with
      mBufferKeys := vectorInsert s.mBufferKeys bufkey soundId,
      mSoundBuffers := vectorInsert s.mSoundBuffers bufkey (makeBuffer w sound) }

/-- The bulk load of `lookupId`: every record of the store, under its
lowercased identity, in store order. -/
def loadAllSounds (w : World) (s : SoundManager) : SoundManager :=
  w.sounds.foldl (fun acc rec => insertSound w acc (w.lowerCase rec.mId) rec) s

/-- `SoundManager::lookupId(const std::string&)`, non-const: the state it
leaves and the index, `none` when it throws "not found". -/
def lookupId (w : World) (s : SoundManager) (soundId : String) : SoundManager × Option Nat :=
  let bufkey := lower_bound s.mBufferKeys soundId
  if keyFoundAt s.mBufferKeys bufkey soundId then (s, some bufkey)
  else if s.mBufferKeys.isEmpty then
    let s1 := loadAllSounds w s
    let bufkey1 := lower_bound s1.mBufferKeys soundId
    if keyFoundAt s1.mBufferKeys bufkey1 soundId then (s1, some bufkey1)
    else (s1, none)
  else (s, none)

/-- `SoundManager::lookupId(const std::string&) const`: no bulk load. -/
def lookupIdConst (s : SoundManager) (soundId : String) : Option Nat :=
  let bufkey := lower_bound s.mBufferKeys soundId
  if keyFoundAt s.mBufferKeys bufkey soundId then some bufkey else none

/-! ## Buffer cache -/

/-- Read of `mSoundBuffers[i]`. -/
def SoundManager.buffer (s : SoundManager) (i : Nat) : Sound_Buffer :=
  s.mSoundBuffers.getD i default

/-- One turn of the `while` loop of `lookup` (lines 219-233): `none` when the
loop is left, through its condition or through `break`; otherwise the state
after evicting the back of the unused list, with the index and the handle that
were passed to `unloadSound`. -/
def evictStep (out : Sound_Output) (s : SoundManager) :
    Option (SoundManager × (Nat × Sound_Handle)) :=
  if s.mBufferCacheSize > 15 * 1024 * 1024 then
    match s.mUnusedBuffers.getLast? with
    | none => none
    | some u =>
      some ({ s with
              mBufferCacheSize :=
                s.mBufferCacheSize - (out.getSoundDataSize (s.buffer u).mHandle : Int),
              mSoundBuffers := s.mSoundBuffers.set u { s.buffer u with mHandle := 0 },
              mUnusedBuffers := s.mUnusedBuffers.dropLast },
            (u, (s.buffer u).mHandle))
  else none

/-- The `while` loop of `lookup`, run for at most `fuel` turns: the state it
leaves and the `unloadSound` calls it made, in order. -/
def evictLoop (out : Sound_Output) : Nat → SoundManager → SoundManager × List (Nat × Sound_Handle)
  | 0, s => (s, [])
  | fuel + 1, s =>
    match evictStep out s with
    | none => (s, [])
    | some (s1, ev) => ((evictLoop out fuel s1).1, ev :: (evictLoop out fuel s1).2)

/-- The state of `lookup` after the backend has loaded handle `h` for entry
`sfxid` and its size has been added to the total (lines 215-216). -/
def afterLoad (out : Sound_Output) (s : SoundManager) (sfxid : Nat) (h : Sound_Handle) :
    SoundManager :=
  { s with
    mSoundBuffers := s.mSoundBuffers.set sfxid { s.buffer sfxid with mHandle := h },
    mBufferCacheSize := s.mBufferCacheSize + (out.getSoundDataSize h : Int) }

/-- `SoundManager::lookup(size_t)`. `loaded` is the answer of `loadSound` should
it be called: a handle, or `none` when it throws. The result is the state left
and the index of the returned buffer, `none` when the exception propagates.
Every turn of the loop pops one element, so the length of the unused list is
fuel enough. -/
def lookup (out : Sound_Output) (s : SoundManager) (sfxid : Nat) (loaded : Option Sound_Handle) :
    SoundManager × Option Nat :=
  if (s.buffer sfxid).mHandle = 0 then
    match loaded with
    | none => (s, none)
    | some h =>
      let s1 := afterLoad out s sfxid h
      let s2 := (evictLoop out s1.mUnusedBuffers.length s1).1
      ({ s2 with mUnusedBuffers := sfxid :: s2.mUnusedBuffers }, some sfxid)
  else (s, some sfxid)

/-- The `unloadSound` calls made by `lookup`, in order: index and handle. -/
def lookupUnloads (out : Sound_Output) (s : SoundManager) (sfxid : Nat)
    (loaded : Option Sound_Handle) : List (Nat × Sound_Handle) :=
  if (s.buffer sfxid).mHandle = 0 then
    match loaded with
    | none => []
    | some h =>
      (evictLoop out (afterLoad out s sfxid h).mUnusedBuffers.length (afterLoad out s sfxid h)).2
  else []

/-- `SoundManager::lookup(const std::string&)`: `lookup(lookupId(soundId))`. -/
def lookupByName (w : World) (out : Sound_Output) (s : SoundManager) (soundId : String)
    (loaded : Option Sound_Handle) : SoundManager × Option Nat :=
  match (lookupId w s soundId).2 with
  | none => ((lookupId w s soundId).1, none)
  | some sfxid => lookup out (lookupId w s soundId).1 sfxid loaded

/-- The reference taken by a successful play (lines 521-526):
`if(sfx->mReferences++ == 0)` erase the index from the unused list. -/
def acquireReference (s : SoundManager) (sfxid : Nat) : SoundManager :=
  { s with
    mSoundBuffers :=
      s.mSoundBuffers.set sfxid
        { s.buffer sfxid with mReferences := (s.buffer sfxid).mReferences + 1 },
    mUnusedBuffers :=
      if (s.buffer sfxid).mReferences = 0 then s.mUnusedBuffers.erase sfxid
      else s.mUnusedBuffers }

/-- The reference dropped for a finished instance (lines 833-835):
`if(sfx->mReferences-- == 1)` push the index onto the front of the unused list. -/
def releaseReference (s : SoundManager) (sfxid : Nat) : SoundManager :=
  { s with
    mSoundBuffers :=
      s.mSoundBuffers.set sfxid
        { s.buffer sfxid with mReferences := (s.buffer sfxid).mReferences - 1 },
    mUnusedBuffers :=
      if (s.buffer sfxid).mReferences = 1 then sfxid :: s.mUnusedBuffers
      else s.mUnusedBuffers }

/-! ## Active-sound registry -/

/-- `map[key].push_back(e)` on a map kept in ascending key order. -/
def mapPushBack {β : Type} : List (Ptr × List β) → Ptr → β → List (Ptr × List β)
  | [], key, e => [(key, [e])]
  | (k, l) :: rest, key, e =>
    if key < k then (key, [e]) :: (k, l) :: rest
    else if key = k then (k, l ++ [e]) :: rest
    else (k, l) :: mapPushBack rest key e

/-- `map.find(key)`: the value stored under `key`, if any. -/
def mapFind {β : Type} : List (Ptr × β) → Ptr → Option β
  | [], _ => none
  | (k, v) :: rest, key => if key = k then some v else mapFind rest key

/-- `map.erase(map.find(key))`. -/
def mapErase {β : Type} : List (Ptr × β) → Ptr → List (Ptr × β)
  | [], _ => []
  | (k, v) :: rest, key => if key = k then rest else (k, v) :: mapErase rest key

/-- `map[key] = v` on a map kept in ascending key order. -/
def mapAssign {β : Type} : List (Ptr × β) → Ptr → β → List (Ptr × β)
  | [], key, v => [(key, v)]
  | (k, v0) :: rest, key, v =>
    if key < k then (key, v) :: (k, v0) :: rest
    else if key = k then (k, v) :: rest
    else (k, v0) :: mapAssign rest key v

/-- The buffer indices held by the registry, one per entry, in iteration order. -/
def registryIndices : List (Ptr × SoundIndexPairList) → List Nat
  | [] => []
  | (_, l) :: rest => l.map Prod.snd ++ registryIndices rest

/-- `SoundManager::playSound` (lines 507-534). `loaded` and `created` are the
answers of the backend's `loadSound` and `playSound` should they be called,
`none` for an exception. Volume, pitch, type, mode and offset only reach the
backend call. The result is the state left and the returned instance, `none`
for the null `SoundPtr`. -/
def playSound (w : World) (out : Sound_Output) (s : SoundManager) (soundId : String)
    (loaded : Option Sound_Handle) (created : Option Sound) : SoundManager × Option Sound :=
  if out.isInitialized = false then (s, none)
  else
    match (lookupId w s (w.lowerCase soundId)).2 with
    | none => ((lookupId w s (w.lowerCase soundId)).1, none)
    | some sfxid =>
      match (lookup out (lookupId w s (w.lowerCase soundId)).1 sfxid loaded).2 with
      | none => ((lookup out (lookupId w s (w.lowerCase soundId)).1 sfxid loaded).1, none)
      | some _ =>
        match created with
        | none => ((lookup out (lookupId w s (w.lowerCase soundId)).1 sfxid loaded).1, none)
        | some sound =>
          let s3 := acquireReference
            (lookup out (lookupId w s (w.lowerCase soundId)).1 sfxid loaded).1 sfxid
          ({ s3 with mActiveSounds := mapPushBack s3.mActiveSounds 0 (sound, sfxid) },
            some sound)

/-- `SoundManager::playSound3D(const MWWorld::Ptr&, ...)` (lines 536-570).
`objpos` is the position of `ptr` read from the world. -/
def playSound3D (w : World) (out : Sound_Output) (s : SoundManager) (ptr : Ptr)
    (objpos : Vec3f) (soundId : String) (mode : Nat)
    (loaded : Option Sound_Handle) (created : Option Sound) : SoundManager × Option Sound :=
  if out.isInitialized = false then (s, none)
  else
    match (lookupId w s (w.lowerCase soundId)).2 with
    | none => ((lookupId w s (w.lowerCase soundId)).1, none)
    | some sfxid =>
      match (lookup out (lookupId w s (w.lowerCase soundId)).1 sfxid loaded).2 with
      | none => ((lookup out (lookupId w s (w.lowerCase soundId)).1 sfxid loaded).1, none)
      | some _ =>
        let s2 := (lookup out (lookupId w s (w.lowerCase soundId)).1 sfxid loaded).1
        if mode &&& w.Play_RemoveAtDistance ≠ 0 ∧
            (s2.mListenerPos.sub objpos).length2 > 2000 * 2000 then (s2, none)
        else
          match created with
          | none => (s2, none)
          | some sound =>
            let s3 := acquireReference s2 sfxid
            ({ s3 with mActiveSounds := mapPushBack s3.mActiveSounds ptr (sound, sfxid) },
              some sound)

/-- `SoundManager::playSound3D(const osg::Vec3f&, ...)` (lines 572-601): the
instance is filed under the empty `Ptr`. `initialPos` and `mode` only reach
the backend call: the function makes no test on them. -/
def playSound3DAt (w : World) (out : Sound_Output) (s : SoundManager)
    (initialPos : Vec3f) (soundId : String) (mode : Nat)
    (loaded : Option Sound_Handle) (created : Option Sound) :
    SoundManager × Option Sound :=
  if out.isInitialized = false then (s, none)
  else
    match (lookupId w s (w.lowerCase soundId)).2 with
    | none => ((lookupId w s (w.lowerCase soundId)).1, none)
    | some sfxid =>
      match (lookup out (lookupId w s (w.lowerCase soundId)).1 sfxid loaded).2 with
      | none => ((lookup out (lookupId w s (w.lowerCase soundId)).1 sfxid loaded).1, none)
      | some _ =>
        match created with
        | none => ((lookup out (lookupId w s (w.lowerCase soundId)).1 sfxid loaded).1, none)
        | some sound =>
          let s3 := acquireReference
            (lookup out (lookupId w s (w.lowerCase soundId)).1 sfxid loaded).1 sfxid
          ({ s3 with mActiveSounds := mapPushBack s3.mActiveSounds 0 (sound, sfxid) },
            some sound)

/-- `SoundManager::updateSound` (lines 858-888): whether the instance is kept,
and the instance after the call. `getPosition` reads an entity's position. -/
def updateSound (w : World) (listenerPos : Vec3f) (getPosition : Ptr → Vec3f)
    (sound : Sound) (ptr : Ptr) (duration : Rat) : Bool × Sound :=
  let sound1 : Sound :=
    if ptr ≠ 0 then
      if sound.mFlags &&& w.Play_RemoveAtDistance ≠ 0 ∧
          (listenerPos.sub (getPosition ptr)).length2 > 2000 * 2000 then
        { sound with mPos := getPosition ptr, mPlaying := false }
      else { sound with mPos := getPosition ptr }
    else sound
  if sound1.mPlaying = false then (false, sound1)
  else if sound1.mFadeOutTime > 0 then
    let soundDuration := if duration > sound1.mFadeOutTime then sound1.mFadeOutTime else duration
    (true, { sound1 with
              mVolume := sound1.mVolume - soundDuration / sound1.mFadeOutTime * sound1.mVolume,
              mFadeOutTime := sound1.mFadeOutTime - soundDuration })
  else (true, sound1)

/-- The inner loop of the update pass (lines 828-840) over the entries of one
owner: the manager after the releases, and the entries that are kept. -/
def updateSoundList (w : World) (getPosition : Ptr → Vec3f) (ptr : Ptr) (duration : Rat) :
    SoundManager → SoundIndexPairList → SoundManager × SoundIndexPairList
  | s, [] => (s, [])
  | s, (sound, sfxid) :: rest =>
    if (updateSound w s.mListenerPos getPosition sound ptr duration).1 = false then
      updateSoundList w getPosition ptr duration (releaseReference s sfxid) rest
    else
      ((updateSoundList w getPosition ptr duration s rest).1,
        ((updateSound w s.mListenerPos getPosition sound ptr duration).2, sfxid)
          :: (updateSoundList w getPosition ptr duration s rest).2)

/-- The outer loop of the update pass (lines 825-845) over the owners in key
order; an owner whose list became empty is erased. -/
def updateActiveSounds (w : World) (getPosition : Ptr → Vec3f) (duration : Rat) :
    SoundManager → List (Ptr × SoundIndexPairList) → SoundManager × List (Ptr × SoundIndexPairList)
  | s, [] => (s, [])
  | s, (ptr, l) :: rest =>
    let r := updateSoundList w getPosition ptr duration s l
    if r.2.isEmpty then updateActiveSounds w getPosition duration r.1 rest
    else
      ((updateActiveSounds w getPosition duration r.1 rest).1,
        (ptr, r.2) :: (updateActiveSounds w getPosition duration r.1 rest).2)

/-- The loop over the say registry (lines 847-854). -/
def updateSaySounds (w : World) (listenerPos : Vec3f) (getPosition : Ptr → Vec3f)
    (duration : Rat) : List (Ptr × (Sound × String)) → List (Ptr × (Sound × String))
  | [] => []
  | (ptr, (sound, name)) :: rest =>
    if (updateSound w listenerPos getPosition sound ptr duration).1 = false then
      updateSaySounds w listenerPos getPosition duration rest
    else
      (ptr, ((updateSound w listenerPos getPosition sound ptr duration).2, name))
        :: updateSaySounds w listenerPos getPosition duration rest

/-- The update pass of `updateSounds` (lines 824-854), run once the time
accumulated has reached the threshold. -/
def updatePass (w : World) (s : SoundManager) (getPosition : Ptr → Vec3f) (duration : Rat) :
    SoundManager :=
  let r := updateActiveSounds w getPosition duration s s.mActiveSounds
  { r.1 with
    mActiveSounds := r.2,
    mActiveSaySounds := updateSaySounds w s.mListenerPos getPosition duration s.mActiveSaySounds }

/-- `SoundManager::updatePtr` (lines 954-970). -/
def updatePtr (s : SoundManager) (old updated : Ptr) : SoundManager :=
  { s with
    mActiveSounds :=
      match mapFind s.mActiveSounds old with
      | some sndlist => mapAssign (mapErase s.mActiveSounds old) updated sndlist
      | none => s.mActiveSounds,
    mActiveSaySounds :=
      match mapFind s.mActiveSaySounds old with
      | some sndlist => mapAssign (mapErase s.mActiveSaySounds old) updated sndlist
      | none => s.mActiveSaySounds }

/-- `SoundManager::clear` (lines 1037-1058): every entry is stopped and its
reference dropped, then both registries are emptied. -/
def clear (s : SoundManager) : SoundManager :=
  { (registryIndices s.mActiveSounds).foldl releaseReference s with
    mActiveSounds := [], mActiveSaySounds := [] }

/-- Changes made to the fields of live instances without touching the
registry's shape: `stop`, `setFadeout`, a new base volume, or the backend
ending an instance. `f` receives the owner and the instance. -/
def touchSounds (s : SoundManager) (f : Ptr → Sound → Sound) : SoundManager :=
  { s with
    mActiveSounds := s.mActiveSounds.map (fun p => (p.1, p.2.map (fun e => (f p.1 e.1, e.2)))),
    mActiveSaySounds := s.mActiveSaySounds.map (fun p => (p.1, (f p.1 p.2.1, p.2.2))) }

/-- A call made on the manager, with the answers the backend and the world
give during it. -/
inductive Op where
  | lookupId (soundId : String)
  | lookup (soundId : String) (loaded : Option Sound_Handle)
  | playSound (soundId : String) (loaded : Option Sound_Handle) (created : Option Sound)
  | playSound3D (ptr : Ptr) (objpos : Vec3f) (soundId : String) (mode : Nat)
      (loaded : Option Sound_Handle) (created : Option Sound)
  | playSound3DAt (initialPos : Vec3f) (soundId : String) (mode : Nat)
      (loaded : Option Sound_Handle) (created : Option Sound)
  | updatePass (getPosition : Ptr → Vec3f) (duration : Rat)
  | updatePtr (old updated : Ptr)
  | clear
  | setListenerPos (pos : Vec3f)
  | touchSounds (f : Ptr → Sound → Sound)

/-- The handle answered by `loadSound` during an operation, if it has one. -/
def Op.loaded : Op → Option Sound_Handle
  | .lookup _ l => l
  | .playSound _ l _ => l
  | .playSound3D _ _ _ _ l _ => l
  | .playSound3DAt _ _ _ l _ => l
  | _ => none

/-- The backend's contract: a `loadSound` that returns, returns a non-null handle. -/
def Op.WellFormed (op : Op) : Prop := op.loaded ≠ some 0

instance (op : Op) : Decidable op.WellFormed :=
  inferInstanceAs (Decidable (op.loaded ≠ some 0))

/-- The state after one operation. -/
def step (w : World) (out : Sound_Output) (s : SoundManager) : Op → SoundManager
  | .lookupId soundId => (lookupId w s soundId).1
  | .lookup soundId loaded => (lookupByName w out s soundId loaded).1
  | .playSound soundId loaded created => (playSound w out s soundId loaded created).1
  | .playSound3D ptr objpos soundId mode loaded created =>
    (playSound3D w out s ptr objpos soundId mode loaded created).1
  | .playSound3DAt initialPos soundId mode loaded created =>
    (playSound3DAt w out s initialPos soundId mode loaded created).1
  | .updatePass getPosition duration => updatePass w s getPosition duration
  | .updatePtr old updated => updatePtr s old updated
  | .clear => clear s
  | .setListenerPos pos => { s with mListenerPos := pos }
  | .touchSounds f => touchSounds s f

/-- The state after a sequence of operations on a freshly constructed manager. -/
def run (w : World) (out : Sound_Output) (ops : List Op) : SoundManager :=
  ops.foldl (step w out) SoundManager.init

/-- A state reached from a freshly constructed manager by operations during
which the backend keeps its contract. -/
def Reachable (w : World) (out : Sound_Output) (s : SoundManager) : Prop :=
  ∃ ops : List Op, (∀ op ∈ ops, op.WellFormed) ∧ run w out ops = s

/-- Keys in strictly ascending order, as `operator<` sees them. -/
def KeysSorted (keys : List String) : Prop := keys.Pairwise (fun a b => strLess a b = true)

instance (keys : List String) : Decidable (KeysSorted keys) :=
  inferInstanceAs (Decidable (keys.Pairwise (fun a b => strLess a b = true)))

/-- A sequence of `insertSound` calls, each with its identity and record. -/
def insertAll (w : World) (calls : List (String × ESM.Sound)) (s : SoundManager) :
    SoundManager :=
  calls.foldl (fun acc c => insertSound w acc c.1 c.2) s

/-- The attributes registered with identity `k` by a sequence of calls: those
computed from the record of the first call that names `k`. -/
def registeredWith (w : World) (calls : List (String × ESM.Sound)) (k : String) :
    Option Sound_Buffer :=
  (calls.find? (fun c => decide (c.1 = k))).map (fun c => makeBuffer w c.2)

/-- What a sequence of registrations establishes: sorted keys, buffers that are
the registered attributes of their keys, and keys that are the identities named. -/
structure TableInv (w : World) (calls : List (String × ESM.Sound)) (s : SoundManager) :
    Prop where
  sorted : s.mBufferKeys.Pairwise (· < ·)
  attrs : s.mSoundBuffers.map some = s.mBufferKeys.map (registeredWith w calls)
  keys : ∀ k, k ∈ s.mBufferKeys ↔ ∃ c ∈ calls, c.1 = k

/-- The size accounted for a buffer: that of its handle when it has one. -/
def loadedSize (out : Sound_Output) (b : Sound_Buffer) : Nat :=
  if b.mHandle = 0 then 0 else out.getSoundDataSize b.mHandle

/-- The sum of the sizes of the entries whose handle is non-null. -/
def cacheSum (out : Sound_Output) (bufs : List Sound_Buffer) : Nat :=
  (bufs.map (loadedSize out)).sum

/-- Consistency of the cache bookkeeping. `x` is an entry exempt from the
unused list (the one `lookup` is loading), `M` the buffer indices held by
registry entries. -/
structure CacheInv (out : Sound_Output) (bufs : List Sound_Buffer) (unused : List Nat)
    (total : Int) (x : Option Nat) (M : List Nat) : Prop where
  unused_iff : ∀ i, i ∈ unused ↔
    ((bufs.getD i default).mHandle ≠ 0 ∧ (bufs.getD i default).mReferences = 0 ∧ x ≠ some i)
  nodup : unused.Nodup
  loaded : ∀ i, 0 < (bufs.getD i default).mReferences → (bufs.getD i default).mHandle ≠ 0
  total_eq : total = (cacheSum out bufs : Int)
  counts : ∀ i, (M.count i : Int) ≤ (bufs.getD i default).mReferences

/-- The invariant of the manager: a sorted table with parallel vectors and a
consistent cache. -/
structure Inv (out : Sound_Output) (s : SoundManager) : Prop where
  sorted : s.mBufferKeys.Pairwise (· < ·)
  length_eq : s.mSoundBuffers.length = s.mBufferKeys.length
  cache : CacheInv out s.mSoundBuffers s.mUnusedBuffers s.mBufferCacheSize none
    (registryIndices s.mActiveSounds)

/-- The cache bookkeeping of a manager state is consistent. -/
def SInv (out : Sound_Output) (s : SoundManager) (x : Option Nat) (M : List Nat) : Prop :=
  CacheInv out s.mSoundBuffers s.mUnusedBuffers s.mBufferCacheSize x M

/-- The sizes, as the backend reports them, of the handles passed to `unloadSound`. -/
def unloadedSize (out : Sound_Output) (ev : List (Nat × Sound_Handle)) : Nat :=
  (ev.map (fun e => out.getSoundDataSize e.2)).sum

/-- The states a sequence of operations goes through, the latest first and the
freshly constructed manager last. -/
def history (w : World) (out : Sound_Output) (ops : List Op) : List SoundManager :=
  ops.foldl (fun hist op => step w out (hist.headD SoundManager.init) op :: hist)
    [SoundManager.init]

/-- Entry `i` is evicted between two consecutive states: it had a handle and
has none any more. -/
def evictedBetween (before after : SoundManager) (i : Nat) : Bool :=
  decide ((before.buffer i).mHandle ≠ 0) && decide ((after.buffer i).mHandle = 0)

/-- The reference count of entry `i` has been positive in some state since the
entry was last evicted (since creation if it never was), along a history given
latest state first. -/
def referencedSinceEviction (i : Nat) : List SoundManager → Bool
  | [] => false
  | s :: rest =>
    decide (0 < (s.buffer i).mReferences) ||
      (match rest with
       | [] => false
       | before :: _ => !(evictedBetween before s i) && referencedSinceEviction i rest)

/-- A small world for concrete runs: three records, identities lowercased
character by character. -/
def demoWorld : World where
  sounds := [⟨"B", "b.wav", ⟨255, 0, 0⟩⟩, ⟨"a", "a.wav", ⟨255, 1, 2⟩⟩, ⟨"c", "c.wav", ⟨128, 1, 0⟩⟩]
  fAudioDefaultMinDistance := 5
  fAudioDefaultMaxDistance := 10
  fAudioMinDistanceMult := 1
  fAudioMaxDistanceMult := 1
  lowerCase := fun s => String.mk (s.data.map Char.toLower)
  normalizeFilename := fun s => s
  pow10 := fun _ => 1
  Play_RemoveAtDistance := 4

/-- A backend for concrete runs: initialized, handle `h` holds `h % 16` MiB. -/
def demoOutput : Sound_Output where
  isInitialized := true
  getSoundDataSize := fun h => (h % 16) * 1048576

/-- An instance as the backend creates it: playing, at full volume, no fade. -/
def demoSound : Sound where
  mPos := ⟨0, 0, 0⟩
  mVolume := 1
  mBaseVolume := 1
  mFlags := 0
  mFadeOutTime := 0
  mPlaying := true

/-- Two loads of 8 MiB and 3 MiB: both entries sit in the unused list. -/
def demoOps : List Op := [.lookup "a" (some 8), .lookup "b" (some 3)]

/-- One successful play of "a", loaded with an 8 MiB buffer. -/
def demoPlay : List Op := [.playSound "A" (some 8) (some demoSound)]

/-- The state after `demoOps`: "a" and "b" loaded and unused, 11 MiB in total. -/
def demoState : SoundManager := run demoWorld demoOutput demoOps

/-! ## The update pass, entry by entry -/

/-- The entries of one owner that an update pass keeps: those that
`updateSound` finds playing, in their previous order, each as `updateSound`
leaves it. -/
def survivors (w : World) (listenerPos : Vec3f) (getPosition : Ptr → Vec3f) (duration : Rat)
    (ptr : Ptr) (l : SoundIndexPairList) : SoundIndexPairList :=
  l.filterMap (fun e =>
    if (updateSound w listenerPos getPosition e.1 ptr duration).1 = true then
      some ((updateSound w listenerPos getPosition e.1 ptr duration).2, e.2)
    else none)

/-- The buffer indices of the entries of one owner that an update pass
removes: those that `updateSound` finds not playing, in order. -/
def removedOf (w : World) (listenerPos : Vec3f) (getPosition : Ptr → Vec3f) (duration : Rat)
    (ptr : Ptr) (l : SoundIndexPairList) : List Nat :=
  (l.filter (fun e => (updateSound w listenerPos getPosition e.1 ptr duration).1 = false)).map
    Prod.snd

/-- The registry an update pass leaves: every owner with its survivors, owners
without survivors dropped. -/
def prunedRegistry (w : World) (listenerPos : Vec3f) (getPosition : Ptr → Vec3f)
    (duration : Rat) (m : List (Ptr × SoundIndexPairList)) : List (Ptr × SoundIndexPairList) :=
  (m.map (fun p => (p.1, survivors w listenerPos getPosition duration p.1 p.2))).filter
    (fun p => !p.2.isEmpty)

/-- The buffer indices of all entries an update pass removes, in the order in
which the pass meets them. -/
def removedIndices (w : World) (listenerPos : Vec3f) (getPosition : Ptr → Vec3f)
    (duration : Rat) : List (Ptr × SoundIndexPairList) → List Nat
  | [] => []
  | (ptr, l) :: rest =>
    removedOf w listenerPos getPosition duration ptr l
      ++ removedIndices w listenerPos getPosition duration rest

/-- `updateSound` called once per tick on one instance: the instance after the
ticks of the given durations. -/
def fadeTicks (w : World) (listenerPos : Vec3f) (getPosition : Ptr → Vec3f) (ptr : Ptr) :
    Sound → List Rat → Sound
  | sound, [] => sound
  | sound, d :: ds =>
    fadeTicks w listenerPos getPosition ptr
      (updateSound w listenerPos getPosition sound ptr d).2 ds

/-! ## The accumulator of `updateSounds` -/

/-- What lines 800-822 of `updateSounds` do to the instances before the
registry pass. It is decided by `mListenerUnderwater` and `mUnderwaterSound`,
which are not part of the modelled state: nothing, `mUnderwaterSound->stop()`
(a change `f` of that instance), or `playSound("Underwater", ...)` with the
answers of the backend. -/
inductive UnderwaterAction where
  | idle
  | stop (f : Ptr → Sound → Sound)
  | play (loaded : Option Sound_Handle) (created : Option Sound)

/-- The body of `updateSounds` after the threshold test (lines 796-855), run
with the accumulated time. The music check touches none of the modelled fields. -/
def updateSoundsBody (w : World) (out : Sound_Output) (s : SoundManager)
    (action : UnderwaterAction) (getPosition : Ptr → Vec3f) (duration : Rat) : SoundManager :=
  updatePass w
    (match action with
     | .idle => s
     | .stop f => touchSounds s f
     | .play loaded created => (playSound w out s "Underwater" loaded created).1)
    getPosition duration

/-- `SoundManager::updateSounds` (lines 786-856). The function-static
`timePassed` is passed in and returned next to the manager. -/
def updateSounds (w : World) (out : Sound_Output) (timePassed : Rat) (s : SoundManager)
    (duration : Rat) (action : UnderwaterAction) (getPosition : Ptr → Vec3f) :
    Rat × SoundManager :=
  if timePassed + duration < 1 / 30 then (timePassed + duration, s)
  else (0, updateSoundsBody w out s action getPosition (timePassed + duration))

/-- The value of `duration` after line 793 when a call gets there: the time
its pass runs with; `none` when the call returns at line 792. -/
def passDuration (timePassed duration : Rat) : Option Rat :=
  if timePassed + duration < 1 / 30 then none else some (timePassed + duration)

/-- One call of `updateSounds` with what the world and the backend answer. -/
structure UpdateCall where
  duration : Rat
  action : UnderwaterAction
  getPosition : Ptr → Vec3f

/-- A sequence of `updateSounds` calls: the accumulator and the manager it leaves. -/
def updateSoundsRun (w : World) (out : Sound_Output) :
    List UpdateCall → Rat × SoundManager → Rat × SoundManager
  | [], st => st
  | c :: calls, st =>
    updateSoundsRun w out calls (updateSounds w out st.1 st.2 c.duration c.action c.getPosition)

/-- The times handed to the passes that a sequence of calls runs, in order,
starting from accumulator `timePassed`. -/
def passDurations : Rat → List Rat → List Rat
  | _, [] => []
  | timePassed, d :: ds =>
    match passDuration timePassed d with
    | none => passDurations (timePassed + d) ds
    | some t => t :: passDurations 0 ds

/-- The accumulator after a sequence of calls with the given durations. -/
def timePassedAfter : Rat → List Rat → Rat
  | timePassed, [] => timePassed
  | timePassed, d :: ds =>
    match passDuration timePassed d with
    | none => timePassedAfter (timePassed + d) ds
    | some _ => timePassedAfter 0 ds

/-! ## Region sounds -/

/-- The sum computed by the first loop of `updateRegionSound` (lines 759-764). -/
def regionTotal (l : List ESM.SoundRef) : Int :=
  l.foldl (fun total sr => total + (sr.mChance : Int)) 0

/-- The scan of `updateRegionSound` (lines 772-783) from position `pos`: the
index, counted from where the scan stands, of the entry whose sound is played,
`none` when the loop runs off the end of the list. -/
def regionScan (r : Int) : Int → List ESM.SoundRef → Option Nat
  | _, [] => none
  | pos, sr :: rest =>
    if r - pos < (sr.mChance : Int) then some 0
    else (regionScan r (pos + (sr.mChance : Int)) rest).map (· + 1)

/-- The weight in front of index `i`: the sum of the chances of the entries before it. -/
def chanceBefore (l : List ESM.SoundRef) (i : Nat) : Nat :=
  ((l.take i).map (fun sr => sr.mChance)).sum

/-- The chance of the entry at index `i`, 0 past the end. -/
def chanceAt (l : List ESM.SoundRef) (i : Nat) : Nat :=
  (l.getD i ⟨"", 0⟩).mChance

/-- The steps the three play functions share, with the entry filed under
`key`: resolve, load, create the instance, take the reference, file it. -/
def playFiled (w : World) (out : Sound_Output) (s : SoundManager) (key : Ptr)
    (soundId : String) (loaded : Option Sound_Handle) (created : Option Sound) :
    SoundManager × Option Sound :=
  if out.isInitialized = false then (s, none)
  else
    match (lookupByName w out s (w.lowerCase soundId) loaded).2 with
    | none => ((lookupByName w out s (w.lowerCase soundId) loaded).1, none)
    | some sfxid =>
      match created with
      | none => ((lookupByName w out s (w.lowerCase soundId) loaded).1, none)
      | some sound =>
        ({ acquireReference (lookupByName w out s (w.lowerCase soundId) loaded).1 sfxid with
            mActiveSounds :=
              mapPushBack
                (acquireReference (lookupByName w out s (w.lowerCase soundId) loaded).1
                  sfxid).mActiveSounds key (sound, sfxid) },
          some sound)

/-- The test at line 551 of the entity-owned `playSound3D`. -/
def rejectedAtDistance (w : World) (listenerPos objpos : Vec3f) (mode : Nat) : Prop :=
  mode &&& w.Play_RemoveAtDistance ≠ 0 ∧ (listenerPos.sub objpos).length2 > 2000 * 2000

instance (w : World) (listenerPos objpos : Vec3f) (mode : Nat) :
    Decidable (rejectedAtDistance w listenerPos objpos mode) :=
  inferInstanceAs (Decidable (_ ∧ _))

/-- The state after `demoPlay`: one live instance of "a", whose count is 1. -/
def demoPlayed : SoundManager := run demoWorld demoOutput demoPlay

/-- The first half of `updateSound` (lines 860-872): the instance with its
position set and, if its owner is too far away, stopped. -/
def placeSound (w : World) (listenerPos : Vec3f) (getPosition : Ptr → Vec3f)
    (sound : Sound) (ptr : Ptr) : Sound :=
  if ptr ≠ 0 then
    if sound.mFlags &&& w.Play_RemoveAtDistance ≠ 0 ∧
        (listenerPos.sub (getPosition ptr)).length2 > 2000 * 2000 then
      { sound with mPos := getPosition ptr, mPlaying := false }
    else { sound with mPos := getPosition ptr }
  else sound

/-- The second half of `updateSound` (lines 874-887): the liveness test and
the fade-out. -/
def fadeSound (sound1 : Sound) (duration : Rat) : Bool × Sound :=
  if sound1.mPlaying = false then (false, sound1)
  else if sound1.mFadeOutTime > 0 then
    (true, { sound1 with
              mVolume := sound1.mVolume
                - (if duration > sound1.mFadeOutTime then sound1.mFadeOutTime else duration)
                  / sound1.mFadeOutTime * sound1.mVolume,
              mFadeOutTime := sound1.mFadeOutTime
                - (if duration > sound1.mFadeOutTime then sound1.mFadeOutTime else duration) })
  else (true, sound1)

/-- An instance at full volume on which a fade-out of 2 seconds has been set. -/
def demoFading : Sound := { demoSound with mFadeOutTime := 2 }

/-- Entities that all stand at the origin. -/
def demoPositions : Ptr → Vec3f := fun _ => ⟨0, 0, 0⟩

/-- The change `setFadeout(2)` makes to an instance; `fadeOutSound3D` calls it
on the instances it matches (line 683). -/
def demoSetFadeout : Ptr → Sound → Sound := fun _ sound => { sound with mFadeOutTime := 2 }

/-- One play of "a" and a fade-out of 2 seconds set on the instance. -/
def demoFadeStart : SoundManager :=
  run demoWorld demoOutput [.playSound "A" (some 8) (some demoSound), .touchSounds demoSetFadeout]

/-- An instance identical to `demoSound` but for its volume and remaining fade time. -/
def demoTone (volume fadeOutTime : Rat) : Sound :=
  { demoSound with mVolume := volume, mFadeOutTime := fadeOutTime }

/-- The state `demoFadeStart` after four update passes of half a second each. -/
def demoFaded : SoundManager :=
  updatePass demoWorld (updatePass demoWorld (updatePass demoWorld
    (updatePass demoWorld demoFadeStart demoPositions (1/2)) demoPositions (1/2))
    demoPositions (1/2)) demoPositions (1/2)

/-- The state `demoFadeStart` with the instance at the given volume and
remaining fade time. -/
def demoFadeAt (volume fadeOutTime : Rat) : SoundManager :=
  { demoFadeStart with mActiveSounds := [(0, [(demoTone volume fadeOutTime, 0)])] }

/-- The change `stop()` makes to an instance. -/
def demoStop : Ptr → Sound → Sound := fun _ sound => { sound with mPlaying := false }

/-- The operations behind `demoFaded`: one play of "a", a fade-out of 2
seconds, four update passes of half a second. -/
def demoFadeOps : List Op :=
  [.playSound "A" (some 8) (some demoSound), .touchSounds demoSetFadeout,
    .updatePass demoPositions (1/2), .updatePass demoPositions (1/2),
    .updatePass demoPositions (1/2), .updatePass demoPositions (1/2)]

/-- The state `demoFaded` after the instance has been stopped. -/
def demoFadedStopped : SoundManager := touchSounds demoFaded demoStop

/-- The change `stopSound3D(target)` makes: every instance of the entity is stopped. -/
def demoStopOf (target : Ptr) : Ptr → Sound → Sound :=
  fun ptr sound => if ptr = target then { sound with mPlaying := false } else sound

/-- A detached play of "a", a play of "b" on entity 5, then the sounds of
entity 5 stopped. -/
def demoMixedOps : List Op :=
  [.playSound "A" (some 8) (some demoSound),
    .playSound3D 5 ⟨0, 0, 0⟩ "B" 0 (some 3) (some demoSound),
    .touchSounds (demoStopOf 5)]

/-- The state after `demoMixedOps`: "a" playing, "b" stopped, both filed. -/
def demoMixed : SoundManager := run demoWorld demoOutput demoMixedOps

/-- Modelled from the spec's words, for comparison with `updateSounds`: the
durations handed to the passes when `pending` holds the durations of the calls
made since the previous pass. A call runs the pass when the time accumulated
since the previous pass, this call included, is at least 1/30 second, and the
pass receives the whole accumulated time. -/
def specPasses : List Rat → List Rat → List Rat
  | _, [] => []
  | pending, d :: ds =>
    if 1 / 30 ≤ (pending ++ [d]).sum then (pending ++ [d]).sum :: specPasses [] ds
    else specPasses (pending ++ [d]) ds

/-- Modelled from the spec's words: the durations of the calls made since the
last pass, after the calls `ds`. -/
def specPending : List Rat → List Rat → List Rat
  | pending, [] => pending
  | pending, d :: ds =>
    if 1 / 30 ≤ (pending ++ [d]).sum then specPending [] ds
    else specPending (pending ++ [d]) ds

/-- The calls of a sequence that get past line 792, each with the duration
its pass runs with (line 793). -/
def passCalls : Rat → List UpdateCall → List UpdateCall
  | _, [] => []
  | timePassed, c :: calls =>
    match passDuration timePassed c.duration with
    | none => passCalls (timePassed + c.duration) calls
    | some t => { c with duration := t } :: passCalls 0 calls

/-- The bodies of `updateSounds` run one after the other, one per pass. -/
def runPasses (w : World) (out : Sound_Output) (s : SoundManager) (passes : List UpdateCall) :
    SoundManager :=
  passes.foldl (fun acc c => updateSoundsBody w out acc c.action c.getPosition c.duration) s

/-- Three calls of `updateSounds` of 1/60, 1/60 and 1/100 second, with nothing
to do for the underwater sound and every entity at the origin. -/
def demoCalls : List UpdateCall :=
  [⟨1/60, .idle, demoPositions⟩, ⟨1/60, .idle, demoPositions⟩, ⟨1/100, .idle, demoPositions⟩]

/-- A region sound list with chances 10, 0 and 5. -/
def demoRegion : List ESM.SoundRef := [⟨"wind", 10⟩, ⟨"owl", 0⟩, ⟨"wolf", 5⟩]

/-- The representation invariant of a `std::map`: keys in strictly ascending
order, hence no key twice. -/
def MapSorted {β : Type} (m : List (Ptr × β)) : Prop := (m.map Prod.fst).Pairwise (· < ·)

instance {β : Type} (m : List (Ptr × β)) : Decidable (MapSorted m) :=
  inferInstanceAs (Decidable ((m.map Prod.fst).Pairwise (· < ·)))

/-- Both registries of a manager are well-formed maps. -/
def RegistriesSorted (s : SoundManager) : Prop :=
  MapSorted s.mActiveSounds ∧ MapSorted s.mActiveSaySounds

/-- A manager whose registry holds two entries of entity 3 and one of entity
7, and whose say registry holds one entry of entity 3. -/
def demoOwners : SoundManager :=
  { SoundManager.init with
    mActiveSounds := [(3, [(demoSound, 0), (demoSound, 1)]), (7, [(demoSound, 2)])],
    mActiveSaySounds := [(3, (demoSound, "hello"))] }

instance (s : SoundManager) : Decidable (RegistriesSorted s) :=
  inferInstanceAs (Decidable (_ ∧ _))

/-- Entity 3 plays "a" and entity 7 plays "b". -/
def demoTwoOwnersOps : List Op :=
  [.playSound3D 3 ⟨0, 0, 0⟩ "A" 0 (some 8) (some demoSound),
    .playSound3D 7 ⟨0, 0, 0⟩ "B" 0 (some 3) (some demoSound)]

/-- The state after `demoTwoOwnersOps`: one entry each, both counts 1. -/
def demoTwoOwners : SoundManager := run demoWorld demoOutput demoTwoOwnersOps

/-- What `stopSound(cell)` asks the world: the player's handle
(`MWMechanics::getPlayer()`) and the cell an entity is in (`Ptr::getCell()`,
a `CellStore` pointer, here a number). -/
structure CellView where
  player : Ptr
  getCell : Ptr → Nat

/-- The change `stop()` makes to an instance: the backend stops playing it. -/
def Sound.stop (sound : Sound) : Sound := { sound with mPlaying := false }

/-- The guard of `stopSound(cell)` (lines 634-636 and 647-649): the owner is
not the empty `Ptr`, is not the player and is in the cell. -/
def ownerInCell (v : CellView) (cell : Nat) (ptr : Ptr) : Prop :=
  ptr ≠ 0 ∧ ptr ≠ v.player ∧ v.getCell ptr = cell

instance (v : CellView) (cell : Nat) (ptr : Ptr) : Decidable (ownerInCell v cell ptr) :=
  inferInstanceAs (Decidable (_ ∧ _))

/-- `SoundManager::stopSound(const MWWorld::CellStore*)` (lines 629-655). -/
def stopSound (s : SoundManager) (v : CellView) (cell : Nat) : SoundManager :=
  { s with
    mActiveSounds := s.mActiveSounds.map (fun p =>
      if ownerInCell v cell p.1 then (p.1, p.2.map (fun e => (e.1.stop, e.2))) else p),
    mActiveSaySounds := s.mActiveSaySounds.map (fun p =>
      if ownerInCell v cell p.1 then (p.1, (p.2.1.stop, p.2.2)) else p) }

/-- A world for `stopSound(cell)`: entity 9 is the player, entities 3 and 9
are in cell 1, every other entity in cell 2. -/
def demoCells : CellView where
  player := 9
  getCell := fun ptr => if ptr = 3 ∨ ptr = 9 then 1 else 2

/-- A manager with playing entries of the empty owner, of entities 3 and 4
and of the player 9, and say entries of entities 3 and 9. -/
def demoCellState : SoundManager :=
  { SoundManager.init with
    mActiveSounds := [(0, [(demoSound, 0)]), (3, [(demoSound, 0), (demoSound, 1)]),
      (4, [(demoSound, 2)]), (9, [(demoSound, 1)])],
    mActiveSaySounds := [(3, (demoSound, "hello")), (9, (demoSound, "hey"))] }

/-- What registration fixes for a buffer entry: resource name, volume, min
and max distance. The handle and the reference count are not part of it. -/
def Sound_Buffer.definition (b : Sound_Buffer) : String × Rat × Rat × Rat :=
  (b.mResourceName, b.mVolume, b.mMinDist, b.mMaxDist)

/-- The definition table of `s2` is that of `s`: same keys, and index by index
the same registered attributes. -/
def SameTable (s s2 : SoundManager) : Prop :=
  s2.mBufferKeys = s.mBufferKeys ∧
  s2.mSoundBuffers.map Sound_Buffer.definition = s.mSoundBuffers.map Sound_Buffer.definition

/-- Every registered buffer has min distance at least 1 and max distance at
least its min distance. -/
def RangesOk (s : SoundManager) : Prop :=
  ∀ b ∈ s.mSoundBuffers, 1 ≤ b.mMinDist ∧ b.mMinDist ≤ b.mMaxDist

/-- Modelled from the spec's words, for comparison with `insertSound`: the
pair of distances before the multipliers as C23 states it, the raw range
fields if both are nonzero and the game-data defaults otherwise. -/
def specRange (w : World) (sound : ESM.Sound) : Rat × Rat :=
  if sound.mData.mMinRange ≠ 0 ∧ sound.mData.mMaxRange ≠ 0 then
    ((sound.mData.mMinRange : Rat), (sound.mData.mMaxRange : Rat))
  else (w.fAudioDefaultMinDistance, w.fAudioDefaultMaxDistance)

/-- A record with exactly one raw range field zero (the record "c" of `demoWorld`). -/
def demoRecord : ESM.Sound := ⟨"c", "c.wav", ⟨128, 1, 0⟩⟩

/-- A run of operations on `demoState`: a play, a stop, an update pass, a
move of the owner, a pass and `clear`. -/
def demoLifeOps : List Op :=
  [.playSound3D 3 ⟨0, 0, 0⟩ "C" 0 (some 5) (some demoSound), .touchSounds demoStop,
    .updatePass demoPositions (1/30), .playSound "A" none (some demoSound),
    .updatePtr 0 4, .lookupId "zzz", .clear]

/-- A decoder as `readAll` uses it: `read(buffer, n)` in state `st` hands back
the bytes it stores at the start of `buffer` and the state it is left in. -/
structure Sound_Decoder (σ : Type) where
  read : σ → Nat → List Nat × σ

/-- `std::vector<char>::resize(n)`: cut down to `n` bytes or padded with zero
bytes up to `n`. -/
def vectorResize (v : List Nat) (n : Nat) : List Nat :=
  v.take n ++ List.replicate (n - v.length) 0

/-- The vector after `read` has stored `chunk` at `&output[total]`. -/
def writeAt (output : List Nat) (total : Nat) (chunk : List Nat) : List Nat :=
  output.take total ++ chunk ++ output.drop (total + chunk.length)

/-- What a run of `readAll` leaves: the output vector, the decoder, the chunks
that `read` returned and the capacities it was offered, both in call order. -/
structure ReadAllResult (σ : Type) where
  output : List Nat
  state : σ
  chunks : List (List Nat)
  offered : List Nat

/-- The loop of `readAll` and the final `resize` (lines 980-985), for at most
`fuel` calls of `read`; `none` when the fuel runs out. -/
def readAllLoop {σ : Type} (d : Sound_Decoder σ) :
    Nat → σ → List Nat → Nat → Option (ReadAllResult σ)
  | 0, _, _, _ => none
  | fuel + 1, st, output, total =>
    if (d.read st (output.length - total)).1.length > 0 then
      (readAllLoop d fuel (d.read st (output.length - total)).2
        (vectorResize (writeAt output total (d.read st (output.length - total)).1)
          ((total + (d.read st (output.length - total)).1.length) * 2))
        (total + (d.read st (output.length - total)).1.length)).map
        (fun res => { res with
          chunks := (d.read st (output.length - total)).1 :: res.chunks,
          offered := (output.length - total) :: res.offered })
    else
      some ⟨vectorResize output total, (d.read st (output.length - total)).2, [],
        [output.length - total]⟩

/-- `Sound_Decoder::readAll` (lines 974-986). -/
def readAll {σ : Type} (d : Sound_Decoder σ) (fuel : Nat) (st : σ) (output : List Nat) :
    Option (ReadAllResult σ) :=
  readAllLoop d fuel st (vectorResize output (output.length + 32768)) output.length

/-- A decoder that holds the bytes still to come and hands out at most two at
a time. -/
def demoDecoder : Sound_Decoder (List Nat) where
  read := fun st n => (st.take (min n 2), st.drop (min n 2))

/-- Channel layouts (`ChannelConfig`). -/
inductive ChannelConfig where
  | ChannelConfig_Mono
  | ChannelConfig_Stereo
  | ChannelConfig_Quad
  | ChannelConfig_5point1
  | ChannelConfig_7point1
deriving DecidableEq

/-- Sample formats (`SampleType`). -/
inductive SampleType where
  | SampleType_UInt8
  | SampleType_Int16
  | SampleType_Float32
deriving DecidableEq

/-- `framesToBytes` (lines 1013-1030) on a `size_t` of `bits` bits: each
`frames *= k` wraps modulo `2 ^ bits`. -/
def framesToBytes (bits : Nat) (frames : Nat) (config : ChannelConfig) (type : SampleType) :
    Nat :=
  let frames1 :=
    match config with
    | .ChannelConfig_Mono => frames * 1 % 2 ^ bits
    | .ChannelConfig_Stereo => frames * 2 % 2 ^ bits
    | .ChannelConfig_Quad => frames * 4 % 2 ^ bits
    | .ChannelConfig_5point1 => frames * 6 % 2 ^ bits
    | .ChannelConfig_7point1 => frames * 8 % 2 ^ bits
  match type with
  | .SampleType_UInt8 => frames1 * 1 % 2 ^ bits
  | .SampleType_Int16 => frames1 * 2 % 2 ^ bits
  | .SampleType_Float32 => frames1 * 4 % 2 ^ bits

/-- `bytesToFrames` (lines 1032-1035). -/
def bytesToFrames (bits : Nat) (bytes : Nat) (config : ChannelConfig) (type : SampleType) :
    Nat :=
  bytes / framesToBytes bits 1 config type

/-- Modelled from the spec's words, for comparison with `framesToBytes`: the
number of channels of a configuration. -/
def channels : ChannelConfig → Nat
  | .ChannelConfig_Mono => 1
  | .ChannelConfig_Stereo => 2
  | .ChannelConfig_Quad => 4
  | .ChannelConfig_5point1 => 6
  | .ChannelConfig_7point1 => 8

/-- Modelled from the spec's words, for comparison with `framesToBytes`: the
size in bytes of one sample of a type. -/
def bytesPerSample : SampleType → Nat
  | .SampleType_UInt8 => 1
  | .SampleType_Int16 => 2
  | .SampleType_Float32 => 4

/-- The complement `~x` of an `int` of `bits` bits, on bit patterns. -/
def intNot (bits x : Nat) : Nat := 2 ^ bits - 1 - x

/-- `SoundManager::pauseSounds` (lines 705-713) on `mPausedSoundTypes`: the
mask it leaves and the argument it passes to the backend's `pauseSounds`,
`none` when the backend is not called. An `int` is its bit pattern;
`Play_TypeMask` is a constant of a header. -/
def pauseSounds (out : Sound_Output) (Play_TypeMask mPausedSoundTypes types : Nat) :
    Nat × Option Nat :=
  if out.isInitialized = true then
    (mPausedSoundTypes ||| (types &&& Play_TypeMask), some (types &&& Play_TypeMask))
  else (mPausedSoundTypes, none)

/-- `SoundManager::resumeSounds` (lines 715-723) on `mPausedSoundTypes`: the
mask it leaves and the argument it passes to the backend's `resumeSounds`. -/
def resumeSounds (bits : Nat) (out : Sound_Output)
    (Play_TypeMask mPausedSoundTypes types : Nat) : Nat × Option Nat :=
  if out.isInitialized = true then
    (mPausedSoundTypes
        &&& intNot bits (types &&& (types &&& Play_TypeMask &&& mPausedSoundTypes)),
      some (types &&& (types &&& Play_TypeMask &&& mPausedSoundTypes)))
  else (mPausedSoundTypes, none)

/-- A call of `pauseSounds` or of `resumeSounds`. -/
inductive PauseCall where
  | pause (types : Nat)
  | resume (types : Nat)

/-- The paused mask after a sequence of calls, from the value 0 the
constructor gives it. -/
def pausedAfter (bits : Nat) (out : Sound_Output) (Play_TypeMask : Nat)
    (calls : List PauseCall) : Nat :=
  calls.foldl (fun paused c =>
    match c with
    | .pause t => (pauseSounds out Play_TypeMask paused t).1
    | .resume t => (resumeSounds bits out Play_TypeMask paused t).1) 0

/-- The file list `startRandomTitle` builds from the VFS index (lines
351-359): from `index.lower_bound(pattern)` on, the keys that start with
`pattern`, up to the first that does not. The keys of the index, a
`std::map`, come in ascending order. -/
def musicFileList (index : List String) (pattern : String) : List String :=
  (index.dropWhile (fun k => strLess k pattern)).takeWhile (fun k => pattern.isPrefixOf k)

/-- The index `startRandomTitle` settles on (lines 370-378) for dice roll `i`. -/
def chosenIndex (filelist : List String) (mLastPlayedMusic : String) (i : Nat) : Nat :=
  if filelist.getD i "" = mLastPlayedMusic then (i + 1) % filelist.length else i

/-- The end of `startRandomTitle` (lines 367-380): the track handed to
`streamMusicFull`, `none` when the file list is empty and the function returns. -/
def startRandomTitle (filelist : List String) (mLastPlayedMusic : String) (i : Nat) :
    Option String :=
  if filelist.length = 0 then none
  else some (filelist.getD (chosenIndex filelist mLastPlayedMusic i) "")

/-- A playlist of three tracks. -/
def demoPlaylist : List String := ["music/a.mp3", "music/b.mp3", "music/c.mp3"]

/-! # Properties -/

/-! ## Facts about the table -/

theorem strLess_iff (a b : String) : strLess a b = true ↔ a < b := by
  simp [strLess, String.lt_iff_toList_lt]

theorem keysSorted_iff (keys : List String) : KeysSorted keys ↔ keys.Pairwise (· < ·) := by
  unfold KeysSorted
  constructor <;> intro h <;> exact h.imp (fun hab => by simpa [strLess_iff] using hab)

theorem sorted_getD_lt {keys : List String} (hs : keys.Pairwise (· < ·)) {i j : Nat}
    (hij : i < j) (hj : j < keys.length) : keys.getD i "" < keys.getD j "" := by
  have hi : i < keys.length := lt_trans hij hj
  rw [List.getD_eq_getElem _ _ hi, List.getD_eq_getElem _ _ hj]
  exact (List.pairwise_iff_getElem.mp hs) i j hi hj hij

theorem sorted_getD_le {keys : List String} (hs : keys.Pairwise (· < ·)) {i j : Nat}
    (hij : i ≤ j) (hj : j < keys.length) : keys.getD i "" ≤ keys.getD j "" := by
  rcases Nat.eq_or_lt_of_le hij with h | h
  · subst h; exact le_rfl
  · exact le_of_lt (sorted_getD_lt hs h hj)

theorem lowerBoundLoop_spec (keys : List String) (val : String) (hs : keys.Pairwise (· < ·)) :
    ∀ (fuel first len : Nat), len ≤ fuel → first + len ≤ keys.length →
      (∀ i, i < first → keys.getD i "" < val) →
      (∀ i, first + len ≤ i → i < keys.length → ¬ keys.getD i "" < val) →
      first ≤ lowerBoundLoop keys val fuel first len ∧
      lowerBoundLoop keys val fuel first len ≤ first + len ∧
      (∀ i, i < lowerBoundLoop keys val fuel first len → keys.getD i "" < val) ∧
      (∀ i, lowerBoundLoop keys val fuel first len ≤ i → i < keys.length →
        ¬ keys.getD i "" < val) := by
  intro fuel
  induction fuel with
  | zero =>
    intro first len hlen _ hlo hhi
    have h0 : len = 0 := Nat.le_zero.mp hlen
    subst h0
    simp only [lowerBoundLoop]
    exact ⟨le_rfl, by omega, hlo, fun i hi hil => hhi i (by omega) hil⟩
  | succ fuel ih =>
    intro first len hlen hbound hlo hhi
    by_cases h0 : len = 0
    · subst h0
      simp only [lowerBoundLoop, if_true]
      exact ⟨le_rfl, by omega, hlo, fun i hi hil => hhi i (by omega) hil⟩
    · have hhalf : len / 2 < len := Nat.div_lt_self (Nat.pos_of_ne_zero h0) (by decide)
      have hmid : first + len / 2 < keys.length := by omega
      by_cases hc : strLess (keys.getD (first + len / 2) "") val = true
      · have hstep : lowerBoundLoop keys val (fuel + 1) first len
            = lowerBoundLoop keys val fuel (first + len / 2 + 1) (len - len / 2 - 1) := by
          simp only [lowerBoundLoop, h0, hc, ↓reduceIte]
        rw [hstep]
        have hlt : keys.getD (first + len / 2) "" < val := (strLess_iff _ _).mp hc
        have := ih (first + len / 2 + 1) (len - len / 2 - 1) (by omega) (by omega)
          (fun i hi => lt_of_le_of_lt (sorted_getD_le hs (by omega) hmid) hlt)
          (fun i hi hil => hhi i (by omega) hil)
        obtain ⟨h1, h2, h3, h4⟩ := this
        exact ⟨by omega, by omega, h3, h4⟩
      · have hstep : lowerBoundLoop keys val (fuel + 1) first len
            = lowerBoundLoop keys val fuel first (len / 2) := by
          have hc2 : strLess (keys.getD (first + len / 2) "") val = false :=
            Bool.eq_false_iff.mpr hc
          simp only [lowerBoundLoop, h0, hc2, Bool.false_eq_true, ↓reduceIte]
        rw [hstep]
        have hnlt : ¬ keys.getD (first + len / 2) "" < val := fun h => hc ((strLess_iff _ _).mpr h)
        have := ih first (len / 2) (by omega) (by omega) hlo
          (fun i hi hil h => hnlt (lt_of_le_of_lt (sorted_getD_le hs hi hil) h))
        obtain ⟨h1, h2, h3, h4⟩ := this
        exact ⟨h1, by omega, h3, h4⟩

theorem lower_bound_spec (keys : List String) (val : String) (hs : keys.Pairwise (· < ·)) :
    lower_bound keys val ≤ keys.length ∧
    (∀ i, i < lower_bound keys val → keys.getD i "" < val) ∧
    (∀ i, lower_bound keys val ≤ i → i < keys.length → ¬ keys.getD i "" < val) := by
  have := lowerBoundLoop_spec keys val hs keys.length 0 keys.length le_rfl (by omega)
    (fun i hi => absurd hi (Nat.not_lt_zero _)) (fun i hi hil => absurd hil (by omega))
  obtain ⟨_, h2, h3, h4⟩ := this
  exact ⟨by simpa [lower_bound] using h2, h3, h4⟩


theorem mem_iff_getD (keys : List String) (x : String) :
    x ∈ keys ↔ ∃ i, i < keys.length ∧ keys.getD i "" = x := by
  constructor
  · intro h
    obtain ⟨i, hi, he⟩ := List.mem_iff_getElem.mp h
    exact ⟨i, hi, by rw [List.getD_eq_getElem _ _ hi]; exact he⟩
  · rintro ⟨i, hi, he⟩
    rw [List.getD_eq_getElem _ _ hi] at he
    exact he ▸ List.getElem_mem hi

theorem keyFoundAt_iff (keys : List String) (r : Nat) (val : String) :
    keyFoundAt keys r val = true ↔ r < keys.length ∧ keys.getD r "" = val := by
  simp only [keyFoundAt, Bool.and_eq_true, decide_eq_true_eq]

theorem lower_bound_unique {keys : List String} (hs : keys.Pairwise (· < ·)) {val : String}
    {j : Nat} (hj : j < keys.length) (h : keys.getD j "" = val) : lower_bound keys val = j := by
  obtain ⟨_, hlo, hhi⟩ := lower_bound_spec keys val hs
  have hrj : lower_bound keys val ≤ j := by
    by_contra hcon
    have := hlo j (by omega)
    rw [h] at this
    exact lt_irrefl _ this
  rcases Nat.eq_or_lt_of_le hrj with heq | hlt
  · exact heq
  · exfalso
    have h1 := sorted_getD_lt hs hlt hj
    rw [h] at h1
    exact hhi _ le_rfl (by omega) h1

theorem lower_bound_found_iff {keys : List String} (hs : keys.Pairwise (· < ·)) (val : String) :
    keyFoundAt keys (lower_bound keys val) val = true ↔ val ∈ keys := by
  rw [keyFoundAt_iff, mem_iff_getD]
  constructor
  · intro h
    exact ⟨_, h.1, h.2⟩
  · rintro ⟨j, hj, he⟩
    rw [lower_bound_unique hs hj he]
    exact ⟨hj, he⟩

theorem vectorInsert_sorted {keys : List String} (hs : keys.Pairwise (· < ·)) (val : String)
    (hnf : keyFoundAt keys (lower_bound keys val) val = false) :
    (vectorInsert keys (lower_bound keys val) val).Pairwise (· < ·) := by
  obtain ⟨_, hlo, hhi⟩ := lower_bound_spec keys val hs
  have hnot : val ∉ keys := by
    intro hm
    rw [(lower_bound_found_iff hs val).mpr hm] at hnf
    exact Bool.noConfusion hnf
  have htake : ∀ a ∈ keys.take (lower_bound keys val), a < val := by
    intro a ha
    obtain ⟨i, hi, he⟩ := List.mem_take_iff_getElem.mp ha
    have hi2 : i < lower_bound keys val ∧ i < keys.length := by
      simpa [Nat.lt_min] using hi
    have := hlo i hi2.1
    rw [List.getD_eq_getElem _ _ hi2.2, he] at this
    exact this
  have hdrop : ∀ b ∈ keys.drop (lower_bound keys val), val < b := by
    intro b hb
    obtain ⟨i, hi, he⟩ := List.mem_drop_iff_getElem.mp hb
    have hi2 : lower_bound keys val + i < keys.length := by omega
    have := hhi (lower_bound keys val + i) (by omega) hi2
    rw [List.getD_eq_getElem _ _ hi2, he] at this
    rcases lt_or_eq_of_le (not_lt.mp this) with h | h
    · exact h
    · exact absurd (h ▸ List.mem_of_mem_drop hb) hnot
  unfold vectorInsert
  rw [List.pairwise_append]
  refine ⟨hs.sublist (List.take_sublist _ _), ?_, ?_⟩
  · exact List.pairwise_cons.mpr ⟨hdrop, hs.sublist (List.drop_sublist _ _)⟩
  · intro a ha b hb
    rcases List.mem_cons.mp hb with h | h
    · exact h ▸ htake a ha
    · exact lt_trans (htake a ha) (hdrop b h)

theorem mem_vectorInsert {α : Type} (l : List α) (pos : Nat) (x y : α) :
    y ∈ vectorInsert l pos x ↔ y = x ∨ y ∈ l := by
  unfold vectorInsert
  rw [List.mem_append, List.mem_cons]
  constructor
  · rintro (h | h | h)
    · exact Or.inr (List.mem_of_mem_take h)
    · exact Or.inl h
    · exact Or.inr (List.mem_of_mem_drop h)
  · rintro (h | h)
    · exact Or.inr (Or.inl h)
    · rw [← List.take_append_drop pos l, List.mem_append] at h
      rcases h with h | h
      · exact Or.inl h
      · exact Or.inr (Or.inr h)

theorem vectorInsert_map {α β : Type} (f : α → β) (l : List α) (pos : Nat) (x : α) :
    (vectorInsert l pos x).map f = vectorInsert (l.map f) pos (f x) := by
  simp [vectorInsert, List.map_take, List.map_drop]

theorem length_vectorInsert {α : Type} (l : List α) (pos : Nat) (x : α) :
    (vectorInsert l pos x).length = l.length + 1 := by
  unfold vectorInsert
  rw [List.length_append, List.length_cons, List.length_take, List.length_drop]
  omega

theorem registeredWith_append_of_mem (w : World) (calls : List (String × ESM.Sound))
    (c : String × ESM.Sound) (k : String) (h : ∃ c0 ∈ calls, c0.1 = k) :
    registeredWith w (calls ++ [c]) k = registeredWith w calls k := by
  unfold registeredWith
  rw [List.find?_append]
  obtain ⟨c0, hc0, he⟩ := h
  cases hf : calls.find? (fun c => decide (c.1 = k)) with
  | some x => rfl
  | none =>
    have := List.find?_eq_none.mp hf c0 hc0
    simp [he] at this

theorem registeredWith_append_of_not_mem (w : World) (calls : List (String × ESM.Sound))
    (c : String × ESM.Sound) (h : ¬ ∃ c0 ∈ calls, c0.1 = c.1) :
    registeredWith w (calls ++ [c]) c.1 = some (makeBuffer w c.2) := by
  unfold registeredWith
  rw [List.find?_append]
  have hf : calls.find? (fun c0 => decide (c0.1 = c.1)) = none := by
    rw [List.find?_eq_none]
    intro x hx hd
    exact h ⟨x, hx, by simpa using hd⟩
  rw [hf]
  simp

theorem TableInv.insert {w : World} {calls : List (String × ESM.Sound)} {s : SoundManager}
    (h : TableInv w calls s) (c : String × ESM.Sound) :
    TableInv w (calls ++ [c]) (insertSound w s c.1 c.2) := by
  have hcongr : s.mBufferKeys.map (registeredWith w (calls ++ [c]))
      = s.mBufferKeys.map (registeredWith w calls) :=
    List.map_congr_left (fun k hk =>
      registeredWith_append_of_mem w calls c k ((h.keys k).mp hk))
  by_cases hf : keyFoundAt s.mBufferKeys (lower_bound s.mBufferKeys c.1) c.1 = true
  · have hs : insertSound w s c.1 c.2 = s := by simp only [insertSound, hf, ↓reduceIte]
    rw [hs]
    have hmem : c.1 ∈ s.mBufferKeys := (lower_bound_found_iff h.sorted c.1).mp hf
    refine ⟨h.sorted, by rw [hcongr]; exact h.attrs, ?_⟩
    intro k
    rw [h.keys k]
    constructor
    · rintro ⟨c0, hc0, he⟩
      exact ⟨c0, List.mem_append_left _ hc0, he⟩
    · rintro ⟨c0, hc0, he⟩
      rcases List.mem_append.mp hc0 with h1 | h1
      · exact ⟨c0, h1, he⟩
      · have : c0 = c := by simpa using h1
        subst this
        exact (h.keys k).mp (he ▸ hmem)
  · have hf2 : keyFoundAt s.mBufferKeys (lower_bound s.mBufferKeys c.1) c.1 = false :=
      Bool.eq_false_iff.mpr hf
    have hnot : c.1 ∉ s.mBufferKeys := fun hm => hf ((lower_bound_found_iff h.sorted c.1).mpr hm)
    have hnew : registeredWith w (calls ++ [c]) c.1 = some (makeBuffer w c.2) :=
      registeredWith_append_of_not_mem w calls c (fun hex => hnot ((h.keys c.1).mpr hex))
    simp only [insertSound, hf2, Bool.false_eq_true, ↓reduceIte]
    refine ⟨vectorInsert_sorted h.sorted c.1 hf2, ?_, ?_⟩
    · show (vectorInsert s.mSoundBuffers _ _).map some = (vectorInsert s.mBufferKeys _ _).map _
      rw [vectorInsert_map, vectorInsert_map, hnew, hcongr, h.attrs]
    · intro k
      show k ∈ vectorInsert s.mBufferKeys _ _ ↔ _
      rw [mem_vectorInsert, h.keys k]
      constructor
      · rintro (h1 | ⟨c0, hc0, he⟩)
        · exact ⟨c, by simp, h1.symm⟩
        · exact ⟨c0, List.mem_append_left _ hc0, he⟩
      · rintro ⟨c0, hc0, he⟩
        rcases List.mem_append.mp hc0 with h1 | h1
        · exact Or.inr ⟨c0, h1, he⟩
        · have : c0 = c := by simpa using h1
          subst this
          exact Or.inl he.symm

theorem TableInv.insertAll {w : World} (rest : List (String × ESM.Sound)) :
    ∀ {calls : List (String × ESM.Sound)} {s : SoundManager}, TableInv w calls s →
      TableInv w (calls ++ rest) (insertAll w rest s) := by
  induction rest with
  | nil => intro calls s h; simpa [MWSound.insertAll] using h
  | cons c rest ih =>
    intro calls s h
    have := ih (h.insert c)
    simpa [MWSound.insertAll, List.append_assoc] using this

theorem TableInv.of_empty (w : World) : TableInv w [] SoundManager.init :=
  ⟨List.Pairwise.nil, rfl, fun k => by simp [SoundManager.init]⟩

theorem TableInv.length_eq {w : World} {calls : List (String × ESM.Sound)} {s : SoundManager}
    (h : TableInv w calls s) : s.mSoundBuffers.length = s.mBufferKeys.length := by
  have := congrArg List.length h.attrs
  simpa using this

theorem TableInv.buffer_at {w : World} {calls : List (String × ESM.Sound)} {s : SoundManager}
    (h : TableInv w calls s) (i : Nat) (hi : i < s.mBufferKeys.length) :
    ∃ c, calls.find? (fun c => decide (c.1 = s.mBufferKeys.getD i "")) = some c ∧
      s.mSoundBuffers[i]? = some (makeBuffer w c.2) := by
  have hlen := h.length_eq
  have h1 : (s.mSoundBuffers.map some)[i]? = (s.mBufferKeys.map (registeredWith w calls))[i]? := by
    rw [h.attrs]
  rw [List.getElem?_map, List.getElem?_map, List.getElem?_eq_getElem (by omega),
    List.getElem?_eq_getElem hi] at h1
  simp only [Option.map_some'] at h1
  have h2 : registeredWith w calls (s.mBufferKeys.getD i "") = some s.mSoundBuffers[i] := by
    rw [List.getD_eq_getElem _ _ hi]
    exact (Option.some.inj h1).symm
  unfold registeredWith at h2
  cases hf : calls.find? (fun c => decide (c.1 = s.mBufferKeys.getD i "")) with
  | none => rw [hf] at h2; simp at h2
  | some c =>
    rw [hf] at h2
    refine ⟨c, rfl, ?_⟩
    rw [List.getElem?_eq_getElem (by omega)]
    simp only [Option.map_some'] at h2
    exact h2.symm

theorem pairwise_lt_nodup {keys : List String} (hs : keys.Pairwise (· < ·)) : keys.Nodup :=
  hs.imp (fun h => ne_of_lt h)

/-- C2: after any sequence of `insertSound` calls on the empty table the keys
are strictly ascending and free of duplicates, both vectors have the same
length, and the buffer at each index carries the attributes computed from the
record that was registered with the key at that index. -/
theorem insertSound_keeps_table_sorted_and_parallel (w : World)
    (calls : List (String × ESM.Sound)) :
    KeysSorted (insertAll w calls SoundManager.init).mBufferKeys ∧
    (insertAll w calls SoundManager.init).mBufferKeys.Nodup ∧
    (insertAll w calls SoundManager.init).mSoundBuffers.length
      = (insertAll w calls SoundManager.init).mBufferKeys.length ∧
    ∀ i, i < (insertAll w calls SoundManager.init).mBufferKeys.length →
      ∃ c, calls.find?
          (fun c => decide (c.1 = (insertAll w calls SoundManager.init).mBufferKeys.getD i ""))
          = some c ∧
        (insertAll w calls SoundManager.init).mSoundBuffers[i]? = some (makeBuffer w c.2) := by
  have h : TableInv w calls (insertAll w calls SoundManager.init) := by
    simpa using (TableInv.of_empty w).insertAll calls
  exact ⟨(keysSorted_iff _).mpr h.sorted, pairwise_lt_nodup h.sorted, h.length_eq,
    fun i hi => h.buffer_at i hi⟩

theorem loadAllSounds_eq_insertAll (w : World) (s : SoundManager) :
    loadAllSounds w s = insertAll w (w.sounds.map (fun r => (w.lowerCase r.mId, r))) s := by
  simp [loadAllSounds, insertAll, List.foldl_map]

theorem lookupId_of_mem (w : World) (s : SoundManager) (soundId : String)
    (hs : s.mBufferKeys.Pairwise (· < ·)) (hm : soundId ∈ s.mBufferKeys) :
    lookupId w s soundId = (s, some (lower_bound s.mBufferKeys soundId)) := by
  simp only [lookupId, (lower_bound_found_iff hs soundId).mpr hm, ↓reduceIte]

theorem lookupId_of_not_mem_nonempty (w : World) (s : SoundManager) (soundId : String)
    (hs : s.mBufferKeys.Pairwise (· < ·)) (hm : soundId ∉ s.mBufferKeys)
    (hne : s.mBufferKeys ≠ []) : lookupId w s soundId = (s, none) := by
  have hf : keyFoundAt s.mBufferKeys (lower_bound s.mBufferKeys soundId) soundId = false :=
    Bool.eq_false_iff.mpr (fun h => hm ((lower_bound_found_iff hs soundId).mp h))
  have he : s.mBufferKeys.isEmpty = false := by
    cases hk : s.mBufferKeys with
    | nil => exact absurd hk hne
    | cons a l => rfl
  simp only [lookupId, hf, he, Bool.false_eq_true, ↓reduceIte]

theorem lookupId_of_empty (w : World) (s : SoundManager) (soundId : String)
    (he : s.mBufferKeys = []) :
    lookupId w s soundId =
      if keyFoundAt (loadAllSounds w s).mBufferKeys
          (lower_bound (loadAllSounds w s).mBufferKeys soundId) soundId
      then (loadAllSounds w s, some (lower_bound (loadAllSounds w s).mBufferKeys soundId))
      else (loadAllSounds w s, none) := by
  have hf : keyFoundAt s.mBufferKeys (lower_bound s.mBufferKeys soundId) soundId = false := by
    rw [he]; rfl
  have hemp : s.mBufferKeys.isEmpty = true := by rw [he]; rfl
  simp only [lookupId, hf, hemp, Bool.false_eq_true, ↓reduceIte]

theorem getElem?_eq_some_iff_getD (keys : List String) (i : Nat) (x : String) :
    keys[i]? = some x ↔ i < keys.length ∧ keys.getD i "" = x := by
  constructor
  · intro h
    obtain ⟨hi, he⟩ := List.getElem?_eq_some.mp h
    exact ⟨hi, by rw [List.getD_eq_getElem _ _ hi]; exact he⟩
  · rintro ⟨hi, he⟩
    rw [List.getD_eq_getElem _ _ hi] at he
    rw [List.getElem?_eq_getElem hi, he]

/-- C3: for an identity that is a key of the sorted table, `lookupId` returns
the one index holding that key and leaves the manager unchanged, a second call
returns the same index, and the const overload agrees. -/
theorem lookupId_returns_the_index_of_a_key (w : World) (s : SoundManager) (soundId : String)
    (hs : KeysSorted s.mBufferKeys) (hm : soundId ∈ s.mBufferKeys) :
    ∃ i, lookupId w s soundId = (s, some i) ∧
      s.mBufferKeys[i]? = some soundId ∧
      (∀ j, s.mBufferKeys[j]? = some soundId → j = i) ∧
      lookupId w (lookupId w s soundId).1 soundId = (s, some i) ∧
      lookupIdConst s soundId = some i := by
  have hs2 := (keysSorted_iff _).mp hs
  have hf := (lower_bound_found_iff hs2 soundId).mpr hm
  have hl := lookupId_of_mem w s soundId hs2 hm
  refine ⟨lower_bound s.mBufferKeys soundId, hl, ?_, ?_, ?_, ?_⟩
  · exact (getElem?_eq_some_iff_getD _ _ _).mpr ((keyFoundAt_iff _ _ _).mp hf)
  · intro j hj
    obtain ⟨hj1, hj2⟩ := (getElem?_eq_some_iff_getD _ _ _).mp hj
    exact (lower_bound_unique hs2 hj1 hj2).symm
  · rw [hl]; exact hl
  · simp only [lookupIdConst, hf, ↓reduceIte]

/-- C4: registering an identity that the sorted table already holds changes
nothing: keys, buffers and every registered attribute stay as they were. -/
theorem insertSound_of_registered_identity_is_noop (w : World) (s : SoundManager)
    (soundId : String) (sound : ESM.Sound)
    (hs : KeysSorted s.mBufferKeys) (hm : soundId ∈ s.mBufferKeys) :
    insertSound w s soundId sound = s := by
  have hf := (lower_bound_found_iff ((keysSorted_iff _).mp hs) soundId).mpr hm
  simp only [insertSound, hf, ↓reduceIte]

/-- C5: the non-const `lookupId` throws exactly when the identity is absent
from the key table it leaves behind. On a non-empty table nothing is loaded and
it throws iff the identity is not a key; on an empty table every record of the
store is first registered under its lowercased identity, and it throws iff the
identity is not among those keys. An index that is returned holds the identity. -/
theorem lookupId_throws_iff_absent_after_bulk_load (w : World) (s : SoundManager)
    (soundId : String) (hs : KeysSorted s.mBufferKeys)
    (hlen : s.mSoundBuffers.length = s.mBufferKeys.length) :
    (s.mBufferKeys ≠ [] →
      (lookupId w s soundId).1 = s ∧
      ((lookupId w s soundId).2 = none ↔ soundId ∉ s.mBufferKeys)) ∧
    (s.mBufferKeys = [] →
      (lookupId w s soundId).1 = loadAllSounds w s ∧
      (∀ k, k ∈ (loadAllSounds w s).mBufferKeys ↔ ∃ r ∈ w.sounds, w.lowerCase r.mId = k) ∧
      ((lookupId w s soundId).2 = none ↔ soundId ∉ (loadAllSounds w s).mBufferKeys)) ∧
    (∀ i, (lookupId w s soundId).2 = some i →
      (lookupId w s soundId).1.mBufferKeys[i]? = some soundId) := by
  have hs2 := (keysSorted_iff _).mp hs
  have hload : s.mBufferKeys = [] →
      TableInv w (w.sounds.map (fun r => (w.lowerCase r.mId, r))) (loadAllSounds w s) := by
    intro he
    have hb : s.mSoundBuffers = [] := List.length_eq_zero.mp (by rw [hlen, he]; rfl)
    have h0 : TableInv w [] s := ⟨hs2, by rw [hb, he]; rfl, fun k => by simp [he]⟩
    rw [loadAllSounds_eq_insertAll]
    simpa using h0.insertAll (w.sounds.map (fun r => (w.lowerCase r.mId, r)))
  refine ⟨?_, ?_, ?_⟩
  · intro hne
    by_cases hm : soundId ∈ s.mBufferKeys
    · rw [lookupId_of_mem w s soundId hs2 hm]
      exact ⟨rfl, by simp [hm]⟩
    · rw [lookupId_of_not_mem_nonempty w s soundId hs2 hm hne]
      exact ⟨rfl, by simp [hm]⟩
  · intro he
    have hT := hload he
    rw [lookupId_of_empty w s soundId he]
    refine ⟨by split <;> rfl, ?_, ?_⟩
    · intro k
      rw [hT.keys k]
      constructor
      · rintro ⟨c, hc, hk⟩
        obtain ⟨r, hr, hrc⟩ := List.mem_map.mp hc
        exact ⟨r, hr, by rw [← hk, ← hrc]⟩
      · rintro ⟨r, hr, hk⟩
        exact ⟨(w.lowerCase r.mId, r), List.mem_map.mpr ⟨r, hr, rfl⟩, hk⟩
    · by_cases hm : soundId ∈ (loadAllSounds w s).mBufferKeys
      · simp [(lower_bound_found_iff hT.sorted soundId).mpr hm, hm]
      · have hf : keyFoundAt (loadAllSounds w s).mBufferKeys
            (lower_bound (loadAllSounds w s).mBufferKeys soundId) soundId = false :=
          Bool.eq_false_iff.mpr (fun h => hm ((lower_bound_found_iff hT.sorted soundId).mp h))
        simp [hf, hm]
  · intro i hi
    by_cases he : s.mBufferKeys = []
    · have hT := hload he
      rw [lookupId_of_empty w s soundId he] at hi ⊢
      by_cases hf : keyFoundAt (loadAllSounds w s).mBufferKeys
            (lower_bound (loadAllSounds w s).mBufferKeys soundId) soundId = true
      · simp only [hf, ↓reduceIte] at hi ⊢
        have : lower_bound (loadAllSounds w s).mBufferKeys soundId = i := Option.some.inj hi
        rw [← this]
        exact (getElem?_eq_some_iff_getD _ _ _).mpr ((keyFoundAt_iff _ _ _).mp hf)
      · simp only [Bool.eq_false_iff.mpr hf, Bool.false_eq_true, ↓reduceIte] at hi
        exact absurd hi (by simp)
    · by_cases hm : soundId ∈ s.mBufferKeys
      · rw [lookupId_of_mem w s soundId hs2 hm] at hi ⊢
        have : lower_bound s.mBufferKeys soundId = i := Option.some.inj hi
        rw [← this]
        exact (getElem?_eq_some_iff_getD _ _ _).mpr
          ((keyFoundAt_iff _ _ _).mp ((lower_bound_found_iff hs2 soundId).mpr hm))
      · rw [lookupId_of_not_mem_nonempty w s soundId hs2 hm he] at hi
        exact absurd hi (by simp)

/-! ## Facts about the cache -/

theorem getD_set_eq (l : List Sound_Buffer) (i : Nat) (b : Sound_Buffer) (hi : i < l.length) :
    (l.set i b).getD i default = b := by
  rw [List.getD_eq_getElem?_getD, List.getElem?_set]
  simp [hi]

theorem getD_set_ne (l : List Sound_Buffer) (i j : Nat) (b : Sound_Buffer) (h : i ≠ j) :
    (l.set i b).getD j default = l.getD j default := by
  rw [List.getD_eq_getElem?_getD, List.getD_eq_getElem?_getD, List.getElem?_set]
  simp [h]

theorem lt_length_of_handle {l : List Sound_Buffer} {i : Nat}
    (h : (l.getD i default).mHandle ≠ 0) : i < l.length := by
  by_contra hcon
  rw [List.getD_eq_default _ _ (not_lt.mp hcon)] at h
  exact h rfl

theorem cacheSum_set (out : Sound_Output) (l : List Sound_Buffer) (i : Nat) (b : Sound_Buffer)
    (hi : i < l.length) :
    cacheSum out (l.set i b) + loadedSize out (l.getD i default)
      = cacheSum out l + loadedSize out b := by
  induction l generalizing i with
  | nil => exact absurd hi (Nat.not_lt_zero _)
  | cons a l ih =>
    cases i with
    | zero =>
      simp only [List.set_cons_zero, cacheSum, List.map_cons, List.sum_cons, List.getD_cons_zero]
      omega
    | succ i =>
      have := ih i (Nat.lt_of_succ_lt_succ hi)
      simp only [List.set_cons_succ, cacheSum, List.map_cons, List.sum_cons,
        List.getD_cons_succ] at this ⊢
      omega

theorem CacheInv.refs_nonneg {out : Sound_Output} {bufs : List Sound_Buffer} {unused : List Nat}
    {total : Int} {x : Option Nat} {M : List Nat} (h : CacheInv out bufs unused total x M)
    (i : Nat) : 0 ≤ (bufs.getD i default).mReferences :=
  le_trans (Int.ofNat_nonneg _) (h.counts i)

theorem CacheInv.mono {out : Sound_Output} {bufs : List Sound_Buffer} {unused : List Nat}
    {total : Int} {x : Option Nat} {M M2 : List Nat} (h : CacheInv out bufs unused total x M)
    (hc : ∀ i, M2.count i ≤ M.count i) : CacheInv out bufs unused total x M2 :=
  ⟨h.unused_iff, h.nodup, h.loaded, h.total_eq,
    fun i => le_trans (Int.ofNat_le.mpr (hc i)) (h.counts i)⟩

/-- Loading entry `i`, whose handle was null. -/
theorem CacheInv.load {out : Sound_Output} {bufs : List Sound_Buffer} {unused : List Nat}
    {total : Int} {M : List Nat} (h : CacheInv out bufs unused total none M)
    {i : Nat} (hi : i < bufs.length) (h0 : (bufs.getD i default).mHandle = 0)
    {hd : Sound_Handle} (hhd : hd ≠ 0) :
    CacheInv out (bufs.set i { bufs.getD i default with mHandle := hd }) unused
      (total + (out.getSoundDataSize hd : Int)) (some i) M := by
  refine ⟨?_, h.nodup, ?_, ?_, ?_⟩
  · intro j
    by_cases hij : i = j
    · subst hij
      rw [getD_set_eq _ _ _ hi]
      constructor
      · intro hm
        exact absurd h0 ((h.unused_iff i).mp hm).1
      · intro hc
        exact absurd rfl hc.2.2
    · rw [getD_set_ne _ _ _ _ hij, h.unused_iff j]
      constructor
      · intro hc
        exact ⟨hc.1, hc.2.1, fun he => hij (Option.some.inj he)⟩
      · intro hc
        exact ⟨hc.1, hc.2.1, by simp⟩
  · intro j hj
    by_cases hij : i = j
    · subst hij
      rw [getD_set_eq _ _ _ hi]
      exact hhd
    · rw [getD_set_ne _ _ _ _ hij] at hj ⊢
      exact h.loaded j hj
  · have hs := cacheSum_set out bufs i { bufs.getD i default with mHandle := hd } hi
    have h1 : loadedSize out (bufs.getD i default) = 0 := by
      unfold loadedSize; exact if_pos h0
    have h2 : loadedSize out { bufs.getD i default with mHandle := hd }
        = out.getSoundDataSize hd := by
      unfold loadedSize; exact if_neg hhd
    rw [h1, h2] at hs
    rw [h.total_eq]
    have : (cacheSum out (bufs.set i { bufs.getD i default with mHandle := hd }) : Int)
        = (cacheSum out bufs : Int) + (out.getSoundDataSize hd : Int) := by
      exact_mod_cast hs
    rw [this]
  · intro j
    by_cases hij : i = j
    · subst hij
      rw [getD_set_eq _ _ _ hi]
      exact h.counts i
    · rw [getD_set_ne _ _ _ _ hij]
      exact h.counts j

/-- Evicting the back of the unused list. -/
theorem CacheInv.evict {out : Sound_Output} {bufs : List Sound_Buffer} {unused : List Nat}
    {total : Int} {x : Option Nat} {M : List Nat} (h : CacheInv out bufs unused total x M)
    {u : Nat} (hu : unused.getLast? = some u) :
    CacheInv out (bufs.set u { bufs.getD u default with mHandle := 0 }) unused.dropLast
      (total - (out.getSoundDataSize (bufs.getD u default).mHandle : Int)) x M := by
  obtain ⟨ys, hys⟩ := List.getLast?_eq_some_iff.mp hu
  have hmem : u ∈ unused := by rw [hys]; simp
  have hub := (h.unused_iff u).mp hmem
  have hul : u < bufs.length := lt_length_of_handle hub.1
  have hnd : (ys ++ [u]).Nodup := hys ▸ h.nodup
  have hnot : u ∉ ys := by
    intro hm
    have := (List.nodup_append.mp hnd).2.2
    exact this hm (by simp)
  have hdl : unused.dropLast = ys := by rw [hys]; simp
  rw [hdl]
  refine ⟨?_, (List.nodup_append.mp hnd).1, ?_, ?_, ?_⟩
  · intro j
    by_cases hij : u = j
    · subst hij
      rw [getD_set_eq _ _ _ hul]
      constructor
      · intro hm; exact absurd hm hnot
      · intro hc; exact absurd rfl hc.1
    · rw [getD_set_ne _ _ _ _ hij, ← h.unused_iff j, hys]
      simp [Ne.symm hij]
  · intro j hj
    by_cases hij : u = j
    · subst hij
      rw [getD_set_eq _ _ _ hul] at hj
      exact absurd hub.2.1 (ne_of_gt hj)
    · rw [getD_set_ne _ _ _ _ hij] at hj ⊢
      exact h.loaded j hj
  · have hs := cacheSum_set out bufs u { bufs.getD u default with mHandle := 0 } hul
    have h1 : loadedSize out (bufs.getD u default)
        = out.getSoundDataSize (bufs.getD u default).mHandle := by
      unfold loadedSize; exact if_neg hub.1
    have h2 : loadedSize out { bufs.getD u default with mHandle := 0 } = 0 := by
      unfold loadedSize; exact if_pos rfl
    rw [h1, h2] at hs
    rw [h.total_eq]
    have : (cacheSum out bufs : Int)
        = (cacheSum out (bufs.set u { bufs.getD u default with mHandle := 0 }) : Int)
          + (out.getSoundDataSize (bufs.getD u default).mHandle : Int) := by
      exact_mod_cast hs.symm
    rw [this]
    ring
  · intro j
    by_cases hij : u = j
    · subst hij
      rw [getD_set_eq _ _ _ hul]
      exact h.counts u
    · rw [getD_set_ne _ _ _ _ hij]
      exact h.counts j

/-- Pushing the entry just loaded onto the front of the unused list. -/
theorem CacheInv.pushLoaded {out : Sound_Output} {bufs : List Sound_Buffer} {unused : List Nat}
    {total : Int} {M : List Nat} {i : Nat} (h : CacheInv out bufs unused total (some i) M)
    (hh : (bufs.getD i default).mHandle ≠ 0) (hr : (bufs.getD i default).mReferences = 0) :
    CacheInv out bufs (i :: unused) total none M := by
  have hnot : i ∉ unused := fun hm => ((h.unused_iff i).mp hm).2.2 rfl
  refine ⟨?_, List.nodup_cons.mpr ⟨hnot, h.nodup⟩, h.loaded, h.total_eq, h.counts⟩
  intro j
  rw [List.mem_cons, h.unused_iff j]
  by_cases hij : j = i
  · subst hij
    exact ⟨fun _ => ⟨hh, hr, by simp⟩, fun _ => Or.inl rfl⟩
  · constructor
    · rintro (he | hc)
      · exact absurd he hij
      · exact ⟨hc.1, hc.2.1, by simp⟩
    · intro hc
      exact Or.inr ⟨hc.1, hc.2.1, fun he => hij (Option.some.inj he).symm⟩

/-- Taking a reference on a loaded entry (`mReferences++ == 0`). -/
theorem CacheInv.acquire {out : Sound_Output} {bufs : List Sound_Buffer} {unused : List Nat}
    {total : Int} {M : List Nat} (h : CacheInv out bufs unused total none M)
    {i : Nat} (hh : (bufs.getD i default).mHandle ≠ 0) :
    CacheInv out
      (bufs.set i { bufs.getD i default with
        mReferences := (bufs.getD i default).mReferences + 1 })
      (if (bufs.getD i default).mReferences = 0 then unused.erase i else unused)
      total none (i :: M) := by
  have hil : i < bufs.length := lt_length_of_handle hh
  have hnn := h.refs_nonneg i
  refine ⟨?_, ?_, ?_, ?_, ?_⟩
  · intro j
    by_cases hij : i = j
    · subst hij
      rw [getD_set_eq _ _ _ hil]
      constructor
      · intro hm
        exfalso
        by_cases hr : (bufs.getD i default).mReferences = 0
        · rw [if_pos hr] at hm
          exact h.nodup.not_mem_erase hm
        · rw [if_neg hr] at hm
          exact hr ((h.unused_iff i).mp hm).2.1
      · intro hc
        have : (bufs.getD i default).mReferences + 1 = 0 := hc.2.1
        omega
    · rw [getD_set_ne _ _ _ _ hij, ← h.unused_iff j]
      by_cases hr : (bufs.getD i default).mReferences = 0
      · rw [if_pos hr]
        exact List.mem_erase_of_ne (Ne.symm hij)
      · rw [if_neg hr]
  · by_cases hr : (bufs.getD i default).mReferences = 0
    · rw [if_pos hr]; exact h.nodup.erase i
    · rw [if_neg hr]; exact h.nodup
  · intro j hj
    by_cases hij : i = j
    · subst hij
      rw [getD_set_eq _ _ _ hil]
      exact hh
    · rw [getD_set_ne _ _ _ _ hij] at hj ⊢
      exact h.loaded j hj
  · have hs := cacheSum_set out bufs i { bufs.getD i default with
      mReferences := (bufs.getD i default).mReferences + 1 } hil
    have h1 : loadedSize out { bufs.getD i default with
        mReferences := (bufs.getD i default).mReferences + 1 }
        = loadedSize out (bufs.getD i default) := rfl
    rw [h1] at hs
    rw [h.total_eq]
    have : cacheSum out (bufs.set i { bufs.getD i default with
        mReferences := (bufs.getD i default).mReferences + 1 }) = cacheSum out bufs := by
      omega
    rw [this]
  · intro j
    by_cases hij : i = j
    · subst hij
      rw [getD_set_eq _ _ _ hil, List.count_cons_self]
      have := h.counts i
      push_cast
      omega
    · rw [getD_set_ne _ _ _ _ hij, List.count_cons_of_ne (Ne.symm hij)]
      exact h.counts j

/-- Dropping the reference of a registry entry (`mReferences-- == 1`). -/
theorem CacheInv.release {out : Sound_Output} {bufs : List Sound_Buffer} {unused : List Nat}
    {total : Int} {M : List Nat} {i : Nat} (h : CacheInv out bufs unused total none (i :: M)) :
    CacheInv out
      (bufs.set i { bufs.getD i default with
        mReferences := (bufs.getD i default).mReferences - 1 })
      (if (bufs.getD i default).mReferences = 1 then i :: unused else unused)
      total none M := by
  have hc := h.counts i
  rw [List.count_cons_self] at hc
  push_cast at hc
  have hpos : 0 < (bufs.getD i default).mReferences := by omega
  have hh := h.loaded i hpos
  have hil : i < bufs.length := lt_length_of_handle hh
  have hnot : i ∉ unused := fun hm => by
    have := ((h.unused_iff i).mp hm).2.1
    omega
  refine ⟨?_, ?_, ?_, ?_, ?_⟩
  · intro j
    by_cases hij : i = j
    · subst hij
      rw [getD_set_eq _ _ _ hil]
      by_cases hr : (bufs.getD i default).mReferences = 1
      · rw [if_pos hr]
        refine ⟨fun _ => ⟨hh, ?_, by simp⟩, fun _ => List.mem_cons_self _ _⟩
        show (bufs.getD i default).mReferences - 1 = 0
        omega
      · rw [if_neg hr]
        constructor
        · intro hm; exact absurd hm hnot
        · intro hcon
          have : (bufs.getD i default).mReferences - 1 = 0 := hcon.2.1
          omega
    · rw [getD_set_ne _ _ _ _ hij, ← h.unused_iff j]
      by_cases hr : (bufs.getD i default).mReferences = 1
      · rw [if_pos hr, List.mem_cons]
        constructor
        · rintro (he | hm)
          · exact absurd he.symm hij
          · exact hm
        · intro hm; exact Or.inr hm
      · rw [if_neg hr]
  · by_cases hr : (bufs.getD i default).mReferences = 1
    · rw [if_pos hr]; exact List.nodup_cons.mpr ⟨hnot, h.nodup⟩
    · rw [if_neg hr]; exact h.nodup
  · intro j hj
    by_cases hij : i = j
    · subst hij
      rw [getD_set_eq _ _ _ hil]
      exact hh
    · rw [getD_set_ne _ _ _ _ hij] at hj ⊢
      exact h.loaded j hj
  · have hs := cacheSum_set out bufs i { bufs.getD i default with
      mReferences := (bufs.getD i default).mReferences - 1 } hil
    have h1 : loadedSize out { bufs.getD i default with
        mReferences := (bufs.getD i default).mReferences - 1 }
        = loadedSize out (bufs.getD i default) := rfl
    rw [h1] at hs
    rw [h.total_eq]
    have : cacheSum out (bufs.set i { bufs.getD i default with
        mReferences := (bufs.getD i default).mReferences - 1 }) = cacheSum out bufs := by
      omega
    rw [this]
  · intro j
    by_cases hij : i = j
    · subst hij
      rw [getD_set_eq _ _ _ hil]
      show (M.count i : Int) ≤ (bufs.getD i default).mReferences - 1
      omega
    · rw [getD_set_ne _ _ _ _ hij]
      have := h.counts j
      rw [List.count_cons_of_ne (Ne.symm hij)] at this
      exact this

/-! ## The eviction loop -/

theorem evictStep_eq_some {out : Sound_Output} {s s1 : SoundManager} {ev : Nat × Sound_Handle}
    (h : evictStep out s = some (s1, ev)) :
    s.mBufferCacheSize > 15 * 1024 * 1024 ∧ s.mUnusedBuffers.getLast? = some ev.1 ∧
    ev.2 = (s.buffer ev.1).mHandle ∧
    s1 = { s with
      mBufferCacheSize :=
        s.mBufferCacheSize - (out.getSoundDataSize (s.buffer ev.1).mHandle : Int),
      mSoundBuffers := s.mSoundBuffers.set ev.1 { s.buffer ev.1 with mHandle := 0 },
      mUnusedBuffers := s.mUnusedBuffers.dropLast } := by
  unfold evictStep at h
  by_cases hc : s.mBufferCacheSize > 15 * 1024 * 1024
  · rw [if_pos hc] at h
    cases hl : s.mUnusedBuffers.getLast? with
    | none => rw [hl] at h; exact absurd h (by simp)
    | some u =>
      rw [hl] at h
      simp only [Option.some.injEq, Prod.mk.injEq] at h
      obtain ⟨h1, h2⟩ := h
      subst h2
      exact ⟨hc, rfl, rfl, h1.symm⟩
  · rw [if_neg hc] at h
    exact absurd h (by simp)

theorem evictStep_eq_none {out : Sound_Output} {s : SoundManager} (h : evictStep out s = none) :
    s.mBufferCacheSize ≤ 15 * 1024 * 1024 ∨ s.mUnusedBuffers = [] := by
  unfold evictStep at h
  by_cases hc : s.mBufferCacheSize > 15 * 1024 * 1024
  · rw [if_pos hc] at h
    cases hl : s.mUnusedBuffers.getLast? with
    | none => exact Or.inr (List.getLast?_eq_none_iff.mp hl)
    | some u => rw [hl] at h; exact absurd h (by simp)
  · exact Or.inl (not_lt.mp hc)

theorem evictLoop_zero (out : Sound_Output) (s : SoundManager) :
    evictLoop out 0 s = (s, []) := rfl

theorem evictLoop_succ_none {out : Sound_Output} {s : SoundManager} (fuel : Nat)
    (h : evictStep out s = none) : evictLoop out (fuel + 1) s = (s, []) := by
  simp only [evictLoop, h]

theorem evictLoop_succ_some {out : Sound_Output} {s s1 : SoundManager}
    {ev : Nat × Sound_Handle} (fuel : Nat) (h : evictStep out s = some (s1, ev)) :
    evictLoop out (fuel + 1) s = ((evictLoop out fuel s1).1, ev :: (evictLoop out fuel s1).2) := by
  simp only [evictLoop, h]

/-- An induction principle for the loop: a relation between the state before,
the state after and the `unloadSound` calls that holds when the loop stops and
is carried backwards over one eviction holds of the loop. -/
theorem evictLoop_induction (out : Sound_Output)
    (P : SoundManager → SoundManager → List (Nat × Sound_Handle) → Prop)
    (hstop : ∀ s, P s s [])
    (hstep : ∀ s s1 s2 ev evs, evictStep out s = some (s1, ev) → P s1 s2 evs →
      P s s2 (ev :: evs)) :
    ∀ fuel s, P s (evictLoop out fuel s).1 (evictLoop out fuel s).2 := by
  intro fuel
  induction fuel with
  | zero => intro s; exact hstop s
  | succ fuel ih =>
    intro s
    cases h : evictStep out s with
    | none => rw [evictLoop_succ_none fuel h]; exact hstop s
    | some r =>
      obtain ⟨s1, ev⟩ := r
      rw [evictLoop_succ_some fuel h]
      exact hstep s s1 _ ev _ h (ih s1)

/-- The loop touches the buffers, the unused list and the total only. -/
theorem evictLoop_frame (out : Sound_Output) (fuel : Nat) (s : SoundManager) :
    (evictLoop out fuel s).1.mBufferKeys = s.mBufferKeys ∧
    (evictLoop out fuel s).1.mActiveSounds = s.mActiveSounds ∧
    (evictLoop out fuel s).1.mActiveSaySounds = s.mActiveSaySounds ∧
    (evictLoop out fuel s).1.mListenerPos = s.mListenerPos ∧
    (evictLoop out fuel s).1.mSoundBuffers.length = s.mSoundBuffers.length := by
  refine evictLoop_induction out
    (fun s s2 _ => s2.mBufferKeys = s.mBufferKeys ∧ s2.mActiveSounds = s.mActiveSounds ∧
      s2.mActiveSaySounds = s.mActiveSaySounds ∧ s2.mListenerPos = s.mListenerPos ∧
      s2.mSoundBuffers.length = s.mSoundBuffers.length)
    (fun s => ⟨rfl, rfl, rfl, rfl, rfl⟩) ?_ fuel s
  intro s s1 s2 ev evs h ih
  obtain ⟨_, _, _, h1⟩ := evictStep_eq_some h
  subst h1
  obtain ⟨a, b, c, d, e⟩ := ih
  exact ⟨a, b, c, d, by rw [e]; exact List.length_set _ _ _⟩

theorem SInv.of_evictStep {out : Sound_Output} {s s1 : SoundManager} {x : Option Nat}
    {M : List Nat} {ev : Nat × Sound_Handle} (h : SInv out s x M)
    (hs : evictStep out s = some (s1, ev)) : SInv out s1 x M := by
  obtain ⟨_, hl, _, h1⟩ := evictStep_eq_some hs
  subst h1
  exact CacheInv.evict h hl

/-- The loop keeps the bookkeeping consistent. -/
theorem SInv.of_evictLoop {out : Sound_Output} {x : Option Nat} {M : List Nat} (fuel : Nat)
    (s : SoundManager) (h : SInv out s x M) : SInv out (evictLoop out fuel s).1 x M := by
  refine evictLoop_induction out (fun s s2 _ => SInv out s x M → SInv out s2 x M)
    (fun s h => h) ?_ fuel s h
  intro s s1 s2 ev evs hs ih h
  exact ih (h.of_evictStep hs)

/-- What the loop does to the lists and the total: the victims are popped from
the back one after the other, and their sizes leave the total. -/
theorem evictLoop_shape (out : Sound_Output) (fuel : Nat) (s : SoundManager) :
    s.mUnusedBuffers
      = (evictLoop out fuel s).1.mUnusedBuffers
        ++ ((evictLoop out fuel s).2.map Prod.fst).reverse ∧
    (evictLoop out fuel s).1.mBufferCacheSize
      = s.mBufferCacheSize - (unloadedSize out (evictLoop out fuel s).2 : Int) ∧
    ∀ k, k < (evictLoop out fuel s).2.length →
      s.mBufferCacheSize - (unloadedSize out ((evictLoop out fuel s).2.take k) : Int)
        > 15 * 1024 * 1024 := by
  refine evictLoop_induction out
    (fun s s2 evs => s.mUnusedBuffers = s2.mUnusedBuffers ++ (evs.map Prod.fst).reverse ∧
      s2.mBufferCacheSize = s.mBufferCacheSize - (unloadedSize out evs : Int) ∧
      ∀ k, k < evs.length →
        s.mBufferCacheSize - (unloadedSize out (evs.take k) : Int) > 15 * 1024 * 1024)
    (fun s => ⟨by simp, by simp [unloadedSize], fun k hk => absurd hk (Nat.not_lt_zero _)⟩)
    ?_ fuel s
  intro s s1 s2 ev evs hs ih
  obtain ⟨hgt, hl, he, h1⟩ := evictStep_eq_some hs
  subst h1
  obtain ⟨a, b, c⟩ := ih
  refine ⟨?_, ?_, ?_⟩
  · have := List.dropLast_append_getLast? ev.1 hl
    rw [← this]
    simp only [] at a
    rw [a]
    simp
  · rw [b]
    simp only [unloadedSize, List.map_cons, List.sum_cons, he]
    push_cast
    ring
  · intro k hk
    cases k with
    | zero => simpa [unloadedSize] using hgt
    | succ k =>
      have := c k (by simpa using hk)
      simp only [unloadedSize, List.take_succ_cons, List.map_cons, List.sum_cons, he] at this ⊢
      push_cast at this ⊢
      linarith

/-- With fuel for every element of the unused list, the loop ends on its own
exit test. -/
theorem evictLoop_exit (out : Sound_Output) :
    ∀ fuel s, s.mUnusedBuffers.length ≤ fuel →
      (evictLoop out fuel s).1.mBufferCacheSize ≤ 15 * 1024 * 1024 ∨
      (evictLoop out fuel s).1.mUnusedBuffers = [] := by
  intro fuel
  induction fuel with
  | zero =>
    intro s hlen
    exact Or.inr (List.length_eq_zero.mp (Nat.le_zero.mp hlen))
  | succ fuel ih =>
    intro s hlen
    cases h : evictStep out s with
    | none => rw [evictLoop_succ_none fuel h]; exact evictStep_eq_none h
    | some r =>
      obtain ⟨s1, ev⟩ := r
      rw [evictLoop_succ_some fuel h]
      obtain ⟨_, hl, _, h1⟩ := evictStep_eq_some h
      apply ih s1
      subst h1
      simp only [List.length_dropLast]
      omega

/-- What the loop does to the buffers: a victim comes from the unused list,
carried no reference, had the handle that was unloaded, and ends with a null
handle; reference counts and every other buffer are as before. -/
theorem evictLoop_buffers {out : Sound_Output} {x : Option Nat} {M : List Nat} (fuel : Nat)
    (s : SoundManager) (h : SInv out s x M) :
    (∀ e ∈ (evictLoop out fuel s).2, e.1 ∈ s.mUnusedBuffers ∧ e.2 = (s.buffer e.1).mHandle ∧
      ((evictLoop out fuel s).1.buffer e.1).mHandle = 0) ∧
    (∀ j, j ∉ (evictLoop out fuel s).2.map Prod.fst →
      (evictLoop out fuel s).1.buffer j = s.buffer j) ∧
    (∀ j, ((evictLoop out fuel s).1.buffer j).mReferences = (s.buffer j).mReferences) := by
  refine evictLoop_induction out
    (fun s s2 evs => SInv out s x M →
      (∀ e ∈ evs, e.1 ∈ s.mUnusedBuffers ∧ e.2 = (s.buffer e.1).mHandle ∧
        (s2.buffer e.1).mHandle = 0) ∧
      (∀ j, j ∉ evs.map Prod.fst → s2.buffer j = s.buffer j) ∧
      (∀ j, (s2.buffer j).mReferences = (s.buffer j).mReferences))
    (fun s _ => ⟨fun e he => absurd he (List.not_mem_nil _), fun j _ => rfl, fun j => rfl⟩)
    ?_ fuel s h
  intro s s1 s2 ev evs hs ih h
  have h1inv := h.of_evictStep hs
  obtain ⟨a, b, c⟩ := ih h1inv
  obtain ⟨_, hl, he, h1⟩ := evictStep_eq_some hs
  obtain ⟨ys, hys⟩ := List.getLast?_eq_some_iff.mp hl
  have hmem : ev.1 ∈ s.mUnusedBuffers := by rw [hys]; simp
  have hul : ev.1 < s.mSoundBuffers.length := lt_length_of_handle ((h.unused_iff ev.1).mp hmem).1
  have hnd : (ys ++ [ev.1]).Nodup := hys ▸ h.nodup
  have hnot : ev.1 ∉ ys := fun hm => (List.nodup_append.mp hnd).2.2 hm (by simp)
  have hdl : s1.mUnusedBuffers = ys := by rw [h1, hys]; simp
  have hbuf_ne : ∀ j, ev.1 ≠ j → s1.buffer j = s.buffer j := by
    intro j hj
    rw [h1]
    exact getD_set_ne _ _ _ _ hj
  have hbuf_eq : s1.buffer ev.1 = { s.buffer ev.1 with mHandle := 0 } := by
    rw [h1]
    exact getD_set_eq _ _ _ hul
  have hnotin : ev.1 ∉ evs.map Prod.fst := by
    intro hm
    obtain ⟨e, he1, he2⟩ := List.mem_map.mp hm
    have := (a e he1).1
    rw [hdl, he2] at this
    exact hnot this
  refine ⟨?_, ?_, ?_⟩
  · intro e hmem2
    rcases List.mem_cons.mp hmem2 with heq | hin
    · subst heq
      refine ⟨hmem, he, ?_⟩
      rw [b _ hnotin, hbuf_eq]
    · obtain ⟨a1, a2, a3⟩ := a e hin
      have hne : ev.1 ≠ e.1 := by
        intro heq
        rw [hdl, ← heq] at a1
        exact hnot a1
      refine ⟨?_, ?_, a3⟩
      · rw [hys]
        rw [hdl] at a1
        exact List.mem_append_left _ a1
      · rw [a2, hbuf_ne _ hne]
  · intro j hj
    simp only [List.map_cons, List.mem_cons, not_or] at hj
    rw [b j hj.2, hbuf_ne j (Ne.symm hj.1)]
  · intro j
    rw [c j]
    by_cases hj : ev.1 = j
    · subst hj
      rw [hbuf_eq]
    · rw [hbuf_ne j hj]

/-! ## The invariant is kept by every operation -/

theorem insertSound_frame (w : World) (s : SoundManager) (soundId : String) (sound : ESM.Sound) :
    (insertSound w s soundId sound).mUnusedBuffers = s.mUnusedBuffers ∧
    (insertSound w s soundId sound).mBufferCacheSize = s.mBufferCacheSize ∧
    (insertSound w s soundId sound).mActiveSounds = s.mActiveSounds ∧
    (insertSound w s soundId sound).mActiveSaySounds = s.mActiveSaySounds ∧
    (insertSound w s soundId sound).mListenerPos = s.mListenerPos := by
  by_cases hf : keyFoundAt s.mBufferKeys (lower_bound s.mBufferKeys soundId) soundId = true
  · simp only [insertSound, hf, ↓reduceIte, and_self]
  · simp only [insertSound, Bool.eq_false_iff.mpr hf, Bool.false_eq_true, ↓reduceIte, and_self]

theorem insertAll_frame (w : World) (calls : List (String × ESM.Sound)) :
    ∀ s : SoundManager,
    (insertAll w calls s).mUnusedBuffers = s.mUnusedBuffers ∧
    (insertAll w calls s).mBufferCacheSize = s.mBufferCacheSize ∧
    (insertAll w calls s).mActiveSounds = s.mActiveSounds ∧
    (insertAll w calls s).mActiveSaySounds = s.mActiveSaySounds ∧
    (insertAll w calls s).mListenerPos = s.mListenerPos := by
  induction calls with
  | nil => intro s; exact ⟨rfl, rfl, rfl, rfl, rfl⟩
  | cons c calls ih =>
    intro s
    obtain ⟨a1, a2, a3, a4, a5⟩ := ih (insertSound w s c.1 c.2)
    obtain ⟨b1, b2, b3, b4, b5⟩ := insertSound_frame w s c.1 c.2
    simp only [insertAll, List.foldl_cons] at a1 a2 a3 a4 a5 ⊢
    exact ⟨a1.trans b1, a2.trans b2, a3.trans b3, a4.trans b4, a5.trans b5⟩

theorem TableInv.fresh {w : World} {calls : List (String × ESM.Sound)} {s : SoundManager}
    (h : TableInv w calls s) (i : Nat) :
    (s.mSoundBuffers.getD i default).mHandle = 0 ∧
    (s.mSoundBuffers.getD i default).mReferences = 0 := by
  by_cases hi : i < s.mSoundBuffers.length
  · have hk : i < s.mBufferKeys.length := by rw [← h.length_eq]; exact hi
    obtain ⟨c, _, hc⟩ := h.buffer_at i hk
    rw [List.getD_eq_getElem?_getD, hc]
    exact ⟨rfl, rfl⟩
  · rw [List.getD_eq_default _ _ (not_lt.mp hi)]
    exact ⟨rfl, rfl⟩

theorem cacheSum_eq_zero (out : Sound_Output) (bufs : List Sound_Buffer)
    (h : ∀ b ∈ bufs, b.mHandle = 0) : cacheSum out bufs = 0 := by
  induction bufs with
  | nil => rfl
  | cons b bufs ih =>
    have h1 : loadedSize out b = 0 := by
      unfold loadedSize; exact if_pos (h b (List.mem_cons_self _ _))
    have h2 := ih (fun b' hb' => h b' (List.mem_cons_of_mem _ hb'))
    simp only [cacheSum, List.map_cons, List.sum_cons] at h2 ⊢
    omega

/-- The bulk load of an empty table leaves a consistent manager. -/
theorem Inv.of_loadAllSounds {w : World} {out : Sound_Output} {s : SoundManager} (h : Inv out s)
    (he : s.mBufferKeys = []) : Inv out (loadAllSounds w s) := by
  have hb : s.mSoundBuffers = [] := List.length_eq_zero.mp (by rw [h.length_eq, he]; rfl)
  have h0 : TableInv w [] s := ⟨h.sorted, by rw [hb, he]; rfl, fun k => by simp [he]⟩
  have hT : TableInv w (w.sounds.map (fun r => (w.lowerCase r.mId, r))) (loadAllSounds w s) := by
    rw [loadAllSounds_eq_insertAll]
    simpa using h0.insertAll (w.sounds.map (fun r => (w.lowerCase r.mId, r)))
  obtain ⟨f1, f2, f3, _, _⟩ := insertAll_frame w (w.sounds.map (fun r => (w.lowerCase r.mId, r))) s
  rw [← loadAllSounds_eq_insertAll] at f1 f2 f3
  have hc := h.cache
  rw [hb] at hc
  have hun : s.mUnusedBuffers = [] := by
    cases hu : s.mUnusedBuffers with
    | nil => rfl
    | cons a l =>
      have := (hc.unused_iff a).mp (by rw [hu]; exact List.mem_cons_self _ _)
      exact absurd rfl this.1
  refine ⟨hT.sorted, hT.length_eq, ?_⟩
  rw [f1, f2, f3, hun]
  refine ⟨?_, List.nodup_nil, ?_, ?_, ?_⟩
  · intro i
    constructor
    · intro hm; exact absurd hm (List.not_mem_nil _)
    · intro hcon; exact absurd (hT.fresh i).1 hcon.1
  · intro i hi
    rw [(hT.fresh i).2] at hi
    exact absurd hi (lt_irrefl _)
  · rw [hc.total_eq, cacheSum_eq_zero out (loadAllSounds w s).mSoundBuffers]
    · rfl
    · intro b hb2
      obtain ⟨i, hi, hib⟩ := List.mem_iff_getElem.mp hb2
      have := (hT.fresh i).1
      rw [List.getD_eq_getElem _ _ hi, hib] at this
      exact this
  · intro i
    rw [(hT.fresh i).2]
    exact hc.counts i

/-- `lookupId` keeps the invariant, and an index it returns is within the table. -/
theorem Inv.of_lookupId {w : World} {out : Sound_Output} {s : SoundManager} (h : Inv out s)
    (soundId : String) :
    Inv out (lookupId w s soundId).1 ∧
    ∀ i, (lookupId w s soundId).2 = some i →
      i < (lookupId w s soundId).1.mSoundBuffers.length := by
  have hidx : ∀ (t : SoundManager), Inv out t →
      keyFoundAt t.mBufferKeys (lower_bound t.mBufferKeys soundId) soundId = true →
      lower_bound t.mBufferKeys soundId < t.mSoundBuffers.length := by
    intro t ht hf
    rw [ht.length_eq]
    exact ((keyFoundAt_iff _ _ _).mp hf).1
  by_cases he : s.mBufferKeys = []
  · rw [lookupId_of_empty w s soundId he]
    have hl := h.of_loadAllSounds (w := w) he
    split
    · next hf =>
      refine ⟨hl, ?_⟩
      intro i hi
      rw [← Option.some.inj hi]
      exact hidx _ hl hf
    · exact ⟨hl, fun i hi => absurd hi (by simp)⟩
  · by_cases hm : soundId ∈ s.mBufferKeys
    · rw [lookupId_of_mem w s soundId h.sorted hm]
      refine ⟨h, ?_⟩
      intro i hi
      rw [← Option.some.inj hi]
      exact hidx _ h ((lower_bound_found_iff h.sorted soundId).mpr hm)
    · rw [lookupId_of_not_mem_nonempty w s soundId h.sorted hm he]
      exact ⟨h, fun i hi => absurd hi (by simp)⟩

theorem lookup_of_loaded {out : Sound_Output} {s : SoundManager} {sfxid : Nat}
    (loaded : Option Sound_Handle) (h : (s.buffer sfxid).mHandle ≠ 0) :
    lookup out s sfxid loaded = (s, some sfxid) := by
  simp only [lookup, h, ↓reduceIte]

theorem lookup_of_throw {out : Sound_Output} {s : SoundManager} {sfxid : Nat}
    (h : (s.buffer sfxid).mHandle = 0) : lookup out s sfxid none = (s, none) := by
  simp only [lookup, h, ↓reduceIte]

theorem lookup_of_load {out : Sound_Output} {s : SoundManager} {sfxid : Nat}
    (hd : Sound_Handle) (h : (s.buffer sfxid).mHandle = 0) :
    lookup out s sfxid (some hd) =
      ({ (evictLoop out (afterLoad out s sfxid hd).mUnusedBuffers.length
            (afterLoad out s sfxid hd)).1 with
          mUnusedBuffers := sfxid ::
            (evictLoop out (afterLoad out s sfxid hd).mUnusedBuffers.length
              (afterLoad out s sfxid hd)).1.mUnusedBuffers },
        some sfxid) := by
  simp only [lookup, h, ↓reduceIte]

theorem lookupUnloads_of_load {out : Sound_Output} {s : SoundManager} {sfxid : Nat}
    (hd : Sound_Handle) (h : (s.buffer sfxid).mHandle = 0) :
    lookupUnloads out s sfxid (some hd) =
      (evictLoop out (afterLoad out s sfxid hd).mUnusedBuffers.length
        (afterLoad out s sfxid hd)).2 := by
  simp only [lookupUnloads, h, ↓reduceIte]

/-- Facts about the state in which the eviction loop of a load starts and ends. -/
theorem load_facts {out : Sound_Output} {s : SoundManager} (h : Inv out s) {sfxid : Nat}
    (hi : sfxid < s.mSoundBuffers.length) (h0 : (s.buffer sfxid).mHandle = 0)
    {hd : Sound_Handle} (hhd : hd ≠ 0) (fuel : Nat) :
    SInv out (afterLoad out s sfxid hd) (some sfxid) (registryIndices s.mActiveSounds) ∧
    SInv out (evictLoop out fuel (afterLoad out s sfxid hd)).1 (some sfxid)
      (registryIndices s.mActiveSounds) ∧
    sfxid ∉ (evictLoop out fuel (afterLoad out s sfxid hd)).2.map Prod.fst ∧
    (evictLoop out fuel (afterLoad out s sfxid hd)).1.buffer sfxid
      = { s.buffer sfxid with mHandle := hd } ∧
    (s.buffer sfxid).mReferences = 0 ∧
    (∀ j, sfxid ≠ j → (afterLoad out s sfxid hd).buffer j = s.buffer j) := by
  have hs1 : SInv out (afterLoad out s sfxid hd) (some sfxid) (registryIndices s.mActiveSounds) :=
    CacheInv.load h.cache hi h0 hhd
  have hs2 := hs1.of_evictLoop fuel
  obtain ⟨a, b, _⟩ := evictLoop_buffers fuel _ hs1
  have hnotin : sfxid ∉ (evictLoop out fuel (afterLoad out s sfxid hd)).2.map Prod.fst := by
    intro hm
    obtain ⟨e, he1, he2⟩ := List.mem_map.mp hm
    have := (a e he1).1
    rw [he2] at this
    exact ((hs1.unused_iff sfxid).mp this).2.2 rfl
  have hrefs : (s.buffer sfxid).mReferences = 0 := by
    have h1 := h.cache.refs_nonneg sfxid
    by_contra hne
    have hpos : 0 < (s.mSoundBuffers.getD sfxid default).mReferences :=
      lt_of_le_of_ne h1 (Ne.symm hne)
    exact h.cache.loaded sfxid hpos h0
  refine ⟨hs1, hs2, hnotin, ?_, hrefs, ?_⟩
  · rw [b sfxid hnotin]
    exact getD_set_eq _ _ _ hi
  · intro j hj
    exact getD_set_ne _ _ _ _ hj

/-- `lookup` keeps the invariant; when it returns, the entry has a handle. -/
theorem Inv.of_lookup {out : Sound_Output} {s : SoundManager} (h : Inv out s) {sfxid : Nat}
    (hi : sfxid < s.mSoundBuffers.length) (loaded : Option Sound_Handle)
    (hwf : loaded ≠ some 0) :
    Inv out (lookup out s sfxid loaded).1 ∧
    ((lookup out s sfxid loaded).2 ≠ none →
      ((lookup out s sfxid loaded).1.buffer sfxid).mHandle ≠ 0) := by
  by_cases h0 : (s.buffer sfxid).mHandle = 0
  · cases loaded with
    | none =>
      rw [lookup_of_throw h0]
      exact ⟨h, fun hc => absurd rfl hc⟩
    | some hd =>
      have hhd : hd ≠ 0 := fun hz => hwf (by rw [hz])
      rw [lookup_of_load hd h0]
      obtain ⟨_, hs2, _, hbuf, hrefs, _⟩ :=
        load_facts h hi h0 hhd (afterLoad out s sfxid hd).mUnusedBuffers.length
      obtain ⟨f1, f2, _, _, f5⟩ :=
        evictLoop_frame out (afterLoad out s sfxid hd).mUnusedBuffers.length
          (afterLoad out s sfxid hd)
      have hbuf2 : ((evictLoop out (afterLoad out s sfxid hd).mUnusedBuffers.length
          (afterLoad out s sfxid hd)).1.mSoundBuffers.getD sfxid default)
          = { s.buffer sfxid with mHandle := hd } := hbuf
      refine ⟨⟨?_, ?_, ?_⟩, ?_⟩
      · show (evictLoop out _ (afterLoad out s sfxid hd)).1.mBufferKeys.Pairwise _
        rw [f1]; exact h.sorted
      · show (evictLoop out _ (afterLoad out s sfxid hd)).1.mSoundBuffers.length
          = (evictLoop out _ (afterLoad out s sfxid hd)).1.mBufferKeys.length
        rw [f1, f5]
        show (s.mSoundBuffers.set _ _).length = s.mBufferKeys.length
        rw [List.length_set]; exact h.length_eq
      · show CacheInv out _ (sfxid :: _) _ none
          (registryIndices (evictLoop out _ (afterLoad out s sfxid hd)).1.mActiveSounds)
        rw [f2]
        refine CacheInv.pushLoaded hs2 ?_ ?_
        · rw [hbuf2]; exact hhd
        · rw [hbuf2]; exact hrefs
      · intro _
        show ((evictLoop out _ (afterLoad out s sfxid hd)).1.mSoundBuffers.getD sfxid
          default).mHandle ≠ 0
        rw [hbuf2]; exact hhd
  · rw [lookup_of_loaded loaded h0]
    exact ⟨h, fun _ => h0⟩

theorem count_registryIndices_mapPushBack (m : List (Ptr × SoundIndexPairList)) (key : Ptr)
    (e : Sound × Nat) (j : Nat) :
    (registryIndices (mapPushBack m key e)).count j
      = (e.2 :: registryIndices m).count j := by
  induction m with
  | nil => simp [mapPushBack, registryIndices]
  | cons p m ih =>
    obtain ⟨k, l⟩ := p
    unfold mapPushBack
    by_cases h1 : key < k
    · rw [if_pos h1]
      simp [registryIndices]
    · rw [if_neg h1]
      by_cases h2 : key = k
      · rw [if_pos h2]
        simp only [registryIndices, List.map_append, List.map_cons, List.map_nil,
          List.count_append, List.count_cons, List.count_nil]
        omega
      · rw [if_neg h2]
        simp only [registryIndices, List.count_append, List.count_cons] at ih ⊢
        omega

theorem count_registryIndices_mapErase (m : List (Ptr × SoundIndexPairList)) (key : Ptr)
    (l : SoundIndexPairList) (hf : mapFind m key = some l) (j : Nat) :
    (registryIndices (mapErase m key)).count j + (l.map Prod.snd).count j
      = (registryIndices m).count j := by
  induction m with
  | nil => simp [mapFind] at hf
  | cons p m ih =>
    obtain ⟨k, l0⟩ := p
    unfold mapFind at hf
    unfold mapErase
    by_cases h : key = k
    · rw [if_pos h] at hf ⊢
      have : l0 = l := Option.some.inj hf
      subst this
      simp only [registryIndices, List.count_append]
      omega
    · rw [if_neg h] at hf ⊢
      have := ih hf
      simp only [registryIndices, List.count_append] at this ⊢
      omega

theorem count_registryIndices_mapAssign (m : List (Ptr × SoundIndexPairList)) (key : Ptr)
    (l : SoundIndexPairList) (j : Nat) :
    (registryIndices (mapAssign m key l)).count j
      ≤ (registryIndices m).count j + (l.map Prod.snd).count j := by
  induction m with
  | nil => simp [mapAssign, registryIndices]
  | cons p m ih =>
    obtain ⟨k, l0⟩ := p
    unfold mapAssign
    by_cases h1 : key < k
    · rw [if_pos h1]
      simp only [registryIndices, List.count_append]
      omega
    · rw [if_neg h1]
      by_cases h2 : key = k
      · rw [if_pos h2]
        simp only [registryIndices, List.count_append]
        omega
      · rw [if_neg h2]
        simp only [registryIndices, List.count_append] at ih ⊢
        omega

theorem registryIndices_touch (m : List (Ptr × SoundIndexPairList)) (f : Ptr → Sound → Sound) :
    registryIndices (m.map (fun p => (p.1, p.2.map (fun e => (f p.1 e.1, e.2)))))
      = registryIndices m := by
  induction m with
  | nil => rfl
  | cons p m ih =>
    obtain ⟨k, l⟩ := p
    simp only [List.map_cons, registryIndices, ih, List.map_map]
    congr 1

theorem releaseReference_frame (s : SoundManager) (sfxid : Nat) :
    (releaseReference s sfxid).mBufferKeys = s.mBufferKeys ∧
    (releaseReference s sfxid).mSoundBuffers.length = s.mSoundBuffers.length ∧
    (releaseReference s sfxid).mListenerPos = s.mListenerPos :=
  ⟨rfl, List.length_set _ _ _, rfl⟩

theorem SInv.of_release {out : Sound_Output} {s : SoundManager} {M : List Nat} {i : Nat}
    (h : SInv out s none (i :: M)) : SInv out (releaseReference s i) none M :=
  CacheInv.release h

theorem SInv.reorder {out : Sound_Output} {s : SoundManager} {x : Option Nat} {M M2 : List Nat}
    (h : SInv out s x M) (hc : ∀ i, M2.count i ≤ M.count i) : SInv out s x M2 :=
  CacheInv.mono h hc

/-- The inner loop of the update pass keeps the bookkeeping consistent with
the entries it keeps. -/
theorem updateSoundList_inv (w : World) (out : Sound_Output) (getPosition : Ptr → Vec3f)
    (ptr : Ptr) (duration : Rat) :
    ∀ (l : SoundIndexPairList) (M : List Nat) (s : SoundManager),
      SInv out s none (l.map Prod.snd ++ M) →
      SInv out (updateSoundList w getPosition ptr duration s l).1 none
        ((updateSoundList w getPosition ptr duration s l).2.map Prod.snd ++ M) ∧
      (updateSoundList w getPosition ptr duration s l).1.mBufferKeys = s.mBufferKeys ∧
      (updateSoundList w getPosition ptr duration s l).1.mSoundBuffers.length
        = s.mSoundBuffers.length := by
  intro l
  induction l with
  | nil => intro M s h; exact ⟨h, rfl, rfl⟩
  | cons e l ih =>
    intro M s h
    obtain ⟨sound, sfxid⟩ := e
    unfold updateSoundList
    by_cases hk : (updateSound w s.mListenerPos getPosition sound ptr duration).1 = false
    · rw [if_pos hk]
      have h1 : SInv out (releaseReference s sfxid) none (l.map Prod.snd ++ M) :=
        SInv.of_release (by simpa using h)
      obtain ⟨a, b, c⟩ := ih M (releaseReference s sfxid) h1
      obtain ⟨f1, f2, _⟩ := releaseReference_frame s sfxid
      exact ⟨a, b.trans f1, c.trans f2⟩
    · rw [if_neg hk]
      have h1 : SInv out s none (l.map Prod.snd ++ (sfxid :: M)) :=
        h.reorder (fun i => by
          simp only [List.map_cons, List.cons_append, List.count_append, List.count_cons]
          omega)
      obtain ⟨a, b, c⟩ := ih (sfxid :: M) s h1
      refine ⟨?_, b, c⟩
      exact a.reorder (fun i => by
        simp only [List.map_cons, List.cons_append, List.count_append, List.count_cons]
        omega)

/-- The outer loop of the update pass keeps the bookkeeping consistent with
the registry it leaves. -/
theorem updateActiveSounds_inv (w : World) (out : Sound_Output) (getPosition : Ptr → Vec3f)
    (duration : Rat) :
    ∀ (m : List (Ptr × SoundIndexPairList)) (M : List Nat) (s : SoundManager),
      SInv out s none (registryIndices m ++ M) →
      SInv out (updateActiveSounds w getPosition duration s m).1 none
        (registryIndices (updateActiveSounds w getPosition duration s m).2 ++ M) ∧
      (updateActiveSounds w getPosition duration s m).1.mBufferKeys = s.mBufferKeys ∧
      (updateActiveSounds w getPosition duration s m).1.mSoundBuffers.length
        = s.mSoundBuffers.length := by
  intro m
  induction m with
  | nil => intro M s h; exact ⟨h, rfl, rfl⟩
  | cons p m ih =>
    intro M s h
    obtain ⟨ptr, l⟩ := p
    have h0 : SInv out s none (l.map Prod.snd ++ (registryIndices m ++ M)) := by
      simpa [registryIndices, List.append_assoc] using h
    obtain ⟨a, b, c⟩ := updateSoundList_inv w out getPosition ptr duration l _ s h0
    have a2 : SInv out (updateSoundList w getPosition ptr duration s l).1 none
        (registryIndices m ++
          ((updateSoundList w getPosition ptr duration s l).2.map Prod.snd ++ M)) :=
      a.reorder (fun i => by simp only [List.count_append]; omega)
    obtain ⟨a3, b3, c3⟩ := ih _ _ a2
    unfold updateActiveSounds
    by_cases he : (updateSoundList w getPosition ptr duration s l).2.isEmpty = true
    · simp only [he, ↓reduceIte]
      have hnil : (updateSoundList w getPosition ptr duration s l).2 = [] :=
        List.isEmpty_iff.mp he
      rw [hnil] at a3
      exact ⟨by simpa using a3, b3.trans b, c3.trans c⟩
    · simp only [he, Bool.false_eq_true, ↓reduceIte]
      refine ⟨?_, b3.trans b, c3.trans c⟩
      exact a3.reorder (fun i => by simp only [registryIndices, List.count_append]; omega)

theorem foldl_releaseReference_inv (out : Sound_Output) :
    ∀ (L M : List Nat) (s : SoundManager), SInv out s none (L ++ M) →
      SInv out (L.foldl releaseReference s) none M ∧
      (L.foldl releaseReference s).mBufferKeys = s.mBufferKeys ∧
      (L.foldl releaseReference s).mSoundBuffers.length = s.mSoundBuffers.length := by
  intro L
  induction L with
  | nil => intro M s h; exact ⟨h, rfl, rfl⟩
  | cons i L ih =>
    intro M s h
    obtain ⟨a, b, c⟩ := ih M (releaseReference s i) (SInv.of_release h)
    obtain ⟨f1, f2, _⟩ := releaseReference_frame s i
    exact ⟨a, b.trans f1, c.trans f2⟩

theorem Inv.of_updatePass {w : World} {out : Sound_Output} {s : SoundManager} (h : Inv out s)
    (getPosition : Ptr → Vec3f) (duration : Rat) :
    Inv out (updatePass w s getPosition duration) := by
  obtain ⟨a, b, c⟩ := updateActiveSounds_inv w out getPosition duration s.mActiveSounds [] s
    (by simpa [SInv] using h.cache)
  refine ⟨?_, ?_, ?_⟩
  · show (updateActiveSounds w getPosition duration s s.mActiveSounds).1.mBufferKeys.Pairwise _
    rw [b]; exact h.sorted
  · show (updateActiveSounds w getPosition duration s s.mActiveSounds).1.mSoundBuffers.length
      = (updateActiveSounds w getPosition duration s s.mActiveSounds).1.mBufferKeys.length
    rw [b, c]; exact h.length_eq
  · simpa [SInv] using a

theorem Inv.of_clear {out : Sound_Output} {s : SoundManager} (h : Inv out s) :
    Inv out (clear s) := by
  obtain ⟨a, b, c⟩ := foldl_releaseReference_inv out (registryIndices s.mActiveSounds) [] s
    (by simpa [SInv] using h.cache)
  refine ⟨?_, ?_, ?_⟩
  · show ((registryIndices s.mActiveSounds).foldl releaseReference s).mBufferKeys.Pairwise _
    rw [b]; exact h.sorted
  · show ((registryIndices s.mActiveSounds).foldl releaseReference s).mSoundBuffers.length
      = ((registryIndices s.mActiveSounds).foldl releaseReference s).mBufferKeys.length
    rw [b, c]; exact h.length_eq
  · exact a

theorem Inv.of_updatePtr {out : Sound_Output} {s : SoundManager} (h : Inv out s)
    (old updated : Ptr) : Inv out (updatePtr s old updated) := by
  refine ⟨h.sorted, h.length_eq, ?_⟩
  show CacheInv out s.mSoundBuffers s.mUnusedBuffers s.mBufferCacheSize none
    (registryIndices (match mapFind s.mActiveSounds old with
      | some sndlist => mapAssign (mapErase s.mActiveSounds old) updated sndlist
      | none => s.mActiveSounds))
  cases hf : mapFind s.mActiveSounds old with
  | none => exact h.cache
  | some l =>
    refine CacheInv.mono h.cache (fun j => ?_)
    have h1 := count_registryIndices_mapErase s.mActiveSounds old l hf j
    have h2 := count_registryIndices_mapAssign (mapErase s.mActiveSounds old) updated l j
    simp only []
    omega

theorem Inv.of_touchSounds {out : Sound_Output} {s : SoundManager} (h : Inv out s)
    (f : Ptr → Sound → Sound) : Inv out (touchSounds s f) := by
  refine ⟨h.sorted, h.length_eq, ?_⟩
  show CacheInv out s.mSoundBuffers s.mUnusedBuffers s.mBufferCacheSize none
    (registryIndices (s.mActiveSounds.map (fun p => (p.1, p.2.map (fun e => (f p.1 e.1, e.2))))))
  rw [registryIndices_touch]
  exact h.cache

/-- A successful play: the reference is taken and the entry is filed. -/
theorem Inv.of_play {out : Sound_Output} {s : SoundManager} (h : Inv out s) {sfxid : Nat}
    (hh : (s.buffer sfxid).mHandle ≠ 0) (key : Ptr) (sound : Sound) :
    Inv out { acquireReference s sfxid with
      mActiveSounds := mapPushBack (acquireReference s sfxid).mActiveSounds key (sound, sfxid) } := by
  refine ⟨h.sorted, ?_, ?_⟩
  · show (s.mSoundBuffers.set _ _).length = s.mBufferKeys.length
    rw [List.length_set]; exact h.length_eq
  · have := CacheInv.acquire h.cache hh
    exact CacheInv.mono this (fun j => by
      rw [count_registryIndices_mapPushBack]
      exact le_rfl)

theorem Inv.of_lookupByName {w : World} {out : Sound_Output} {s : SoundManager} (h : Inv out s)
    (soundId : String) (loaded : Option Sound_Handle) (hwf : loaded ≠ some 0) :
    Inv out (lookupByName w out s soundId loaded).1 := by
  unfold lookupByName
  obtain ⟨h1, hidx⟩ := h.of_lookupId (w := w) soundId
  cases hl : (lookupId w s soundId).2 with
  | none => exact h1
  | some sfxid => exact (h1.of_lookup (hidx sfxid hl) loaded hwf).1

theorem Inv.of_playSound {w : World} {out : Sound_Output} {s : SoundManager} (h : Inv out s)
    (soundId : String) (loaded : Option Sound_Handle) (created : Option Sound)
    (hwf : loaded ≠ some 0) : Inv out (playSound w out s soundId loaded created).1 := by
  unfold playSound
  by_cases hinit : out.isInitialized = false
  · rw [if_pos hinit]; exact h
  · rw [if_neg hinit]
    obtain ⟨h1, hidx⟩ := h.of_lookupId (w := w) (w.lowerCase soundId)
    cases hl : (lookupId w s (w.lowerCase soundId)).2 with
    | none => exact h1
    | some sfxid =>
      obtain ⟨h2, hh⟩ := h1.of_lookup (hidx sfxid hl) loaded hwf
      dsimp only
      cases hk : (lookup out (lookupId w s (w.lowerCase soundId)).1 sfxid loaded).2 with
      | none => exact h2
      | some r =>
        cases created with
        | none => exact h2
        | some sound => exact h2.of_play (hh (by rw [hk]; simp)) 0 sound

theorem Inv.of_playSound3DAt {w : World} {out : Sound_Output} {s : SoundManager} (h : Inv out s)
    (initialPos : Vec3f) (soundId : String) (mode : Nat)
    (loaded : Option Sound_Handle) (created : Option Sound) (hwf : loaded ≠ some 0) :
    Inv out (playSound3DAt w out s initialPos soundId mode loaded created).1 := by
  unfold playSound3DAt
  by_cases hinit : out.isInitialized = false
  · rw [if_pos hinit]; exact h
  · rw [if_neg hinit]
    obtain ⟨h1, hidx⟩ := h.of_lookupId (w := w) (w.lowerCase soundId)
    cases hl : (lookupId w s (w.lowerCase soundId)).2 with
    | none => exact h1
    | some sfxid =>
      obtain ⟨h2, hh⟩ := h1.of_lookup (hidx sfxid hl) loaded hwf
      dsimp only
      cases hk : (lookup out (lookupId w s (w.lowerCase soundId)).1 sfxid loaded).2 with
      | none => exact h2
      | some r =>
        cases created with
        | none => exact h2
        | some sound => exact h2.of_play (hh (by rw [hk]; simp)) 0 sound

theorem Inv.of_playSound3D {w : World} {out : Sound_Output} {s : SoundManager} (h : Inv out s)
    (ptr : Ptr) (objpos : Vec3f) (soundId : String) (mode : Nat)
    (loaded : Option Sound_Handle) (created : Option Sound) (hwf : loaded ≠ some 0) :
    Inv out (playSound3D w out s ptr objpos soundId mode loaded created).1 := by
  unfold playSound3D
  by_cases hinit : out.isInitialized = false
  · rw [if_pos hinit]; exact h
  · rw [if_neg hinit]
    obtain ⟨h1, hidx⟩ := h.of_lookupId (w := w) (w.lowerCase soundId)
    cases hl : (lookupId w s (w.lowerCase soundId)).2 with
    | none => exact h1
    | some sfxid =>
      obtain ⟨h2, hh⟩ := h1.of_lookup (hidx sfxid hl) loaded hwf
      dsimp only
      cases hk : (lookup out (lookupId w s (w.lowerCase soundId)).1 sfxid loaded).2 with
      | none => exact h2
      | some r =>
        dsimp only
        split
        · exact h2
        · cases created with
          | none => exact h2
          | some sound => exact h2.of_play (hh (by rw [hk]; simp)) ptr sound

theorem Inv.of_init (out : Sound_Output) : Inv out SoundManager.init := by
  refine ⟨List.Pairwise.nil, rfl, ?_, List.nodup_nil, ?_, rfl, ?_⟩
  · intro i
    constructor
    · intro hm; exact absurd hm (List.not_mem_nil _)
    · intro hc; exact absurd rfl hc.1
  · intro i hi; exact absurd hi (lt_irrefl _)
  · intro i; exact le_rfl

theorem Inv.of_step {w : World} {out : Sound_Output} {s : SoundManager} (h : Inv out s)
    (op : Op) (hwf : op.WellFormed) : Inv out (step w out s op) := by
  cases op with
  | lookupId soundId => exact (h.of_lookupId soundId).1
  | lookup soundId loaded => exact h.of_lookupByName soundId loaded hwf
  | playSound soundId loaded created => exact h.of_playSound soundId loaded created hwf
  | playSound3D ptr objpos soundId mode loaded created =>
    exact h.of_playSound3D ptr objpos soundId mode loaded created hwf
  | playSound3DAt initialPos soundId mode loaded created =>
    exact h.of_playSound3DAt initialPos soundId mode loaded created hwf
  | updatePass getPosition duration => exact h.of_updatePass getPosition duration
  | updatePtr old updated => exact h.of_updatePtr old updated
  | clear => exact h.of_clear
  | setListenerPos pos => exact ⟨h.sorted, h.length_eq, h.cache⟩
  | touchSounds f => exact h.of_touchSounds f

theorem Inv.of_foldl {w : World} {out : Sound_Output} :
    ∀ (ops : List Op) (s : SoundManager), Inv out s → (∀ op ∈ ops, op.WellFormed) →
      Inv out (ops.foldl (step w out) s) := by
  intro ops
  induction ops with
  | nil => intro s h _; exact h
  | cons op ops ih =>
    intro s h hwf
    exact ih _ (h.of_step op (hwf op (List.mem_cons_self _ _)))
      (fun o ho => hwf o (List.mem_cons_of_mem _ ho))

/-- Every reachable state satisfies the invariant. -/
theorem Reachable.inv {w : World} {out : Sound_Output} {s : SoundManager}
    (h : Reachable w out s) : Inv out s := by
  obtain ⟨ops, hwf, hrun⟩ := h
  rw [← hrun]
  exact Inv.of_foldl ops _ (Inv.of_init out) hwf

/-! ## The claims about the buffer cache -/

/-- C1: in a state reached by lookups, plays, update passes, `updatePtr` and
`clear`, every `unloadSound` call made by the eviction loop of `lookup` is for
an entry of the unused list whose reference count is 0, with that entry's own
non-null handle; an entry whose reference count is positive keeps its handle. -/
theorem eviction_unloads_only_unreferenced_buffers (w : World) (out : Sound_Output)
    (s : SoundManager) (h : Reachable w out s) (sfxid : Nat)
    (hi : sfxid < s.mSoundBuffers.length) (loaded : Option Sound_Handle)
    (hwf : loaded ≠ some 0) :
    (∀ e ∈ lookupUnloads out s sfxid loaded,
      (s.buffer e.1).mReferences = 0 ∧ e.1 ∈ s.mUnusedBuffers ∧
      e.2 = (s.buffer e.1).mHandle ∧ e.2 ≠ 0) ∧
    (∀ j, 0 < (s.buffer j).mReferences →
      j ∉ (lookupUnloads out s sfxid loaded).map Prod.fst ∧
      ((lookup out s sfxid loaded).1.buffer j).mHandle = (s.buffer j).mHandle ∧
      (s.buffer j).mHandle ≠ 0) := by
  have hinv := h.inv
  have hvict : ∀ e ∈ lookupUnloads out s sfxid loaded,
      (s.buffer e.1).mReferences = 0 ∧ e.1 ∈ s.mUnusedBuffers ∧
      e.2 = (s.buffer e.1).mHandle ∧ e.2 ≠ 0 := by
    intro e he
    by_cases h0 : (s.buffer sfxid).mHandle = 0
    · cases loaded with
      | none => simp [lookupUnloads, h0] at he
      | some hd =>
        have hhd : hd ≠ 0 := fun hz => hwf (by rw [hz])
        rw [lookupUnloads_of_load hd h0] at he
        obtain ⟨hs1, _, hnotin, _, _, hne⟩ :=
          load_facts hinv hi h0 hhd (afterLoad out s sfxid hd).mUnusedBuffers.length
        obtain ⟨a, _, _⟩ := evictLoop_buffers
          (afterLoad out s sfxid hd).mUnusedBuffers.length _ hs1
        obtain ⟨a1, a2, _⟩ := a e he
        have hmem : e.1 ∈ s.mUnusedBuffers := a1
        have hne2 : sfxid ≠ e.1 := fun heq => hnotin (List.mem_map.mpr ⟨e, he, heq.symm⟩)
        have hu := (hinv.cache.unused_iff e.1).mp hmem
        rw [hne e.1 hne2] at a2
        exact ⟨hu.2.1, hmem, a2, a2 ▸ hu.1⟩
    · simp [lookupUnloads, h0] at he
  refine ⟨hvict, ?_⟩
  intro j hj
  have hnotin : j ∉ (lookupUnloads out s sfxid loaded).map Prod.fst := by
    intro hm
    obtain ⟨e, he1, he2⟩ := List.mem_map.mp hm
    have := (hvict e he1).1
    rw [he2] at this
    exact absurd this (ne_of_gt hj)
  have hload : (s.buffer j).mHandle ≠ 0 := hinv.cache.loaded j hj
  refine ⟨hnotin, ?_, hload⟩
  by_cases h0 : (s.buffer sfxid).mHandle = 0
  · cases loaded with
    | none => rw [lookup_of_throw h0]
    | some hd =>
      have hhd : hd ≠ 0 := fun hz => hwf (by rw [hz])
      rw [lookupUnloads_of_load hd h0] at hnotin
      rw [lookup_of_load hd h0]
      obtain ⟨hs1, _, _, _, _, hne⟩ :=
        load_facts hinv hi h0 hhd (afterLoad out s sfxid hd).mUnusedBuffers.length
      obtain ⟨_, b, _⟩ := evictLoop_buffers
        (afterLoad out s sfxid hd).mUnusedBuffers.length _ hs1
      have hjne : sfxid ≠ j := fun heq => hload (heq ▸ h0)
      show ((evictLoop out _ (afterLoad out s sfxid hd)).1.buffer j).mHandle = _
      rw [b j hnotin, hne j hjne]
  · rw [lookup_of_loaded loaded h0]

/-- C6: when `lookup` loads an entry that had no handle, the loop evicts from
the back of the unused list, one entry at a time. The victims are a suffix of
the previous unused list, unloaded back to front, each with the handle it had;
the total becomes the previous total plus the new size minus the victims'
sizes; after every shorter run of evictions the total was still above the
ceiling; and the loop ends with the total at most the ceiling or with the whole
previous list evicted, so that a total above the ceiling leaves no previously
unused entry loaded. -/
theorem lookup_evicts_shortest_sufficient_suffix (w : World) (out : Sound_Output)
    (s : SoundManager) (h : Reachable w out s) (sfxid : Nat)
    (hi : sfxid < s.mSoundBuffers.length) (h0 : (s.buffer sfxid).mHandle = 0)
    (hd : Sound_Handle) (hhd : hd ≠ 0) :
    (lookup out s sfxid (some hd)).1.mUnusedBuffers.head? = some sfxid ∧
    s.mUnusedBuffers = (lookup out s sfxid (some hd)).1.mUnusedBuffers.tail
      ++ ((lookupUnloads out s sfxid (some hd)).map Prod.fst).reverse ∧
    (∀ e ∈ lookupUnloads out s sfxid (some hd),
      e.2 = (s.buffer e.1).mHandle ∧
      ((lookup out s sfxid (some hd)).1.buffer e.1).mHandle = 0) ∧
    (lookup out s sfxid (some hd)).1.mBufferCacheSize
      = s.mBufferCacheSize + (out.getSoundDataSize hd : Int)
        - (unloadedSize out (lookupUnloads out s sfxid (some hd)) : Int) ∧
    (∀ k, k < (lookupUnloads out s sfxid (some hd)).length →
      s.mBufferCacheSize + (out.getSoundDataSize hd : Int)
        - (unloadedSize out ((lookupUnloads out s sfxid (some hd)).take k) : Int)
        > 15 * 1024 * 1024) ∧
    ((lookup out s sfxid (some hd)).1.mBufferCacheSize ≤ 15 * 1024 * 1024 ∨
      (lookup out s sfxid (some hd)).1.mUnusedBuffers = [sfxid]) ∧
    ((lookup out s sfxid (some hd)).1.mBufferCacheSize > 15 * 1024 * 1024 →
      ∀ u ∈ s.mUnusedBuffers, ((lookup out s sfxid (some hd)).1.buffer u).mHandle = 0) := by
  have hinv := h.inv
  rw [lookup_of_load hd h0, lookupUnloads_of_load hd h0]
  obtain ⟨hs1, _, _, _, _, hne⟩ :=
    load_facts hinv hi h0 hhd (afterLoad out s sfxid hd).mUnusedBuffers.length
  obtain ⟨a, _, _⟩ := evictLoop_buffers (afterLoad out s sfxid hd).mUnusedBuffers.length _ hs1
  obtain ⟨s1, s2, s3⟩ := evictLoop_shape out (afterLoad out s sfxid hd).mUnusedBuffers.length
    (afterLoad out s sfxid hd)
  have hexit := evictLoop_exit out (afterLoad out s sfxid hd).mUnusedBuffers.length
    (afterLoad out s sfxid hd) le_rfl
  have hvict : ∀ e ∈ (evictLoop out (afterLoad out s sfxid hd).mUnusedBuffers.length
      (afterLoad out s sfxid hd)).2,
      e.2 = (s.buffer e.1).mHandle ∧
      ((evictLoop out (afterLoad out s sfxid hd).mUnusedBuffers.length
        (afterLoad out s sfxid hd)).1.buffer e.1).mHandle = 0 := by
    intro e he
    obtain ⟨a1, a2, a3⟩ := a e he
    have hne2 : sfxid ≠ e.1 := fun heq =>
      ((hs1.unused_iff e.1).mp a1).2.2 (by rw [heq])
    rw [hne e.1 hne2] at a2
    exact ⟨a2, a3⟩
  have hexit2 : (evictLoop out (afterLoad out s sfxid hd).mUnusedBuffers.length
      (afterLoad out s sfxid hd)).1.mBufferCacheSize ≤ 15 * 1024 * 1024 ∨
      sfxid :: (evictLoop out (afterLoad out s sfxid hd).mUnusedBuffers.length
        (afterLoad out s sfxid hd)).1.mUnusedBuffers = [sfxid] := by
    rcases hexit with hx | hx
    · exact Or.inl hx
    · exact Or.inr (by rw [hx])
  refine ⟨rfl, s1, hvict, s2, s3, hexit2, ?_⟩
  intro hgt u hu
  rcases hexit with hx | hx
  · exact absurd hx (not_le.mpr hgt)
  · have hu2 : u ∈ (afterLoad out s sfxid hd).mUnusedBuffers := hu
    rw [s1, hx, List.nil_append, List.mem_reverse] at hu2
    obtain ⟨e, he1, he2⟩ := List.mem_map.mp hu2
    rw [← he2]
    exact (hvict e he1).2

/-- C7: in a reachable state, for a valid index, a `lookup` that returns
leaves the entry with a non-null handle. An entry that is already loaded is
returned with the manager unchanged and nothing unloaded. A load never evicts
the buffer it has just loaded, whatever its size, leaves it with the loaded
handle, and puts its index at the front of the unused list. -/
theorem lookup_returns_a_loaded_buffer (w : World) (out : Sound_Output)
    (s : SoundManager) (h : Reachable w out s) (sfxid : Nat)
    (hi : sfxid < s.mSoundBuffers.length) (loaded : Option Sound_Handle)
    (hwf : loaded ≠ some 0) :
    ((lookup out s sfxid loaded).2 ≠ none →
      (lookup out s sfxid loaded).2 = some sfxid ∧
      ((lookup out s sfxid loaded).1.buffer sfxid).mHandle ≠ 0) ∧
    ((s.buffer sfxid).mHandle ≠ 0 →
      lookup out s sfxid loaded = (s, some sfxid) ∧ lookupUnloads out s sfxid loaded = []) ∧
    (∀ hd, loaded = some hd → (s.buffer sfxid).mHandle = 0 →
      (lookup out s sfxid loaded).2 = some sfxid ∧
      sfxid ∉ (lookupUnloads out s sfxid loaded).map Prod.fst ∧
      (lookup out s sfxid loaded).1.buffer sfxid = { s.buffer sfxid with mHandle := hd } ∧
      (lookup out s sfxid loaded).1.mUnusedBuffers.head? = some sfxid) := by
  have hinv := h.inv
  refine ⟨?_, ?_, ?_⟩
  · intro hret
    refine ⟨?_, (hinv.of_lookup hi loaded hwf).2 hret⟩
    by_cases h0 : (s.buffer sfxid).mHandle = 0
    · cases loaded with
      | none => rw [lookup_of_throw h0] at hret; exact absurd rfl hret
      | some hd => rw [lookup_of_load hd h0]
    · rw [lookup_of_loaded loaded h0]
  · intro hne
    exact ⟨lookup_of_loaded loaded hne, by simp [lookupUnloads, hne]⟩
  · intro hd hl h0
    subst hl
    have hhd : hd ≠ 0 := fun hz => hwf (by rw [hz])
    obtain ⟨_, _, hnotin, hbuf, _, _⟩ :=
      load_facts hinv hi h0 hhd (afterLoad out s sfxid hd).mUnusedBuffers.length
    rw [lookupUnloads_of_load hd h0, lookup_of_load hd h0]
    exact ⟨rfl, hnotin, hbuf, rfl⟩

/-- C8: in every reachable state the tracked total is the sum of the sizes of
the entries whose handle is non-null, hence not negative; and during a load
the total stays at or above zero after each eviction of the loop. -/
theorem cache_size_is_sum_of_loaded_sizes (w : World) (out : Sound_Output)
    (s : SoundManager) (h : Reachable w out s) :
    s.mBufferCacheSize = (cacheSum out s.mSoundBuffers : Int) ∧
    0 ≤ s.mBufferCacheSize ∧
    (∀ sfxid hd, sfxid < s.mSoundBuffers.length → (s.buffer sfxid).mHandle = 0 → hd ≠ 0 →
      ∀ k, k ≤ (lookupUnloads out s sfxid (some hd)).length →
        0 ≤ s.mBufferCacheSize + (out.getSoundDataSize hd : Int)
          - (unloadedSize out ((lookupUnloads out s sfxid (some hd)).take k) : Int)) := by
  have hinv := h.inv
  refine ⟨hinv.cache.total_eq, ?_, ?_⟩
  · rw [hinv.cache.total_eq]; exact Int.ofNat_nonneg _
  · intro sfxid hd hi h0 hhd k hk
    rw [lookupUnloads_of_load hd h0] at hk ⊢
    obtain ⟨_, s2, s3⟩ := evictLoop_shape out (afterLoad out s sfxid hd).mUnusedBuffers.length
      (afterLoad out s sfxid hd)
    rcases Nat.lt_or_eq_of_le hk with hlt | heq
    · have := s3 k hlt
      have h2 : (afterLoad out s sfxid hd).mBufferCacheSize
          = s.mBufferCacheSize + (out.getSoundDataSize hd : Int) := rfl
      rw [h2] at this
      linarith
    · obtain ⟨_, hs2, _, _, _, _⟩ :=
        load_facts hinv hi h0 hhd (afterLoad out s sfxid hd).mUnusedBuffers.length
      have h3 := hs2.total_eq
      rw [s2] at h3
      rw [heq, List.take_length]
      have h2 : (afterLoad out s sfxid hd).mBufferCacheSize
          = s.mBufferCacheSize + (out.getSoundDataSize hd : Int) := rfl
      rw [h2] at h3
      rw [h3]
      exact Int.ofNat_nonneg _

/-- C10: in every reachable state the unused list has no index twice and holds
exactly the indices whose handle is non-null and whose reference count is 0.
Taking the first reference (0 to 1) erases the index from the list, so that it
is no longer a member; dropping the last one (1 to 0) pushes it onto the front;
any other change of the count leaves the list as it is. -/
theorem unused_list_is_the_set_of_loaded_unreferenced (w : World) (out : Sound_Output)
    (s : SoundManager) (h : Reachable w out s) :
    s.mUnusedBuffers.Nodup ∧
    (∀ i, i ∈ s.mUnusedBuffers ↔
      ((s.buffer i).mHandle ≠ 0 ∧ (s.buffer i).mReferences = 0)) ∧
    (∀ i, (s.buffer i).mHandle ≠ 0 → (s.buffer i).mReferences = 0 →
      ((acquireReference s i).buffer i).mReferences = 1 ∧
      (acquireReference s i).mUnusedBuffers = s.mUnusedBuffers.erase i ∧
      i ∉ (acquireReference s i).mUnusedBuffers) ∧
    (∀ i, (s.buffer i).mReferences = 1 →
      ((releaseReference s i).buffer i).mReferences = 0 ∧
      (releaseReference s i).mUnusedBuffers = i :: s.mUnusedBuffers) ∧
    (∀ i, (s.buffer i).mReferences ≠ 0 →
      (acquireReference s i).mUnusedBuffers = s.mUnusedBuffers) ∧
    (∀ i, (s.buffer i).mReferences ≠ 1 →
      (releaseReference s i).mUnusedBuffers = s.mUnusedBuffers) := by
  have hinv := h.inv
  refine ⟨hinv.cache.nodup, ?_, ?_, ?_, ?_, ?_⟩
  · intro i
    rw [hinv.cache.unused_iff i]
    constructor
    · intro hc; exact ⟨hc.1, hc.2.1⟩
    · intro hc; exact ⟨hc.1, hc.2, by simp⟩
  · intro i hh hr
    have hil : i < s.mSoundBuffers.length := lt_length_of_handle hh
    have hu : (acquireReference s i).mUnusedBuffers = s.mUnusedBuffers.erase i := by
      simp only [acquireReference, hr, ↓reduceIte]
    refine ⟨?_, hu, ?_⟩
    · show ((s.mSoundBuffers.set i _).getD i default).mReferences = 1
      rw [getD_set_eq _ _ _ hil]
      show (s.buffer i).mReferences + 1 = 1
      rw [hr]; rfl
    · rw [hu]; exact hinv.cache.nodup.not_mem_erase
  · intro i hr
    have hpos : 0 < (s.mSoundBuffers.getD i default).mReferences := by
      have : (s.mSoundBuffers.getD i default).mReferences = 1 := hr
      omega
    have hil : i < s.mSoundBuffers.length := lt_length_of_handle (hinv.cache.loaded i hpos)
    refine ⟨?_, by simp only [releaseReference, hr, ↓reduceIte]⟩
    show ((s.mSoundBuffers.set i _).getD i default).mReferences = 0
    rw [getD_set_eq _ _ _ hil]
    show (s.buffer i).mReferences - 1 = 0
    rw [hr]; rfl
  · intro i hr
    simp only [acquireReference, hr, ↓reduceIte]
  · intro i hr
    simp only [releaseReference, hr, ↓reduceIte]

theorem history_ne_nil (w : World) (out : Sound_Output) :
    ∀ (ops : List Op) (hist : List SoundManager), hist ≠ [] →
      ops.foldl (fun hist op => step w out (hist.headD SoundManager.init) op :: hist) hist
        ≠ [] := by
  intro ops
  induction ops with
  | nil => intro hist h; exact h
  | cons op ops ih => intro hist _; exact ih _ (List.cons_ne_nil _ _)

theorem referencedSinceEviction_cons_cons (i : Nat) (s before : SoundManager)
    (rest : List SoundManager) :
    referencedSinceEviction i (s :: before :: rest)
      = (decide (0 < (s.buffer i).mReferences) ||
          (!(evictedBetween before s i) && referencedSinceEviction i (before :: rest))) := rfl

theorem referencedSinceEviction_init (i : Nat) :
    referencedSinceEviction i [SoundManager.init] = false := rfl

/-- Along a history whose latest state satisfies the invariant at every step,
an entry referenced since its last eviction has a handle. -/
theorem referenced_history_loaded (w : World) (out : Sound_Output) (i : Nat) :
    ∀ (ops : List Op) (hist : List SoundManager),
      Inv out (hist.headD SoundManager.init) →
      (referencedSinceEviction i hist = true →
        ((hist.headD SoundManager.init).buffer i).mHandle ≠ 0) →
      (∀ op ∈ ops, op.WellFormed) →
      hist ≠ [] →
      Inv out ((ops.foldl
        (fun hist op => step w out (hist.headD SoundManager.init) op :: hist) hist).headD
          SoundManager.init) ∧
      (referencedSinceEviction i (ops.foldl
        (fun hist op => step w out (hist.headD SoundManager.init) op :: hist) hist) = true →
        (((ops.foldl
          (fun hist op => step w out (hist.headD SoundManager.init) op :: hist) hist).headD
            SoundManager.init).buffer i).mHandle ≠ 0) := by
  intro ops
  induction ops with
  | nil => intro hist hinv hq _ _; exact ⟨hinv, hq⟩
  | cons op ops ih =>
    intro hist hinv hq hwf hne
    have hstep : Inv out (step w out (hist.headD SoundManager.init) op) :=
      hinv.of_step op (hwf op (List.mem_cons_self _ _))
    refine ih _ hstep ?_ (fun o ho => hwf o (List.mem_cons_of_mem _ ho)) (List.cons_ne_nil _ _)
    intro href
    cases hist with
    | nil => exact absurd rfl hne
    | cons before rest =>
      simp only [List.headD_cons] at hq hstep href ⊢
      rw [referencedSinceEviction_cons_cons] at href
      simp only [Bool.or_eq_true, decide_eq_true_eq,
        Bool.and_eq_true, Bool.not_eq_true'] at href
      rcases href with hpos | ⟨hnev, hrec⟩
      · exact hstep.cache.loaded i hpos
      · have hb := hq hrec
        intro hz
        have : evictedBetween before (step w out before op) i = true := by
          simp only [evictedBetween, Bool.and_eq_true, decide_eq_true_eq]
          exact ⟨hb, hz⟩
        rw [this] at hnev
        exact Bool.noConfusion hnev

theorem head_history (w : World) (out : Sound_Output) :
    ∀ (ops : List Op) (hist : List SoundManager),
      (ops.foldl (fun hist op => step w out (hist.headD SoundManager.init) op :: hist) hist).headD
        SoundManager.init
      = ops.foldl (step w out) (hist.headD SoundManager.init) := by
  intro ops
  induction ops with
  | nil => intro hist; rfl
  | cons op ops ih => intro hist; simp only [List.foldl_cons]; rw [ih]; rfl

/-- C9 fails as stated: after the single call `lookup("a")` entry 0 has a
handle although its reference count was never positive. -/
theorem handle_iff_referenced_counterexample :
    ¬ (((run demoWorld demoOutput [.lookup "a" (some 8)]).buffer 0).mHandle ≠ 0 ↔
      referencedSinceEviction 0 (history demoWorld demoOutput [.lookup "a" (some 8)]) = true) := by
  decide

/-- C9, amended: along every sequence of operations, an entry whose reference
count has been positive at least once since it was last evicted (or since
creation) has a non-null handle. -/
theorem referenced_since_eviction_implies_loaded (w : World) (out : Sound_Output)
    (ops : List Op) (hwf : ∀ op ∈ ops, op.WellFormed) (i : Nat)
    (href : referencedSinceEviction i (history w out ops) = true) :
    ((run w out ops).buffer i).mHandle ≠ 0 := by
  have h := referenced_history_loaded w out i ops [SoundManager.init] (Inv.of_init out)
    (fun hr => by rw [referencedSinceEviction_init] at hr; exact Bool.noConfusion hr)
    hwf (List.cons_ne_nil _ _)
  have hh := head_history w out ops [SoundManager.init]
  have := h.2 href
  rw [hh] at this
  exact this

/-! ## Concrete instances -/

theorem demoState_reachable : Reachable demoWorld demoOutput demoState :=
  ⟨demoOps, by decide, rfl⟩

/-- C1 at `demoState`: loading "c" with a 5 MiB buffer unloads entry 0 only,
which carries no reference. -/
theorem eviction_unloads_only_unreferenced_buffers_witness :
    Reachable demoWorld demoOutput demoState ∧
    2 < demoState.mSoundBuffers.length ∧
    (some 5 : Option Sound_Handle) ≠ some 0 ∧
    lookupUnloads demoOutput demoState 2 (some 5) = [(0, 8)] ∧
    (∀ e ∈ lookupUnloads demoOutput demoState 2 (some 5),
      (demoState.buffer e.1).mReferences = 0 ∧ e.1 ∈ demoState.mUnusedBuffers ∧
      e.2 = (demoState.buffer e.1).mHandle ∧ e.2 ≠ 0) :=
  ⟨demoState_reachable, by decide, by decide, by decide,
    (eviction_unloads_only_unreferenced_buffers demoWorld demoOutput demoState
      demoState_reachable 2 (by decide) (some 5) (by decide)).1⟩

/-- C3 at `demoState`: "b" is found at one index by both overloads. -/
theorem lookupId_returns_the_index_of_a_key_witness :
    KeysSorted demoState.mBufferKeys ∧ "b" ∈ demoState.mBufferKeys ∧
    ∃ i, lookupId demoWorld demoState "b" = (demoState, some i) ∧
      demoState.mBufferKeys[i]? = some "b" ∧
      (∀ j, demoState.mBufferKeys[j]? = some "b" → j = i) ∧
      lookupId demoWorld (lookupId demoWorld demoState "b").1 "b" = (demoState, some i) ∧
      lookupIdConst demoState "b" = some i :=
  ⟨by decide, by decide,
    lookupId_returns_the_index_of_a_key demoWorld demoState "b" (by decide) (by decide)⟩

/-- C4 at `demoState`: registering "b" again, with another record, changes nothing. -/
theorem insertSound_of_registered_identity_is_noop_witness :
    KeysSorted demoState.mBufferKeys ∧ "b" ∈ demoState.mBufferKeys ∧
    insertSound demoWorld demoState "b" ⟨"b", "other.wav", ⟨1, 2, 3⟩⟩ = demoState :=
  ⟨by decide, by decide,
    insertSound_of_registered_identity_is_noop demoWorld demoState "b"
      ⟨"b", "other.wav", ⟨1, 2, 3⟩⟩ (by decide) (by decide)⟩

/-- C5 on the freshly constructed manager: the lookup of "b" loads the store
and does not throw. -/
theorem lookupId_throws_iff_absent_after_bulk_load_witness :
    KeysSorted SoundManager.init.mBufferKeys ∧
    SoundManager.init.mSoundBuffers.length = SoundManager.init.mBufferKeys.length ∧
    (lookupId demoWorld SoundManager.init "b").2 = some 1 ∧
    (SoundManager.init.mBufferKeys = [] →
      (lookupId demoWorld SoundManager.init "b").1 = loadAllSounds demoWorld SoundManager.init ∧
      (∀ k, k ∈ (loadAllSounds demoWorld SoundManager.init).mBufferKeys ↔
        ∃ r ∈ demoWorld.sounds, demoWorld.lowerCase r.mId = k) ∧
      ((lookupId demoWorld SoundManager.init "b").2 = none ↔
        "b" ∉ (loadAllSounds demoWorld SoundManager.init).mBufferKeys)) :=
  ⟨by decide, by decide, by decide,
    (lookupId_throws_iff_absent_after_bulk_load demoWorld SoundManager.init "b"
      (by decide) (by decide)).2.1⟩

/-- C6 at `demoState`: loading "c" with 5 MiB brings the total to 16 MiB; the
back of the unused list, entry 0 with 8 MiB, is evicted and the loop stops. -/
theorem lookup_evicts_shortest_sufficient_suffix_witness :
    Reachable demoWorld demoOutput demoState ∧
    2 < demoState.mSoundBuffers.length ∧
    (demoState.buffer 2).mHandle = 0 ∧
    (5 : Sound_Handle) ≠ 0 ∧
    demoState.mUnusedBuffers = [1, 0] ∧
    (lookup demoOutput demoState 2 (some 5)).1.mUnusedBuffers = [2, 1] ∧
    (lookup demoOutput demoState 2 (some 5)).1.mBufferCacheSize = 8 * 1048576 ∧
    demoState.mUnusedBuffers = (lookup demoOutput demoState 2 (some 5)).1.mUnusedBuffers.tail
      ++ ((lookupUnloads demoOutput demoState 2 (some 5)).map Prod.fst).reverse :=
  ⟨demoState_reachable, by decide, by decide, by decide, by decide, by decide, by decide,
    (lookup_evicts_shortest_sufficient_suffix demoWorld demoOutput demoState
      demoState_reachable 2 (by decide) (by decide) 5 (by decide)).2.1⟩

/-- C7 at `demoState`: the load of "c" returns entry 2 with its handle. -/
theorem lookup_returns_a_loaded_buffer_witness :
    Reachable demoWorld demoOutput demoState ∧
    2 < demoState.mSoundBuffers.length ∧
    (some 5 : Option Sound_Handle) ≠ some 0 ∧
    (lookup demoOutput demoState 2 (some 5)).2 ≠ none ∧
    ((lookup demoOutput demoState 2 (some 5)).2 ≠ none →
      (lookup demoOutput demoState 2 (some 5)).2 = some 2 ∧
      ((lookup demoOutput demoState 2 (some 5)).1.buffer 2).mHandle ≠ 0) :=
  ⟨demoState_reachable, by decide, by decide, by decide,
    (lookup_returns_a_loaded_buffer demoWorld demoOutput demoState
      demoState_reachable 2 (by decide) (some 5) (by decide)).1⟩

/-- C8 at `demoState`: the total is the 11 MiB of the two loaded entries. -/
theorem cache_size_is_sum_of_loaded_sizes_witness :
    Reachable demoWorld demoOutput demoState ∧
    demoState.mBufferCacheSize = 11 * 1048576 ∧
    demoState.mBufferCacheSize = (cacheSum demoOutput demoState.mSoundBuffers : Int) ∧
    0 ≤ demoState.mBufferCacheSize :=
  ⟨demoState_reachable, by decide,
    (cache_size_is_sum_of_loaded_sizes demoWorld demoOutput demoState demoState_reachable).1,
    (cache_size_is_sum_of_loaded_sizes demoWorld demoOutput demoState demoState_reachable).2.1⟩

/-- C9, amended, after one successful play of "a": entry 0 is referenced and loaded. -/
theorem referenced_since_eviction_implies_loaded_witness :
    (∀ op ∈ demoPlay, op.WellFormed) ∧
    referencedSinceEviction 0 (history demoWorld demoOutput demoPlay) = true ∧
    ((run demoWorld demoOutput demoPlay).buffer 0).mHandle ≠ 0 :=
  ⟨by decide, by decide,
    referenced_since_eviction_implies_loaded demoWorld demoOutput demoPlay (by decide) 0
      (by decide)⟩

/-- C10 at `demoState`: the unused list `[1, 0]` has no duplicate and holds the
two loaded, unreferenced entries. -/
theorem unused_list_is_the_set_of_loaded_unreferenced_witness :
    Reachable demoWorld demoOutput demoState ∧
    demoState.mUnusedBuffers = [1, 0] ∧
    demoState.mUnusedBuffers.Nodup ∧
    (∀ i, i ∈ demoState.mUnusedBuffers ↔
      ((demoState.buffer i).mHandle ≠ 0 ∧ (demoState.buffer i).mReferences = 0)) :=
  ⟨demoState_reachable, by decide,
    (unused_list_is_the_set_of_loaded_unreferenced demoWorld demoOutput demoState
      demoState_reachable).1,
    (unused_list_is_the_set_of_loaded_unreferenced demoWorld demoOutput demoState
      demoState_reachable).2.1⟩

theorem lookup_returns_index (out : Sound_Output) (s : SoundManager) (sfxid : Nat)
    (loaded : Option Sound_Handle) (r : Nat) (h : (lookup out s sfxid loaded).2 = some r) :
    r = sfxid := by
  unfold lookup at h
  split at h
  · cases loaded with
    | none => simp at h
    | some hd => simpa using h.symm
  · simpa using h.symm

theorem playSound_eq_playFiled (w : World) (out : Sound_Output) (s : SoundManager)
    (soundId : String) (loaded : Option Sound_Handle) (created : Option Sound) :
    playSound w out s soundId loaded created = playFiled w out s 0 soundId loaded created := by
  unfold playSound playFiled lookupByName
  by_cases hinit : out.isInitialized = false
  · rw [if_pos hinit, if_pos hinit]
  · rw [if_neg hinit, if_neg hinit]
    cases hl : (lookupId w s (w.lowerCase soundId)).2 with
    | none => rfl
    | some sfxid =>
      dsimp only
      cases hk : (lookup out (lookupId w s (w.lowerCase soundId)).1 sfxid loaded).2 with
      | none => rfl
      | some r =>
        have hr := lookup_returns_index _ _ _ _ _ hk
        subst hr
        cases created <;> rfl

theorem playSound3DAt_eq_playFiled (w : World) (out : Sound_Output) (s : SoundManager)
    (initialPos : Vec3f) (soundId : String) (mode : Nat)
    (loaded : Option Sound_Handle) (created : Option Sound) :
    playSound3DAt w out s initialPos soundId mode loaded created
      = playFiled w out s 0 soundId loaded created := by
  unfold playSound3DAt playFiled lookupByName
  by_cases hinit : out.isInitialized = false
  · rw [if_pos hinit, if_pos hinit]
  · rw [if_neg hinit, if_neg hinit]
    cases hl : (lookupId w s (w.lowerCase soundId)).2 with
    | none => rfl
    | some sfxid =>
      dsimp only
      cases hk : (lookup out (lookupId w s (w.lowerCase soundId)).1 sfxid loaded).2 with
      | none => rfl
      | some r =>
        have hr := lookup_returns_index _ _ _ _ _ hk
        subst hr
        cases created <;> rfl

theorem playSound3D_eq (w : World) (out : Sound_Output) (s : SoundManager) (ptr : Ptr)
    (objpos : Vec3f) (soundId : String) (mode : Nat)
    (loaded : Option Sound_Handle) (created : Option Sound) :
    playSound3D w out s ptr objpos soundId mode loaded created
      = if out.isInitialized = true ∧
            (lookupByName w out s (w.lowerCase soundId) loaded).2 ≠ none ∧
            rejectedAtDistance w
              (lookupByName w out s (w.lowerCase soundId) loaded).1.mListenerPos objpos mode
        then ((lookupByName w out s (w.lowerCase soundId) loaded).1, none)
        else playFiled w out s ptr soundId loaded created := by
  unfold playSound3D playFiled lookupByName rejectedAtDistance
  by_cases hinit : out.isInitialized = false
  · rw [if_pos hinit, if_pos hinit, if_neg]
    simp [hinit]
  · rw [if_neg hinit, if_neg hinit]
    have hinit2 : out.isInitialized = true := by simpa using hinit
    cases hl : (lookupId w s (w.lowerCase soundId)).2 with
    | none => simp
    | some sfxid =>
      dsimp only
      cases hk : (lookup out (lookupId w s (w.lowerCase soundId)).1 sfxid loaded).2 with
      | none => simp
      | some r =>
        have hr := lookup_returns_index _ _ _ _ _ hk
        subst hr
        dsimp only
        by_cases hrej : mode &&& w.Play_RemoveAtDistance ≠ 0 ∧
            ((lookup out (lookupId w s (w.lowerCase soundId)).1 r loaded).1.mListenerPos.sub
              objpos).length2 > 2000 * 2000
        · rw [if_pos hrej, if_pos ⟨hinit2, by simp, hrej⟩]
        · rw [if_neg hrej, if_neg (fun hc => hrej hc.2.2)]

/-- `lookupId` changes neither the registries, the unused list, the listener
nor any reference count. -/
theorem Inv.lookupId_frame {w : World} {out : Sound_Output} {s : SoundManager} (h : Inv out s)
    (soundId : String) :
    (lookupId w s soundId).1.mActiveSounds = s.mActiveSounds ∧
    (lookupId w s soundId).1.mActiveSaySounds = s.mActiveSaySounds ∧
    (lookupId w s soundId).1.mUnusedBuffers = s.mUnusedBuffers ∧
    (lookupId w s soundId).1.mListenerPos = s.mListenerPos ∧
    (∀ j, ((lookupId w s soundId).1.buffer j).mReferences = (s.buffer j).mReferences) ∧
    (s.mBufferKeys ≠ [] → (lookupId w s soundId).1 = s) := by
  by_cases he : s.mBufferKeys = []
  · have hb : s.mSoundBuffers = [] := List.length_eq_zero.mp (by rw [h.length_eq, he]; rfl)
    have h0 : TableInv w [] s := ⟨h.sorted, by rw [hb, he]; rfl, fun k => by simp [he]⟩
    have hT : TableInv w (w.sounds.map (fun r => (w.lowerCase r.mId, r))) (loadAllSounds w s) := by
      rw [loadAllSounds_eq_insertAll]
      simpa using h0.insertAll (w.sounds.map (fun r => (w.lowerCase r.mId, r)))
    obtain ⟨f1, _, f3, f4, f5⟩ :=
      insertAll_frame w (w.sounds.map (fun r => (w.lowerCase r.mId, r))) s
    rw [← loadAllSounds_eq_insertAll] at f1 f3 f4 f5
    have hst : (lookupId w s soundId).1 = loadAllSounds w s := by
      rw [lookupId_of_empty w s soundId he]
      split <;> rfl
    rw [hst]
    refine ⟨f3, f4, f1, f5, ?_, fun hne => absurd he hne⟩
    intro j
    have h1 : (s.buffer j).mReferences = 0 := by
      show (s.mSoundBuffers.getD j default).mReferences = 0
      rw [hb]; rfl
    rw [h1]
    exact (hT.fresh j).2
  · have hst : (lookupId w s soundId).1 = s := by
      by_cases hm : soundId ∈ s.mBufferKeys
      · rw [lookupId_of_mem w s soundId h.sorted hm]
      · rw [lookupId_of_not_mem_nonempty w s soundId h.sorted hm he]
    rw [hst]
    exact ⟨rfl, rfl, rfl, rfl, fun j => rfl, fun _ => rfl⟩

/-- `lookup` changes neither the registries, the listener nor any reference count. -/
theorem Inv.lookup_frame {out : Sound_Output} {s : SoundManager} (h : Inv out s) {sfxid : Nat}
    (hi : sfxid < s.mSoundBuffers.length) (loaded : Option Sound_Handle)
    (hwf : loaded ≠ some 0) :
    (lookup out s sfxid loaded).1.mActiveSounds = s.mActiveSounds ∧
    (lookup out s sfxid loaded).1.mActiveSaySounds = s.mActiveSaySounds ∧
    (lookup out s sfxid loaded).1.mListenerPos = s.mListenerPos ∧
    (∀ j, ((lookup out s sfxid loaded).1.buffer j).mReferences = (s.buffer j).mReferences) ∧
    ((s.buffer sfxid).mHandle ≠ 0 → (lookup out s sfxid loaded).1 = s) := by
  by_cases h0 : (s.buffer sfxid).mHandle = 0
  · cases loaded with
    | none =>
      rw [lookup_of_throw h0]
      exact ⟨rfl, rfl, rfl, fun j => rfl, fun _ => rfl⟩
    | some hd =>
      have hhd : hd ≠ 0 := fun hz => hwf (by rw [hz])
      rw [lookup_of_load hd h0]
      obtain ⟨hs1, _, _, _, _, hne⟩ :=
        load_facts h hi h0 hhd (afterLoad out s sfxid hd).mUnusedBuffers.length
      obtain ⟨_, f2, f3, f4, _⟩ :=
        evictLoop_frame out (afterLoad out s sfxid hd).mUnusedBuffers.length
          (afterLoad out s sfxid hd)
      obtain ⟨_, _, c⟩ := evictLoop_buffers
        (afterLoad out s sfxid hd).mUnusedBuffers.length _ hs1
      refine ⟨f2, f3, f4, ?_, fun hne0 => absurd h0 hne0⟩
      intro j
      show ((evictLoop out _ (afterLoad out s sfxid hd)).1.buffer j).mReferences = _
      rw [c j]
      by_cases hj : sfxid = j
      · subst hj
        show ((s.mSoundBuffers.set sfxid _).getD sfxid default).mReferences = _
        rw [getD_set_eq _ _ _ hi]
      · rw [hne j hj]
  · rw [lookup_of_loaded loaded h0]
    exact ⟨rfl, rfl, rfl, fun j => rfl, fun _ => rfl⟩

/-- `lookup(lookupId(soundId))`: the invariant is kept, the registries, the
listener and the reference counts are as before, and a returned index is the
one `lookupId` found, within the table, with a handle. -/
theorem Inv.lookupByName_facts {w : World} {out : Sound_Output} {s : SoundManager}
    (h : Inv out s) (soundId : String) (loaded : Option Sound_Handle) (hwf : loaded ≠ some 0) :
    Inv out (lookupByName w out s soundId loaded).1 ∧
    (lookupByName w out s soundId loaded).1.mActiveSounds = s.mActiveSounds ∧
    (lookupByName w out s soundId loaded).1.mActiveSaySounds = s.mActiveSaySounds ∧
    (lookupByName w out s soundId loaded).1.mListenerPos = s.mListenerPos ∧
    (∀ j, ((lookupByName w out s soundId loaded).1.buffer j).mReferences
      = (s.buffer j).mReferences) ∧
    (∀ i, (lookupByName w out s soundId loaded).2 = some i →
      (lookupId w s soundId).2 = some i ∧
      ((lookupByName w out s soundId loaded).1.buffer i).mHandle ≠ 0 ∧
      ((s.buffer i).mReferences ≠ 0 → (lookupByName w out s soundId loaded).1 = s)) := by
  obtain ⟨h1, hidx⟩ := h.of_lookupId (w := w) soundId
  obtain ⟨a1, a2, _, a4, a5, a6⟩ := h.lookupId_frame (w := w) soundId
  unfold lookupByName
  cases hl : (lookupId w s soundId).2 with
  | none =>
    exact ⟨h1, a1, a2, a4, a5, fun i hi => absurd hi (by simp)⟩
  | some sfxid =>
    dsimp only
    have hi := hidx sfxid hl
    obtain ⟨h2, hh⟩ := h1.of_lookup hi loaded hwf
    obtain ⟨b1, b2, b3, b4, b5⟩ := h1.lookup_frame hi loaded hwf
    refine ⟨h2, b1.trans a1, b2.trans a2, b3.trans a4, fun j => (b4 j).trans (a5 j), ?_⟩
    intro i hi2
    have hr := lookup_returns_index _ _ _ _ _ hi2
    subst hr
    refine ⟨rfl, hh (by rw [hi2]; simp), ?_⟩
    intro hrefs
    have hpos : 0 < (s.mSoundBuffers.getD i default).mReferences :=
      lt_of_le_of_ne (h.cache.refs_nonneg i) (Ne.symm hrefs)
    have hhandle : (s.buffer i).mHandle ≠ 0 := h.cache.loaded i hpos
    have hne : s.mBufferKeys ≠ [] := by
      intro he
      have hlen := lt_length_of_handle hhandle
      rw [h.length_eq, he] at hlen
      exact absurd hlen (Nat.not_lt_zero _)
    have hs1 : (lookupId w s soundId).1 = s := a6 hne
    rw [hs1]
    rw [hs1] at b5
    exact b5 hhandle

theorem playFiled_eq_none_iff (w : World) (out : Sound_Output) (s : SoundManager) (key : Ptr)
    (soundId : String) (loaded : Option Sound_Handle) (created : Option Sound) :
    (playFiled w out s key soundId loaded created).2 = none ↔
      (out.isInitialized = false ∨
        (lookupByName w out s (w.lowerCase soundId) loaded).2 = none ∨ created = none) := by
  unfold playFiled
  by_cases hinit : out.isInitialized = false
  · rw [if_pos hinit]; simp [hinit]
  · rw [if_neg hinit]
    cases hl : (lookupByName w out s (w.lowerCase soundId) loaded).2 with
    | none => simp
    | some sfxid =>
      cases created with
      | none => simp
      | some sound => simp [hinit]

/-- A play that returns the null pointer files nothing and changes no count. -/
theorem Inv.playFiled_fail {w : World} {out : Sound_Output} {s : SoundManager} (h : Inv out s)
    (key : Ptr) (soundId : String) (loaded : Option Sound_Handle) (created : Option Sound)
    (hwf : loaded ≠ some 0) (hnone : (playFiled w out s key soundId loaded created).2 = none) :
    (playFiled w out s key soundId loaded created).1.mActiveSounds = s.mActiveSounds ∧
    (playFiled w out s key soundId loaded created).1.mActiveSaySounds = s.mActiveSaySounds ∧
    (∀ j, ((playFiled w out s key soundId loaded created).1.buffer j).mReferences
      = (s.buffer j).mReferences) := by
  obtain ⟨_, a1, a2, _, a4, _⟩ := h.lookupByName_facts (w := w) (w.lowerCase soundId) loaded hwf
  unfold playFiled at hnone ⊢
  by_cases hinit : out.isInitialized = false
  · rw [if_pos hinit]
    exact ⟨rfl, rfl, fun j => rfl⟩
  · rw [if_neg hinit] at hnone ⊢
    cases hl : (lookupByName w out s (w.lowerCase soundId) loaded).2 with
    | none => exact ⟨a1, a2, a4⟩
    | some sfxid =>
      rw [hl] at hnone
      cases created with
      | none => exact ⟨a1, a2, a4⟩
      | some sound => simp at hnone

/-- A play that returns an instance: the index `lookupId` found has its count
raised by one, every other count is as before, the index is not in the unused
list afterwards, the list is untouched if the buffer was referenced already,
and the entry is appended under `key`. -/
theorem Inv.playFiled_success {w : World} {out : Sound_Output} {s : SoundManager}
    (h : Inv out s) (key : Ptr) (soundId : String) (loaded : Option Sound_Handle)
    (created : Option Sound) (hwf : loaded ≠ some 0) (sound : Sound)
    (hsome : (playFiled w out s key soundId loaded created).2 = some sound) :
    ∃ sfxid, (lookupId w s (w.lowerCase soundId)).2 = some sfxid ∧ created = some sound ∧
      (∀ j, ((playFiled w out s key soundId loaded created).1.buffer j).mReferences
        = (s.buffer j).mReferences + (if j = sfxid then 1 else 0)) ∧
      sfxid ∉ (playFiled w out s key soundId loaded created).1.mUnusedBuffers ∧
      ((s.buffer sfxid).mReferences ≠ 0 →
        (playFiled w out s key soundId loaded created).1.mUnusedBuffers = s.mUnusedBuffers) ∧
      (playFiled w out s key soundId loaded created).1.mActiveSounds
        = mapPushBack s.mActiveSounds key (sound, sfxid) := by
  obtain ⟨h2, a1, _, _, a4, a5⟩ := h.lookupByName_facts (w := w) (w.lowerCase soundId) loaded hwf
  unfold playFiled at hsome ⊢
  by_cases hinit : out.isInitialized = false
  · rw [if_pos hinit] at hsome; simp at hsome
  · rw [if_neg hinit] at hsome ⊢
    cases hl : (lookupByName w out s (w.lowerCase soundId) loaded).2 with
    | none => rw [hl] at hsome; simp at hsome
    | some sfxid =>
      rw [hl] at hsome
      obtain ⟨b1, b2, b3⟩ := a5 sfxid hl
      cases created with
      | none => simp at hsome
      | some snd =>
        have hsnd : sound = snd := by simpa using hsome.symm
        subst hsnd
        have hil : sfxid < (lookupByName w out s (w.lowerCase soundId) loaded).1.mSoundBuffers.length :=
          lt_length_of_handle b2
        refine ⟨sfxid, b1, rfl, ?_, ?_, ?_, ?_⟩
        · intro j
          show (((lookupByName w out s (w.lowerCase soundId) loaded).1.mSoundBuffers.set sfxid
            _).getD j default).mReferences = _
          by_cases hj : j = sfxid
          · subst hj
            rw [getD_set_eq _ _ _ hil, if_pos rfl, ← a4 j]
          · rw [getD_set_ne _ _ _ _ (Ne.symm hj), if_neg hj, ← a4 j]
            simp [SoundManager.buffer]
        · show sfxid ∉ (if ((lookupByName w out s (w.lowerCase soundId) loaded).1.buffer
            sfxid).mReferences = 0
            then (lookupByName w out s (w.lowerCase soundId) loaded).1.mUnusedBuffers.erase sfxid
            else (lookupByName w out s (w.lowerCase soundId) loaded).1.mUnusedBuffers)
          by_cases hr : ((lookupByName w out s (w.lowerCase soundId) loaded).1.buffer
            sfxid).mReferences = 0
          · rw [if_pos hr]
            exact h2.cache.nodup.not_mem_erase
          · rw [if_neg hr]
            intro hm
            exact hr ((h2.cache.unused_iff sfxid).mp hm).2.1
        · intro hrefs
          have hs := b3 hrefs
          show (if ((lookupByName w out s (w.lowerCase soundId) loaded).1.buffer
            sfxid).mReferences = 0
            then (lookupByName w out s (w.lowerCase soundId) loaded).1.mUnusedBuffers.erase sfxid
            else (lookupByName w out s (w.lowerCase soundId) loaded).1.mUnusedBuffers) = _
          rw [hs, if_neg hrefs]
        · show mapPushBack (lookupByName w out s (w.lowerCase soundId) loaded).1.mActiveSounds
            key (sound, sfxid) = _
          rw [a1]

theorem mem_registryIndices {m : List (Ptr × SoundIndexPairList)} {p : Ptr × SoundIndexPairList}
    {e : Sound × Nat} (hp : p ∈ m) (he : e ∈ p.2) : e.2 ∈ registryIndices m := by
  induction m with
  | nil => exact absurd hp (List.not_mem_nil _)
  | cons q m ih =>
    obtain ⟨k, l⟩ := q
    simp only [registryIndices, List.mem_append]
    rcases List.mem_cons.mp hp with h | h
    · subst h
      exact Or.inl (List.mem_map.mpr ⟨e, he, rfl⟩)
    · exact Or.inr (ih h)

theorem demoPlayed_reachable : Reachable demoWorld demoOutput demoPlayed :=
  ⟨demoPlay, by decide, rfl⟩

/-- C11: in every reachable state, each entry of the active-sound registry
refers to a buffer whose reference count is at least 1 (and which is loaded);
more precisely, a buffer's count is at least the number of entries that refer
to it. -/
theorem registry_entries_hold_a_reference (w : World) (out : Sound_Output) (s : SoundManager)
    (h : Reachable w out s) :
    (∀ p ∈ s.mActiveSounds, ∀ e ∈ p.2,
      1 ≤ (s.buffer e.2).mReferences ∧ (s.buffer e.2).mHandle ≠ 0) ∧
    (∀ i, ((registryIndices s.mActiveSounds).count i : Int) ≤ (s.buffer i).mReferences) := by
  have hinv := h.inv
  refine ⟨?_, hinv.cache.counts⟩
  intro p hp e he
  have hmem : e.2 ∈ registryIndices s.mActiveSounds := mem_registryIndices hp he
  have hc := hinv.cache.counts e.2
  have hpos : 0 < (registryIndices s.mActiveSounds).count e.2 := List.count_pos_iff.mpr hmem
  have h1 : 1 ≤ (s.mSoundBuffers.getD e.2 default).mReferences := by omega
  exact ⟨h1, hinv.cache.loaded e.2 (by omega)⟩

/-- C11 after one successful play of "a": the one entry refers to buffer 0,
whose count is 1. -/
theorem registry_entries_hold_a_reference_witness :
    Reachable demoWorld demoOutput demoPlayed ∧
    demoPlayed.mActiveSounds = [(0, [(demoSound, 0)])] ∧
    (∀ p ∈ demoPlayed.mActiveSounds, ∀ e ∈ p.2,
      1 ≤ (demoPlayed.buffer e.2).mReferences ∧ (demoPlayed.buffer e.2).mHandle ≠ 0) :=
  ⟨demoPlayed_reachable, by decide,
    (registry_entries_hold_a_reference demoWorld demoOutput demoPlayed demoPlayed_reachable).1⟩

/-- C12 fails as stated: "a" has a live instance and count 1; a second
successful play of "a" raises the count to 2. -/
theorem play_increments_only_first_counterexample :
    ¬ ((lookupId demoWorld demoPlayed "a").2 = some 0 ∧
        (playSound demoWorld demoOutput demoPlayed "A" none (some demoSound)).2 ≠ none ∧
        0 < (demoPlayed.buffer 0).mReferences →
      ((playSound demoWorld demoOutput demoPlayed "A" none (some demoSound)).1.buffer
        0).mReferences = (demoPlayed.buffer 0).mReferences) := by
  decide

/-- C12, amended: every successful play (`playSound` and both `playSound3D`
variants) raises the reference count of the buffer it plays by one and leaves
every other count as it was. The index is not in the unused list afterwards
(it is erased when the count was 0), and when the buffer was referenced
already the unused list is unchanged. -/
theorem successful_play_takes_one_reference (w : World) (out : Sound_Output)
    (s : SoundManager) (h : Reachable w out s) (soundId : String)
    (loaded : Option Sound_Handle) (created : Option Sound) (hwf : loaded ≠ some 0)
    (ptr : Ptr) (pos : Vec3f) (mode : Nat) :
    (∀ sound, (playSound w out s soundId loaded created).2 = some sound →
      ∃ sfxid, (lookupId w s (w.lowerCase soundId)).2 = some sfxid ∧
        (∀ j, ((playSound w out s soundId loaded created).1.buffer j).mReferences
          = (s.buffer j).mReferences + (if j = sfxid then 1 else 0)) ∧
        sfxid ∉ (playSound w out s soundId loaded created).1.mUnusedBuffers ∧
        ((s.buffer sfxid).mReferences ≠ 0 →
          (playSound w out s soundId loaded created).1.mUnusedBuffers = s.mUnusedBuffers)) ∧
    (∀ sound, (playSound3D w out s ptr pos soundId mode loaded created).2 = some sound →
      ∃ sfxid, (lookupId w s (w.lowerCase soundId)).2 = some sfxid ∧
        (∀ j, ((playSound3D w out s ptr pos soundId mode loaded created).1.buffer j).mReferences
          = (s.buffer j).mReferences + (if j = sfxid then 1 else 0)) ∧
        sfxid ∉ (playSound3D w out s ptr pos soundId mode loaded created).1.mUnusedBuffers ∧
        ((s.buffer sfxid).mReferences ≠ 0 →
          (playSound3D w out s ptr pos soundId mode loaded created).1.mUnusedBuffers
            = s.mUnusedBuffers)) ∧
    (∀ sound, (playSound3DAt w out s pos soundId mode loaded created).2 = some sound →
      ∃ sfxid, (lookupId w s (w.lowerCase soundId)).2 = some sfxid ∧
        (∀ j, ((playSound3DAt w out s pos soundId mode loaded created).1.buffer j).mReferences
          = (s.buffer j).mReferences + (if j = sfxid then 1 else 0)) ∧
        sfxid ∉ (playSound3DAt w out s pos soundId mode loaded created).1.mUnusedBuffers ∧
        ((s.buffer sfxid).mReferences ≠ 0 →
          (playSound3DAt w out s pos soundId mode loaded created).1.mUnusedBuffers
            = s.mUnusedBuffers)) := by
  have hinv := h.inv
  refine ⟨?_, ?_, ?_⟩
  · intro sound hs
    rw [playSound_eq_playFiled] at hs ⊢
    obtain ⟨sfxid, a, _, b, c, d, _⟩ := hinv.playFiled_success 0 soundId loaded created hwf sound hs
    exact ⟨sfxid, a, b, c, d⟩
  · intro sound hs
    rw [playSound3D_eq] at hs ⊢
    split at hs
    · exact absurd hs (by simp)
    · next hc =>
      rw [if_neg hc]
      obtain ⟨sfxid, a, _, b, c, d, _⟩ :=
        hinv.playFiled_success ptr soundId loaded created hwf sound hs
      exact ⟨sfxid, a, b, c, d⟩
  · intro sound hs
    rw [playSound3DAt_eq_playFiled] at hs ⊢
    obtain ⟨sfxid, a, _, b, c, d, _⟩ := hinv.playFiled_success 0 soundId loaded created hwf sound hs
    exact ⟨sfxid, a, b, c, d⟩

/-- C12, amended, at the state with one live instance of "a": the second play
takes the count of buffer 0 from 1 to 2. -/
theorem successful_play_takes_one_reference_witness :
    Reachable demoWorld demoOutput demoPlayed ∧
    (none : Option Sound_Handle) ≠ some 0 ∧
    (demoPlayed.buffer 0).mReferences = 1 ∧
    ((playSound demoWorld demoOutput demoPlayed "A" none (some demoSound)).1.buffer
      0).mReferences = 2 ∧
    (∀ sound, (playSound demoWorld demoOutput demoPlayed "A" none (some demoSound)).2
        = some sound →
      ∃ sfxid, (lookupId demoWorld demoPlayed (demoWorld.lowerCase "A")).2 = some sfxid ∧
        (∀ j, ((playSound demoWorld demoOutput demoPlayed "A" none (some demoSound)).1.buffer
            j).mReferences
          = (demoPlayed.buffer j).mReferences + (if j = sfxid then 1 else 0)) ∧
        sfxid ∉ (playSound demoWorld demoOutput demoPlayed "A" none
          (some demoSound)).1.mUnusedBuffers ∧
        ((demoPlayed.buffer sfxid).mReferences ≠ 0 →
          (playSound demoWorld demoOutput demoPlayed "A" none
            (some demoSound)).1.mUnusedBuffers = demoPlayed.mUnusedBuffers)) :=
  ⟨demoPlayed_reachable, by decide, by decide, by decide,
    (successful_play_takes_one_reference demoWorld demoOutput demoPlayed demoPlayed_reachable
      "A" none (some demoSound) (by decide) 0 ⟨0, 0, 0⟩ 0).1⟩

/-- C13: in `playSound` and both `playSound3D` variants, when the identity is
not resolved, the buffer is not loaded or the backend creates no instance, the
exception is caught: the call returns the null pointer, the registries are as
before and every reference count is as before. -/
theorem failed_play_returns_null_and_changes_nothing (w : World) (out : Sound_Output)
    (s : SoundManager) (h : Reachable w out s) (soundId : String)
    (loaded : Option Sound_Handle) (created : Option Sound) (hwf : loaded ≠ some 0)
    (ptr : Ptr) (pos : Vec3f) (mode : Nat)
    (hfail : (lookupId w s (w.lowerCase soundId)).2 = none ∨
      (lookupByName w out s (w.lowerCase soundId) loaded).2 = none ∨ created = none) :
    ((playSound w out s soundId loaded created).2 = none ∧
      (playSound w out s soundId loaded created).1.mActiveSounds = s.mActiveSounds ∧
      (playSound w out s soundId loaded created).1.mActiveSaySounds = s.mActiveSaySounds ∧
      ∀ j, ((playSound w out s soundId loaded created).1.buffer j).mReferences
        = (s.buffer j).mReferences) ∧
    ((playSound3D w out s ptr pos soundId mode loaded created).2 = none ∧
      (playSound3D w out s ptr pos soundId mode loaded created).1.mActiveSounds
        = s.mActiveSounds ∧
      (playSound3D w out s ptr pos soundId mode loaded created).1.mActiveSaySounds
        = s.mActiveSaySounds ∧
      ∀ j, ((playSound3D w out s ptr pos soundId mode loaded created).1.buffer j).mReferences
        = (s.buffer j).mReferences) ∧
    ((playSound3DAt w out s pos soundId mode loaded created).2 = none ∧
      (playSound3DAt w out s pos soundId mode loaded created).1.mActiveSounds
        = s.mActiveSounds ∧
      (playSound3DAt w out s pos soundId mode loaded created).1.mActiveSaySounds
        = s.mActiveSaySounds ∧
      ∀ j, ((playSound3DAt w out s pos soundId mode loaded created).1.buffer j).mReferences
        = (s.buffer j).mReferences) := by
  have hinv := h.inv
  have hfail2 : (lookupByName w out s (w.lowerCase soundId) loaded).2 = none ∨ created = none := by
    rcases hfail with h1 | h2 | h3
    · left
      simp only [lookupByName, h1]
    · exact Or.inl h2
    · exact Or.inr h3
  have hnone : ∀ key, (playFiled w out s key soundId loaded created).2 = none := fun key =>
    (playFiled_eq_none_iff w out s key soundId loaded created).mpr (Or.inr hfail2)
  have hfiled : ∀ key, (playFiled w out s key soundId loaded created).2 = none ∧
      (playFiled w out s key soundId loaded created).1.mActiveSounds = s.mActiveSounds ∧
      (playFiled w out s key soundId loaded created).1.mActiveSaySounds = s.mActiveSaySounds ∧
      ∀ j, ((playFiled w out s key soundId loaded created).1.buffer j).mReferences
        = (s.buffer j).mReferences := fun key =>
    ⟨hnone key, hinv.playFiled_fail key soundId loaded created hwf (hnone key)⟩
  refine ⟨?_, ?_, ?_⟩
  · rw [playSound_eq_playFiled]; exact hfiled 0
  · rw [playSound3D_eq]
    split
    · obtain ⟨_, a1, a2, _, a4, _⟩ :=
        hinv.lookupByName_facts (w := w) (w.lowerCase soundId) loaded hwf
      exact ⟨rfl, a1, a2, a4⟩
    · exact hfiled ptr
  · rw [playSound3DAt_eq_playFiled]; exact hfiled 0

/-- C13 at `demoState`: the backend creates no instance for "c"; the call
returns null; the buffer has been loaded but nothing is filed or referenced. -/
theorem failed_play_returns_null_and_changes_nothing_witness :
    Reachable demoWorld demoOutput demoState ∧
    (some 5 : Option Sound_Handle) ≠ some 0 ∧
    ((lookupId demoWorld demoState (demoWorld.lowerCase "C")).2 = none ∨
      (lookupByName demoWorld demoOutput demoState (demoWorld.lowerCase "C") (some 5)).2 = none ∨
      (none : Option Sound) = none) ∧
    ((playSound demoWorld demoOutput demoState "C" (some 5) none).1.buffer 2).mHandle = 5 ∧
    ((playSound demoWorld demoOutput demoState "C" (some 5) none).2 = none ∧
      (playSound demoWorld demoOutput demoState "C" (some 5) none).1.mActiveSounds
        = demoState.mActiveSounds ∧
      (playSound demoWorld demoOutput demoState "C" (some 5) none).1.mActiveSaySounds
        = demoState.mActiveSaySounds ∧
      ∀ j, ((playSound demoWorld demoOutput demoState "C" (some 5) none).1.buffer j).mReferences
        = (demoState.buffer j).mReferences) :=
  ⟨demoState_reachable, by decide, Or.inr (Or.inr rfl), by decide,
    (failed_play_returns_null_and_changes_nothing demoWorld demoOutput demoState
      demoState_reachable "C" (some 5) none (by decide) 0 ⟨0, 0, 0⟩ 0
      (Or.inr (Or.inr rfl))).1⟩

/-- C14 fails as stated: a fixed-position play 3000 units from the listener
with `Play_RemoveAtDistance` in its mode is not rejected; the instance is
created and returned. -/
theorem distant_play_rejected_counterexample :
    ¬ (rejectedAtDistance demoWorld SoundManager.init.mListenerPos ⟨3000, 0, 0⟩ 4 →
      (playSound3DAt demoWorld demoOutput SoundManager.init ⟨3000, 0, 0⟩ "A" 4 (some 8)
        (some demoSound)).2 = none) := by
  intro hc
  have hrej : rejectedAtDistance demoWorld SoundManager.init.mListenerPos ⟨3000, 0, 0⟩ 4 := by
    refine ⟨by decide, ?_⟩
    norm_num [SoundManager.init, Vec3f.sub, Vec3f.length2]
  have := hc hrej
  revert this
  decide

/-- C14, amended: in the entity-owned `playSound3D`, a request whose mode
includes `Play_RemoveAtDistance` and whose squared distance from the listener
exceeds 2000*2000 is rejected: the null pointer is returned, the outcome does
not depend on what the backend would have created, and the registries and all
reference counts are as before. -/
theorem distant_entity_play_is_rejected (w : World) (out : Sound_Output)
    (s : SoundManager) (h : Reachable w out s) (ptr : Ptr) (objpos : Vec3f) (soundId : String)
    (mode : Nat) (loaded : Option Sound_Handle) (created : Option Sound)
    (hwf : loaded ≠ some 0) (hfar : rejectedAtDistance w s.mListenerPos objpos mode) :
    (playSound3D w out s ptr objpos soundId mode loaded created).2 = none ∧
    playSound3D w out s ptr objpos soundId mode loaded created
      = playSound3D w out s ptr objpos soundId mode loaded none ∧
    (playSound3D w out s ptr objpos soundId mode loaded created).1.mActiveSounds
      = s.mActiveSounds ∧
    (playSound3D w out s ptr objpos soundId mode loaded created).1.mActiveSaySounds
      = s.mActiveSaySounds ∧
    (∀ j, ((playSound3D w out s ptr objpos soundId mode loaded created).1.buffer j).mReferences
      = (s.buffer j).mReferences) := by
  have hinv := h.inv
  obtain ⟨_, a1, a2, a3, a4, _⟩ :=
    hinv.lookupByName_facts (w := w) (w.lowerCase soundId) loaded hwf
  have hfar2 : rejectedAtDistance w
      (lookupByName w out s (w.lowerCase soundId) loaded).1.mListenerPos objpos mode := by
    rw [a3]; exact hfar
  have key : ∀ c : Option Sound,
      (playSound3D w out s ptr objpos soundId mode loaded c).2 = none ∧
      (playSound3D w out s ptr objpos soundId mode loaded c).1
        = if out.isInitialized = false then s
          else (lookupByName w out s (w.lowerCase soundId) loaded).1 := by
    intro c
    rw [playSound3D_eq]
    by_cases hinit : out.isInitialized = false
    · have hnot : ¬ (out.isInitialized = true ∧
          (lookupByName w out s (w.lowerCase soundId) loaded).2 ≠ none ∧
          rejectedAtDistance w
            (lookupByName w out s (w.lowerCase soundId) loaded).1.mListenerPos objpos mode) := by
        simp [hinit]
      rw [if_neg hnot, if_pos hinit]
      simp only [playFiled, hinit, ↓reduceIte, and_self]
    · have hinit2 : out.isInitialized = true := by simpa using hinit
      rw [if_neg hinit]
      by_cases hl : (lookupByName w out s (w.lowerCase soundId) loaded).2 = none
      · have hnot : ¬ (out.isInitialized = true ∧
            (lookupByName w out s (w.lowerCase soundId) loaded).2 ≠ none ∧
            rejectedAtDistance w
              (lookupByName w out s (w.lowerCase soundId) loaded).1.mListenerPos objpos
              mode) := fun hc => hc.2.1 hl
        rw [if_neg hnot]
        simp [playFiled, hinit2, hl]
      · rw [if_pos ⟨hinit2, hl, hfar2⟩]
        exact ⟨rfl, rfl⟩
  have hk := key created
  have hn := key none
  refine ⟨hk.1, Prod.ext (hk.2.trans hn.2.symm) (hk.1.trans hn.1.symm), ?_, ?_, ?_⟩
  · rw [hk.2]; split
    · rfl
    · exact a1
  · rw [hk.2]; split
    · rfl
    · exact a2
  · intro j
    rw [hk.2]; split
    · rfl
    · exact a4 j

theorem demoState_far :
    rejectedAtDistance demoWorld demoState.mListenerPos ⟨3000, 0, 0⟩ 4 := by
  have hpos : demoState.mListenerPos = ⟨0, 0, 0⟩ := by decide
  rw [rejectedAtDistance, hpos]
  exact ⟨by decide, by norm_num [Vec3f.sub, Vec3f.length2]⟩

/-- C14, amended, at `demoState`: entity 5 stands 3000 units from the
listener; the play of "c" is rejected after the buffer has been loaded. -/
theorem distant_entity_play_is_rejected_witness :
    Reachable demoWorld demoOutput demoState ∧
    (some 5 : Option Sound_Handle) ≠ some 0 ∧
    rejectedAtDistance demoWorld demoState.mListenerPos ⟨3000, 0, 0⟩ 4 ∧
    (playSound3D demoWorld demoOutput demoState 5 ⟨3000, 0, 0⟩ "C" 4 (some 5)
      (some demoSound)).2 = none :=
  ⟨demoState_reachable, by decide, demoState_far,
    (distant_entity_play_is_rejected demoWorld demoOutput demoState demoState_reachable 5
      ⟨3000, 0, 0⟩ "C" 4 (some 5) (some demoSound) (by decide) demoState_far).1⟩

theorem updateSound_eq (w : World) (listenerPos : Vec3f) (getPosition : Ptr → Vec3f)
    (sound : Sound) (ptr : Ptr) (duration : Rat) :
    updateSound w listenerPos getPosition sound ptr duration
      = fadeSound (placeSound w listenerPos getPosition sound ptr) duration := rfl

theorem fadeSound_fst (sound1 : Sound) (duration : Rat) :
    (fadeSound sound1 duration).1 = sound1.mPlaying ∧
    (fadeSound sound1 duration).2.mPlaying = sound1.mPlaying ∧
    (fadeSound sound1 duration).2.mFlags = sound1.mFlags ∧
    (fadeSound sound1 duration).2.mPos = sound1.mPos := by
  unfold fadeSound
  cases hp : sound1.mPlaying
  · simp [hp]
  · simp only [Bool.true_eq_false, ↓reduceIte]
    split
    · exact ⟨rfl, rfl, rfl, rfl⟩
    · exact ⟨rfl, hp, rfl, rfl⟩

theorem placeSound_fields (w : World) (listenerPos : Vec3f) (getPosition : Ptr → Vec3f)
    (sound : Sound) (ptr : Ptr) :
    (placeSound w listenerPos getPosition sound ptr).mPlaying
      = (if ptr ≠ 0 ∧ sound.mFlags &&& w.Play_RemoveAtDistance ≠ 0 ∧
          (listenerPos.sub (getPosition ptr)).length2 > 2000 * 2000
        then false else sound.mPlaying) ∧
    (placeSound w listenerPos getPosition sound ptr).mVolume = sound.mVolume ∧
    (placeSound w listenerPos getPosition sound ptr).mFadeOutTime = sound.mFadeOutTime ∧
    (placeSound w listenerPos getPosition sound ptr).mFlags = sound.mFlags := by
  unfold placeSound
  by_cases hp : ptr ≠ 0
  · by_cases hc : sound.mFlags &&& w.Play_RemoveAtDistance ≠ 0 ∧
        (listenerPos.sub (getPosition ptr)).length2 > 2000 * 2000
    · rw [if_pos hp, if_pos hc, if_pos ⟨hp, hc⟩]
      exact ⟨rfl, rfl, rfl, rfl⟩
    · rw [if_pos hp, if_neg hc, if_neg (fun h => hc h.2)]
      exact ⟨rfl, rfl, rfl, rfl⟩
  · rw [if_neg hp, if_neg (fun h => hp h.1)]
    exact ⟨rfl, rfl, rfl, rfl⟩

theorem updateSound_fst_eq_playing (w : World) (listenerPos : Vec3f)
    (getPosition : Ptr → Vec3f) (sound : Sound) (ptr : Ptr) (duration : Rat) :
    (updateSound w listenerPos getPosition sound ptr duration).1
      = (updateSound w listenerPos getPosition sound ptr duration).2.mPlaying := by
  rw [updateSound_eq, (fadeSound_fst _ _).1, (fadeSound_fst _ _).2.1]

/-- The instance that `updateSound` tests with `isPlaying()`: the position has
been set and `stop()` has been called if the owner is too far away. -/
theorem updateSound_fst (w : World) (listenerPos : Vec3f)
    (getPosition : Ptr → Vec3f) (sound : Sound) (ptr : Ptr) (duration : Rat) :
    (updateSound w listenerPos getPosition sound ptr duration).1
      = if ptr ≠ 0 ∧ sound.mFlags &&& w.Play_RemoveAtDistance ≠ 0 ∧
          (listenerPos.sub (getPosition ptr)).length2 > 2000 * 2000
        then false else sound.mPlaying := by
  rw [updateSound_eq, (fadeSound_fst _ _).1, (placeSound_fields _ _ _ _ _).1]

/-- C15: `updateSound` stops a playing instance because of distance exactly
when its owner is a non-empty entity, its flags include
`Play_RemoveAtDistance` and the squared distance between the listener and the
owner exceeds 2000*2000. At a squared distance of 2000*2000 the instance is
kept, at 2001*2001 a flagged instance of an entity is stopped, and detached or
unflagged instances are never stopped by `updateSound`. -/
theorem updateSound_culls_beyond_2000 (w : World) (listenerPos : Vec3f)
    (getPosition : Ptr → Vec3f) (sound : Sound) (ptr : Ptr) (duration : Rat)
    (hplay : sound.mPlaying = true) :
    ((updateSound w listenerPos getPosition sound ptr duration).1 = false ↔
      (ptr ≠ 0 ∧ sound.mFlags &&& w.Play_RemoveAtDistance ≠ 0 ∧
        (listenerPos.sub (getPosition ptr)).length2 > 2000 * 2000)) ∧
    ((updateSound w listenerPos getPosition sound ptr duration).2.mPlaying = false ↔
      (ptr ≠ 0 ∧ sound.mFlags &&& w.Play_RemoveAtDistance ≠ 0 ∧
        (listenerPos.sub (getPosition ptr)).length2 > 2000 * 2000)) ∧
    ((listenerPos.sub (getPosition ptr)).length2 = 2000 * 2000 →
      (updateSound w listenerPos getPosition sound ptr duration).1 = true) ∧
    (ptr ≠ 0 → sound.mFlags &&& w.Play_RemoveAtDistance ≠ 0 →
      (listenerPos.sub (getPosition ptr)).length2 = 2001 * 2001 →
      (updateSound w listenerPos getPosition sound ptr duration).1 = false) ∧
    (ptr = 0 ∨ sound.mFlags &&& w.Play_RemoveAtDistance = 0 →
      (updateSound w listenerPos getPosition sound ptr duration).1 = true) := by
  have hiff : (updateSound w listenerPos getPosition sound ptr duration).1 = false ↔
      (ptr ≠ 0 ∧ sound.mFlags &&& w.Play_RemoveAtDistance ≠ 0 ∧
        (listenerPos.sub (getPosition ptr)).length2 > 2000 * 2000) := by
    rw [updateSound_fst]
    by_cases hc : ptr ≠ 0 ∧ sound.mFlags &&& w.Play_RemoveAtDistance ≠ 0 ∧
        (listenerPos.sub (getPosition ptr)).length2 > 2000 * 2000
    · rw [if_pos hc]; exact ⟨fun _ => hc, fun _ => rfl⟩
    · rw [if_neg hc, hplay]
      exact ⟨fun h => absurd h (by simp), fun h => absurd h hc⟩
  have htrue : ¬ (ptr ≠ 0 ∧ sound.mFlags &&& w.Play_RemoveAtDistance ≠ 0 ∧
        (listenerPos.sub (getPosition ptr)).length2 > 2000 * 2000) →
      (updateSound w listenerPos getPosition sound ptr duration).1 = true := by
    intro hn
    cases hv : (updateSound w listenerPos getPosition sound ptr duration).1
    · exact absurd (hiff.mp hv) hn
    · rfl
  refine ⟨hiff, ?_, ?_, ?_, ?_⟩
  · rw [← updateSound_fst_eq_playing]; exact hiff
  · intro hd
    apply htrue
    intro hc
    rw [hd] at hc
    exact lt_irrefl _ hc.2.2
  · intro hp hf hd
    apply hiff.mpr
    refine ⟨hp, hf, ?_⟩
    rw [hd]; norm_num
  · intro hd
    apply htrue
    intro hc
    rcases hd with h1 | h1
    · exact hc.1 h1
    · exact hc.2.1 h1

/-- C15 for entity 7, flagged, with the listener at the origin: kept at
(2000, 0, 0) and stopped at (2001, 0, 0). -/
theorem updateSound_culls_beyond_2000_witness :
    ({ demoSound with mFlags := 4 } : Sound).mPlaying = true ∧
    (updateSound demoWorld ⟨0, 0, 0⟩ (fun _ => ⟨2000, 0, 0⟩) { demoSound with mFlags := 4 } 7
      1).1 = true ∧
    (updateSound demoWorld ⟨0, 0, 0⟩ (fun _ => ⟨2001, 0, 0⟩) { demoSound with mFlags := 4 } 7
      1).1 = false :=
  ⟨rfl,
    (updateSound_culls_beyond_2000 demoWorld ⟨0, 0, 0⟩ (fun _ => ⟨2000, 0, 0⟩)
      { demoSound with mFlags := 4 } 7 1 rfl).2.2.1
      (by norm_num [Vec3f.sub, Vec3f.length2]),
    (updateSound_culls_beyond_2000 demoWorld ⟨0, 0, 0⟩ (fun _ => ⟨2001, 0, 0⟩)
      { demoSound with mFlags := 4 } 7 1 rfl).2.2.2.1 (by decide) (by decide)
      (by norm_num [Vec3f.sub, Vec3f.length2])⟩

/-- The fields of a playing instance after `fadeSound`. -/
theorem fadeSound_playing (sound1 : Sound) (duration : Rat) (hp : sound1.mPlaying = true) :
    (fadeSound sound1 duration).2.mFadeOutTime
      = (if sound1.mFadeOutTime > 0 then
          sound1.mFadeOutTime - min duration sound1.mFadeOutTime
        else sound1.mFadeOutTime) ∧
    (fadeSound sound1 duration).2.mVolume
      = (if sound1.mFadeOutTime > 0 then
          sound1.mVolume - min duration sound1.mFadeOutTime / sound1.mFadeOutTime * sound1.mVolume
        else sound1.mVolume) := by
  have hmin : (if duration > sound1.mFadeOutTime then sound1.mFadeOutTime else duration)
      = min duration sound1.mFadeOutTime := by
    by_cases h : duration > sound1.mFadeOutTime
    · rw [if_pos h, min_eq_right (le_of_lt h)]
    · rw [if_neg h, min_eq_left (not_lt.mp h)]
  unfold fadeSound
  simp only [hp, Bool.true_eq_false, ↓reduceIte]
  split
  · exact ⟨by rw [← hmin], by rw [← hmin]⟩
  · exact ⟨rfl, rfl⟩

/-- One tick on an instance that plays and is not out of range. -/
theorem updateSound_tick (w : World) (listenerPos : Vec3f) (getPosition : Ptr → Vec3f)
    (sound : Sound) (ptr : Ptr) (duration : Rat) (hplay : sound.mPlaying = true)
    (hnear : ¬ (ptr ≠ 0 ∧ sound.mFlags &&& w.Play_RemoveAtDistance ≠ 0 ∧
      (listenerPos.sub (getPosition ptr)).length2 > 2000 * 2000)) :
    (updateSound w listenerPos getPosition sound ptr duration).1 = true ∧
    (updateSound w listenerPos getPosition sound ptr duration).2.mPlaying = true ∧
    (updateSound w listenerPos getPosition sound ptr duration).2.mFlags = sound.mFlags ∧
    (updateSound w listenerPos getPosition sound ptr duration).2.mFadeOutTime
      = (if sound.mFadeOutTime > 0 then sound.mFadeOutTime - min duration sound.mFadeOutTime
        else sound.mFadeOutTime) ∧
    (updateSound w listenerPos getPosition sound ptr duration).2.mVolume
      = (if sound.mFadeOutTime > 0 then
          sound.mVolume - min duration sound.mFadeOutTime / sound.mFadeOutTime * sound.mVolume
        else sound.mVolume) := by
  obtain ⟨p1, p2, p3, p4⟩ := placeSound_fields w listenerPos getPosition sound ptr
  rw [if_neg hnear] at p1
  have hp1 : (placeSound w listenerPos getPosition sound ptr).mPlaying = true := p1.trans hplay
  obtain ⟨f1, f2, f3, _⟩ := fadeSound_fst (placeSound w listenerPos getPosition sound ptr) duration
  obtain ⟨g1, g2⟩ := fadeSound_playing (placeSound w listenerPos getPosition sound ptr) duration hp1
  rw [updateSound_eq]
  rw [p2, p3] at g2
  rw [p3] at g1
  exact ⟨f1.trans hp1, f2.trans hp1, f3.trans p4, g1, g2⟩

/-- The fade over a sequence of ticks, from any remaining fade time `f ≥ 0`:
the remaining time is `max 0 (f - sum)`, and the volume times `f` is the
initial volume times the remaining time. -/
theorem fadeTicks_spec (w : World) (listenerPos : Vec3f) (getPosition : Ptr → Vec3f)
    (ptr : Ptr) :
    ∀ (ds : List Rat) (sound : Sound), sound.mPlaying = true →
      ¬ (ptr ≠ 0 ∧ sound.mFlags &&& w.Play_RemoveAtDistance ≠ 0 ∧
        (listenerPos.sub (getPosition ptr)).length2 > 2000 * 2000) →
      0 ≤ sound.mFadeOutTime → (∀ d ∈ ds, 0 ≤ d) →
      (fadeTicks w listenerPos getPosition ptr sound ds).mPlaying = true ∧
      (fadeTicks w listenerPos getPosition ptr sound ds).mFadeOutTime
        = max 0 (sound.mFadeOutTime - ds.sum) ∧
      (0 < sound.mFadeOutTime →
        (fadeTicks w listenerPos getPosition ptr sound ds).mVolume * sound.mFadeOutTime
          = sound.mVolume * max 0 (sound.mFadeOutTime - ds.sum)) ∧
      (sound.mFadeOutTime = 0 →
        (fadeTicks w listenerPos getPosition ptr sound ds).mVolume = sound.mVolume) := by
  intro ds
  induction ds with
  | nil =>
    intro sound hplay _ hf _
    have hm : max 0 (sound.mFadeOutTime - ([] : List Rat).sum) = sound.mFadeOutTime := by
      rw [List.sum_nil, sub_zero]; exact max_eq_right hf
    rw [hm]
    exact ⟨hplay, rfl, fun _ => rfl, fun _ => rfl⟩
  | cons d ds ih =>
    intro sound hplay hnear hf hds
    have hd : 0 ≤ d := hds d (List.mem_cons_self _ _)
    have hds2 : ∀ x ∈ ds, 0 ≤ x := fun x hx => hds x (List.mem_cons_of_mem _ hx)
    have hsum : 0 ≤ ds.sum := List.sum_nonneg hds2
    obtain ⟨t1, t2, t3, t4, t5⟩ := updateSound_tick w listenerPos getPosition sound ptr d hplay hnear
    have hnear2 : ¬ (ptr ≠ 0 ∧
        (updateSound w listenerPos getPosition sound ptr d).2.mFlags
          &&& w.Play_RemoveAtDistance ≠ 0 ∧
        (listenerPos.sub (getPosition ptr)).length2 > 2000 * 2000) := by
      rw [t3]; exact hnear
    have hf1 : 0 ≤ (updateSound w listenerPos getPosition sound ptr d).2.mFadeOutTime := by
      rw [t4]
      split
      · exact sub_nonneg.mpr (min_le_right _ _)
      · exact hf
    obtain ⟨i1, i2, i3, i4⟩ :=
      ih (updateSound w listenerPos getPosition sound ptr d).2 t2 hnear2 hf1 hds2
    simp only [fadeTicks, List.sum_cons]
    rcases lt_or_eq_of_le hf with hpos | hzero
    · -- a fade is running
      rw [if_pos hpos] at t4 t5
      have hfne : sound.mFadeOutTime ≠ 0 := ne_of_gt hpos
      have hv1 : (updateSound w listenerPos getPosition sound ptr d).2.mVolume
          * sound.mFadeOutTime
          = sound.mVolume * (updateSound w listenerPos getPosition sound ptr d).2.mFadeOutTime := by
        rw [t4, t5]
        field_simp
        ring
      by_cases hlt : d < sound.mFadeOutTime
      · have hmin : min d sound.mFadeOutTime = d := min_eq_left (le_of_lt hlt)
        have hf1pos : 0 < (updateSound w listenerPos getPosition sound ptr d).2.mFadeOutTime := by
          rw [t4, hmin]; linarith
        have hf1eq : (updateSound w listenerPos getPosition sound ptr d).2.mFadeOutTime
            = sound.mFadeOutTime - d := by rw [t4, hmin]
        have i3' := i3 hf1pos
        refine ⟨i1, ?_, fun _ => ?_, fun h0 => absurd h0 hfne⟩
        · rw [i2, hf1eq]; congr 1; ring
        · have hne1 : (updateSound w listenerPos getPosition sound ptr d).2.mFadeOutTime ≠ 0 :=
            ne_of_gt hf1pos
          have hM : max 0 ((updateSound w listenerPos getPosition sound ptr d).2.mFadeOutTime
              - ds.sum) = max 0 (sound.mFadeOutTime - (d + ds.sum)) := by
            rw [hf1eq]; congr 1; ring
          rw [hM] at i3'
          apply mul_right_cancel₀ hne1
          calc (fadeTicks w listenerPos getPosition ptr
                  (updateSound w listenerPos getPosition sound ptr d).2 ds).mVolume
                * sound.mFadeOutTime
                * (updateSound w listenerPos getPosition sound ptr d).2.mFadeOutTime
              = ((fadeTicks w listenerPos getPosition ptr
                  (updateSound w listenerPos getPosition sound ptr d).2 ds).mVolume
                * (updateSound w listenerPos getPosition sound ptr d).2.mFadeOutTime)
                * sound.mFadeOutTime := by ring
            _ = (updateSound w listenerPos getPosition sound ptr d).2.mVolume
                * max 0 (sound.mFadeOutTime - (d + ds.sum)) * sound.mFadeOutTime := by rw [i3']
            _ = ((updateSound w listenerPos getPosition sound ptr d).2.mVolume
                * sound.mFadeOutTime) * max 0 (sound.mFadeOutTime - (d + ds.sum)) := by ring
            _ = sound.mVolume * max 0 (sound.mFadeOutTime - (d + ds.sum))
                * (updateSound w listenerPos getPosition sound ptr d).2.mFadeOutTime := by
              rw [hv1]; ring
      · have hge : sound.mFadeOutTime ≤ d := not_lt.mp hlt
        have hmin : min d sound.mFadeOutTime = sound.mFadeOutTime := min_eq_right hge
        have hf1eq : (updateSound w listenerPos getPosition sound ptr d).2.mFadeOutTime = 0 := by
          rw [t4, hmin]; ring
        have hv1eq : (updateSound w listenerPos getPosition sound ptr d).2.mVolume = 0 := by
          rw [t5, hmin]; field_simp
        have hmax : max 0 (sound.mFadeOutTime - (d + ds.sum)) = 0 :=
          max_eq_left (by linarith)
        refine ⟨i1, ?_, fun _ => ?_, fun h0 => absurd h0 hfne⟩
        · rw [i2, hf1eq, hmax]
          exact max_eq_left (by linarith)
        · rw [i4 hf1eq, hv1eq, hmax]; ring
    · -- no fade
      have hz : sound.mFadeOutTime = 0 := hzero.symm
      have hnot : ¬ sound.mFadeOutTime > 0 := by rw [hz]; exact lt_irrefl _
      rw [if_neg hnot] at t4 t5
      have hf1eq : (updateSound w listenerPos getPosition sound ptr d).2.mFadeOutTime = 0 :=
        t4.trans hz
      refine ⟨i1, ?_, fun hpos => absurd hpos hnot, fun _ => ?_⟩
      · rw [i2, hf1eq, hz]
        rw [max_eq_left (by linarith), max_eq_left (by linarith)]
      · rw [i4 hf1eq, t5]

/-- C16: for an instance that keeps playing, with volume `V` and fade-out time
`F > 0`, after ticks of non-negative durations `ds` the volume is
`V * max 0 (1 - sum ds / F)` and the remaining fade time is
`max 0 (F - sum ds)`. Hence the volume is 0 once the accumulated time has
reached `F`, is not negative when `V` is not, and further ticks leave it at 0. -/
theorem fade_out_volume_is_linear (w : World) (listenerPos : Vec3f)
    (getPosition : Ptr → Vec3f) (ptr : Ptr) (sound : Sound) (ds : List Rat)
    (hplay : sound.mPlaying = true)
    (hnear : ¬ (ptr ≠ 0 ∧ sound.mFlags &&& w.Play_RemoveAtDistance ≠ 0 ∧
      (listenerPos.sub (getPosition ptr)).length2 > 2000 * 2000))
    (hF : 0 < sound.mFadeOutTime) (hds : ∀ d ∈ ds, 0 ≤ d) :
    (fadeTicks w listenerPos getPosition ptr sound ds).mVolume
      = sound.mVolume * max 0 (1 - ds.sum / sound.mFadeOutTime) ∧
    (fadeTicks w listenerPos getPosition ptr sound ds).mFadeOutTime
      = max 0 (sound.mFadeOutTime - ds.sum) ∧
    (fadeTicks w listenerPos getPosition ptr sound ds).mPlaying = true ∧
    (sound.mFadeOutTime ≤ ds.sum →
      (fadeTicks w listenerPos getPosition ptr sound ds).mVolume = 0) ∧
    (0 ≤ sound.mVolume → 0 ≤ (fadeTicks w listenerPos getPosition ptr sound ds).mVolume) ∧
    (∀ more : List Rat, (∀ d ∈ more, 0 ≤ d) → sound.mFadeOutTime ≤ ds.sum →
      (fadeTicks w listenerPos getPosition ptr sound (ds ++ more)).mVolume = 0) := by
  have hne : sound.mFadeOutTime ≠ 0 := ne_of_gt hF
  have hmax : ∀ x : Rat, max 0 (sound.mFadeOutTime - x) / sound.mFadeOutTime
      = max 0 (1 - x / sound.mFadeOutTime) := by
    intro x
    rcases le_total (sound.mFadeOutTime - x) 0 with h | h
    · have h2 : 1 - x / sound.mFadeOutTime ≤ 0 := by
        rw [sub_nonpos, le_div_iff₀ hF]; linarith
      rw [max_eq_left h, max_eq_left h2, zero_div]
    · have h2 : 0 ≤ 1 - x / sound.mFadeOutTime := by
        rw [sub_nonneg, div_le_iff₀ hF]; linarith
      rw [max_eq_right h, max_eq_right h2]
      field_simp
  have hvol : ∀ l : List Rat, (∀ d ∈ l, 0 ≤ d) →
      (fadeTicks w listenerPos getPosition ptr sound l).mVolume
        = sound.mVolume * max 0 (1 - l.sum / sound.mFadeOutTime) := by
    intro l hl
    obtain ⟨_, _, s3, _⟩ :=
      fadeTicks_spec w listenerPos getPosition ptr l sound hplay hnear (le_of_lt hF) hl
    have := s3 hF
    rw [← hmax, mul_div_assoc', ← this]
    field_simp
  have hzero : ∀ l : List Rat, (∀ d ∈ l, 0 ≤ d) → sound.mFadeOutTime ≤ l.sum →
      (fadeTicks w listenerPos getPosition ptr sound l).mVolume = 0 := by
    intro l hl hle
    rw [hvol l hl]
    have h2 : 1 - l.sum / sound.mFadeOutTime ≤ 0 := by
      rw [sub_nonpos, le_div_iff₀ hF]; linarith
    rw [max_eq_left h2, mul_zero]
  obtain ⟨s1, s2, _, _⟩ :=
    fadeTicks_spec w listenerPos getPosition ptr ds sound hplay hnear (le_of_lt hF) hds
  refine ⟨hvol ds hds, s2, s1, hzero ds hds, ?_, ?_⟩
  · intro hV
    rw [hvol ds hds]
    exact mul_nonneg hV (le_max_left _ _)
  · intro more hmore hle
    apply hzero
    · intro d hd
      rcases List.mem_append.mp hd with h | h
      · exact hds d h
      · exact hmore d h
    · rw [List.sum_append]
      have := List.sum_nonneg hmore
      linarith

/-- C16 for a fade-out of 2 seconds at volume 1 and ticks of half a second:
the volume is 3/4, 1/2, 1/4 and then 0 at the fourth tick. -/
theorem fade_out_volume_is_linear_witness :
    demoFading.mPlaying = true ∧ 0 < demoFading.mFadeOutTime ∧
    (fadeTicks demoWorld ⟨0, 0, 0⟩ (fun _ => ⟨0, 0, 0⟩) 0 demoFading [1/2]).mVolume = 3/4 ∧
    (fadeTicks demoWorld ⟨0, 0, 0⟩ (fun _ => ⟨0, 0, 0⟩) 0 demoFading [1/2, 1/2]).mVolume = 1/2 ∧
    (fadeTicks demoWorld ⟨0, 0, 0⟩ (fun _ => ⟨0, 0, 0⟩) 0 demoFading
      [1/2, 1/2, 1/2]).mVolume = 1/4 ∧
    (fadeTicks demoWorld ⟨0, 0, 0⟩ (fun _ => ⟨0, 0, 0⟩) 0 demoFading
      [1/2, 1/2, 1/2, 1/2]).mVolume = 0 :=
  ⟨rfl, by norm_num [demoFading],
    by rw [(fade_out_volume_is_linear demoWorld ⟨0, 0, 0⟩ (fun _ => ⟨0, 0, 0⟩) 0 demoFading
          [1/2] rfl (by simp) (by norm_num [demoFading]) (by norm_num)).1]
       norm_num [demoFading, demoSound],
    by rw [(fade_out_volume_is_linear demoWorld ⟨0, 0, 0⟩ (fun _ => ⟨0, 0, 0⟩) 0 demoFading
          [1/2, 1/2] rfl (by simp) (by norm_num [demoFading]) (by norm_num)).1]
       norm_num [demoFading, demoSound],
    by rw [(fade_out_volume_is_linear demoWorld ⟨0, 0, 0⟩ (fun _ => ⟨0, 0, 0⟩) 0 demoFading
          [1/2, 1/2, 1/2] rfl (by simp) (by norm_num [demoFading]) (by norm_num)).1]
       norm_num [demoFading, demoSound],
    by rw [(fade_out_volume_is_linear demoWorld ⟨0, 0, 0⟩ (fun _ => ⟨0, 0, 0⟩) 0 demoFading
          [1/2, 1/2, 1/2, 1/2] rfl (by simp) (by norm_num [demoFading]) (by norm_num)).1]
       norm_num [demoFading, demoSound]⟩

theorem foldl_releaseReference_listener (L : List Nat) :
    ∀ s : SoundManager, (L.foldl releaseReference s).mListenerPos = s.mListenerPos ∧
      (L.foldl releaseReference s).mBufferCacheSize = s.mBufferCacheSize ∧
      (L.foldl releaseReference s).mBufferKeys = s.mBufferKeys := by
  induction L with
  | nil => intro s; exact ⟨rfl, rfl, rfl⟩
  | cons i L ih => intro s; exact ih (releaseReference s i)

/-- The inner loop of the pass releases the removed entries in order and
keeps the survivors. -/
theorem updateSoundList_eq (w : World) (getPosition : Ptr → Vec3f) (ptr : Ptr) (duration : Rat) :
    ∀ (l : SoundIndexPairList) (s : SoundManager),
      updateSoundList w getPosition ptr duration s l
        = ((removedOf w s.mListenerPos getPosition duration ptr l).foldl releaseReference s,
            survivors w s.mListenerPos getPosition duration ptr l) := by
  intro l
  induction l with
  | nil => intro s; rfl
  | cons e l ih =>
    intro s
    obtain ⟨sound, sfxid⟩ := e
    unfold updateSoundList
    by_cases hk : (updateSound w s.mListenerPos getPosition sound ptr duration).1 = false
    · rw [if_pos hk, ih]
      have hl : (releaseReference s sfxid).mListenerPos = s.mListenerPos := rfl
      rw [hl]
      simp [removedOf, survivors, hk]
    · rw [if_neg hk, ih]
      have hk2 : (updateSound w s.mListenerPos getPosition sound ptr duration).1 = true := by
        simpa using hk
      simp [removedOf, survivors, hk2]

/-- The outer loop of the pass releases all removed entries in order and
leaves the pruned registry. -/
theorem updateActiveSounds_eq (w : World) (getPosition : Ptr → Vec3f) (duration : Rat) :
    ∀ (m : List (Ptr × SoundIndexPairList)) (s : SoundManager),
      updateActiveSounds w getPosition duration s m
        = ((removedIndices w s.mListenerPos getPosition duration m).foldl releaseReference s,
            prunedRegistry w s.mListenerPos getPosition duration m) := by
  intro m
  induction m with
  | nil => intro s; rfl
  | cons p m ih =>
    intro s
    obtain ⟨ptr, l⟩ := p
    unfold updateActiveSounds
    dsimp only
    rw [updateSoundList_eq]
    dsimp only
    have hl := (foldl_releaseReference_listener
      (removedOf w s.mListenerPos getPosition duration ptr l) s).1
    by_cases he : (survivors w s.mListenerPos getPosition duration ptr l).isEmpty = true
    · rw [if_pos he, ih, hl]
      simp [removedIndices, prunedRegistry, List.foldl_append, he]
    · rw [if_neg he, ih, hl]
      simp [removedIndices, prunedRegistry, List.foldl_append, he]

theorem updatePass_eq (w : World) (s : SoundManager) (getPosition : Ptr → Vec3f)
    (duration : Rat) :
    updatePass w s getPosition duration
      = { (removedIndices w s.mListenerPos getPosition duration s.mActiveSounds).foldl
            releaseReference s with
          mActiveSounds := prunedRegistry w s.mListenerPos getPosition duration s.mActiveSounds,
          mActiveSaySounds :=
            updateSaySounds w s.mListenerPos getPosition duration s.mActiveSaySounds } := by
  unfold updatePass
  rw [updateActiveSounds_eq]

theorem releaseReference_buffer (s : SoundManager) (i : Nat) (hi : i < s.mSoundBuffers.length)
    (j : Nat) :
    ((releaseReference s i).buffer j).mReferences
      = (s.buffer j).mReferences - (if j = i then 1 else 0) ∧
    ((releaseReference s i).buffer j).mHandle = (s.buffer j).mHandle := by
  show ((s.mSoundBuffers.set i _).getD j default).mReferences = _ ∧
    ((s.mSoundBuffers.set i _).getD j default).mHandle = _
  by_cases hj : j = i
  · subst hj
    rw [getD_set_eq _ _ _ hi, if_pos rfl]
    exact ⟨rfl, rfl⟩
  · rw [getD_set_ne _ _ _ _ (Ne.symm hj), if_neg hj]
    exact ⟨by simp [SoundManager.buffer], rfl⟩

/-- Releasing the references of a list of registry entries: every count drops
by the number of entries released for it, no handle changes, and the indices
whose count reaches 0 are pushed onto the front of the unused list. -/
theorem foldl_releaseReference_spec (out : Sound_Output) :
    ∀ (L M : List Nat) (s : SoundManager), SInv out s none (L ++ M) →
      (∀ j, ((L.foldl releaseReference s).buffer j).mReferences
        = (s.buffer j).mReferences - (L.count j : Int)) ∧
      (∀ j, ((L.foldl releaseReference s).buffer j).mHandle = (s.buffer j).mHandle) ∧
      ∃ pushed, (L.foldl releaseReference s).mUnusedBuffers = pushed ++ s.mUnusedBuffers ∧
        ∀ j, j ∈ pushed ↔
          (j ∈ L ∧ ((L.foldl releaseReference s).buffer j).mReferences = 0) := by
  intro L
  induction L with
  | nil =>
    intro M s _
    refine ⟨fun j => by simp, fun j => rfl, [], rfl, fun j => by simp⟩
  | cons i L ih =>
    intro M s h
    have h1 : SInv out (releaseReference s i) none (L ++ M) := SInv.of_release h
    obtain ⟨a, b, pushed, c, d⟩ := ih M (releaseReference s i) h1
    obtain ⟨hfinal, _, _⟩ := foldl_releaseReference_inv out L M (releaseReference s i) h1
    have hc := h.counts i
    rw [List.cons_append, List.count_cons_self] at hc
    push_cast at hc
    have hpos : 0 < (s.mSoundBuffers.getD i default).mReferences := by omega
    have hil : i < s.mSoundBuffers.length := lt_length_of_handle (h.loaded i hpos)
    have hrel := releaseReference_buffer s i hil
    simp only [List.foldl_cons]
    refine ⟨?_, ?_, ?_⟩
    · intro j
      rw [a j, (hrel j).1, List.count_cons]
      by_cases hj : j = i
      · subst hj; simp; ring
      · have : ¬ (i == j) = true := by simpa using Ne.symm hj
        simp [hj, this]
    · intro j
      rw [b j, (hrel j).2]
    · have hnn : 0 ≤ ((L.foldl releaseReference (releaseReference s i)).buffer i).mReferences :=
        hfinal.refs_nonneg i
      have ha := a i
      rw [(hrel i).1, if_pos rfl] at ha
      by_cases hr : (s.buffer i).mReferences = 1
      · refine ⟨pushed ++ [i], ?_, ?_⟩
        · rw [c]
          simp [releaseReference, hr]
        · intro j
          rw [List.mem_append, d j]
          constructor
          · rintro (⟨h1, h2⟩ | h1)
            · exact ⟨List.mem_cons_of_mem _ h1, h2⟩
            · have hj : j = i := List.mem_singleton.mp h1
              rw [hj]
              refine ⟨List.mem_cons_self _ _, ?_⟩
              rw [hr] at ha
              omega
          · rintro ⟨h1, h2⟩
            rcases List.mem_cons.mp h1 with h1 | h1
            · by_cases hin : j ∈ L
              · exact Or.inl ⟨hin, h2⟩
              · exact Or.inr (List.mem_singleton.mpr h1)
            · exact Or.inl ⟨h1, h2⟩
      · refine ⟨pushed, ?_, ?_⟩
        · rw [c]
          simp [releaseReference, hr]
        · intro j
          rw [d j]
          constructor
          · rintro ⟨h1, h2⟩
            exact ⟨List.mem_cons_of_mem _ h1, h2⟩
          · rintro ⟨h1, h2⟩
            rcases List.mem_cons.mp h1 with h1 | h1
            · by_cases hin : j ∈ L
              · exact ⟨hin, h2⟩
              · exfalso
                rw [h1] at hin h2
                rw [List.count_eq_zero_of_not_mem hin, h2] at ha
                have : (s.buffer i).mReferences = 1 := by
                  push_cast at ha; omega
                exact hr this
            · exact ⟨h1, h2⟩

theorem survivors_append (w : World) (listenerPos : Vec3f) (getPosition : Ptr → Vec3f)
    (duration : Rat) (ptr : Ptr) (l1 l2 : SoundIndexPairList) :
    survivors w listenerPos getPosition duration ptr (l1 ++ l2)
      = survivors w listenerPos getPosition duration ptr l1
        ++ survivors w listenerPos getPosition duration ptr l2 := by
  simp [survivors, List.filterMap_append]

theorem removedOf_append (w : World) (listenerPos : Vec3f) (getPosition : Ptr → Vec3f)
    (duration : Rat) (ptr : Ptr) (l1 l2 : SoundIndexPairList) :
    removedOf w listenerPos getPosition duration ptr (l1 ++ l2)
      = removedOf w listenerPos getPosition duration ptr l1
        ++ removedOf w listenerPos getPosition duration ptr l2 := by
  simp [removedOf, List.filter_append]

theorem removedIndices_append (w : World) (listenerPos : Vec3f) (getPosition : Ptr → Vec3f)
    (duration : Rat) (m1 m2 : List (Ptr × SoundIndexPairList)) :
    removedIndices w listenerPos getPosition duration (m1 ++ m2)
      = removedIndices w listenerPos getPosition duration m1
        ++ removedIndices w listenerPos getPosition duration m2 := by
  induction m1 with
  | nil => rfl
  | cons p m1 ih =>
    obtain ⟨ptr, l⟩ := p
    show removedOf w listenerPos getPosition duration ptr l
        ++ removedIndices w listenerPos getPosition duration (m1 ++ m2)
      = (removedOf w listenerPos getPosition duration ptr l
          ++ removedIndices w listenerPos getPosition duration m1)
        ++ removedIndices w listenerPos getPosition duration m2
    rw [ih, List.append_assoc]

theorem registryIndices_append (m1 m2 : List (Ptr × SoundIndexPairList)) :
    registryIndices (m1 ++ m2) = registryIndices m1 ++ registryIndices m2 := by
  induction m1 with
  | nil => rfl
  | cons p m1 ih =>
    obtain ⟨ptr, l⟩ := p
    show l.map Prod.snd ++ registryIndices (m1 ++ m2)
      = (l.map Prod.snd ++ registryIndices m1) ++ registryIndices m2
    rw [ih, List.append_assoc]

theorem prunedRegistry_append (w : World) (listenerPos : Vec3f) (getPosition : Ptr → Vec3f)
    (duration : Rat) (m1 m2 : List (Ptr × SoundIndexPairList)) :
    prunedRegistry w listenerPos getPosition duration (m1 ++ m2)
      = prunedRegistry w listenerPos getPosition duration m1
        ++ prunedRegistry w listenerPos getPosition duration m2 := by
  simp [prunedRegistry, List.filter_append]

theorem prunedRegistry_cons (w : World) (listenerPos : Vec3f) (getPosition : Ptr → Vec3f)
    (duration : Rat) (ptr : Ptr) (l : SoundIndexPairList) (m : List (Ptr × SoundIndexPairList)) :
    prunedRegistry w listenerPos getPosition duration ((ptr, l) :: m)
      = (if survivors w listenerPos getPosition duration ptr l = [] then []
          else [(ptr, survivors w listenerPos getPosition duration ptr l)])
        ++ prunedRegistry w listenerPos getPosition duration m := by
  by_cases he : survivors w listenerPos getPosition duration ptr l = []
  · simp [prunedRegistry, he]
  · have : (survivors w listenerPos getPosition duration ptr l).isEmpty = false := by
      cases hs : survivors w listenerPos getPosition duration ptr l with
      | nil => exact absurd hs he
      | cons _ _ => rfl
    simp [prunedRegistry, he, this]

/-- No owner is left with an empty list. -/
theorem prunedRegistry_nonempty (w : World) (listenerPos : Vec3f) (getPosition : Ptr → Vec3f)
    (duration : Rat) (m : List (Ptr × SoundIndexPairList)) :
    ∀ p ∈ prunedRegistry w listenerPos getPosition duration m, p.2 ≠ [] := by
  intro p hp
  have := (List.mem_filter.mp hp).2
  intro hnil
  rw [hnil] at this
  exact absurd this (by decide)

/-- Every entry of an owner is either removed or kept. -/
theorem count_removedOf_add_survivors (w : World) (listenerPos : Vec3f)
    (getPosition : Ptr → Vec3f) (duration : Rat) (ptr : Ptr) (i : Nat) :
    ∀ l : SoundIndexPairList,
      (l.map Prod.snd).count i
        = (removedOf w listenerPos getPosition duration ptr l).count i
          + ((survivors w listenerPos getPosition duration ptr l).map Prod.snd).count i := by
  intro l
  induction l with
  | nil => rfl
  | cons e l ih =>
    by_cases hk : (updateSound w listenerPos getPosition e.1 ptr duration).1 = true
    · simp [removedOf, survivors, List.filter_cons, List.filterMap_cons, hk,
        List.count_cons] at ih ⊢
      omega
    · have hk2 : (updateSound w listenerPos getPosition e.1 ptr duration).1 = false := by
        simpa using hk
      simp [removedOf, survivors, List.filter_cons, List.filterMap_cons, hk2,
        List.count_cons] at ih ⊢
      omega

/-- Every entry of the registry is either removed by the pass or kept. -/
theorem count_removedIndices_add_pruned (w : World) (listenerPos : Vec3f)
    (getPosition : Ptr → Vec3f) (duration : Rat) (i : Nat) :
    ∀ m : List (Ptr × SoundIndexPairList),
      (registryIndices m).count i
        = (removedIndices w listenerPos getPosition duration m).count i
          + (registryIndices (prunedRegistry w listenerPos getPosition duration m)).count i := by
  intro m
  induction m with
  | nil => rfl
  | cons p m ih =>
    obtain ⟨ptr, l⟩ := p
    rw [prunedRegistry_cons]
    simp only [registryIndices, removedIndices, List.count_append, ih,
      count_removedOf_add_survivors w listenerPos getPosition duration ptr i l]
    rw [registryIndices_append, List.count_append]
    by_cases he : survivors w listenerPos getPosition duration ptr l = []
    · rw [if_pos he, he]
      simp [registryIndices]
      omega
    · rw [if_neg he]
      simp [registryIndices]
      omega

/-- What an update pass does to the state, from the invariant: the registry is
pruned, each count drops by the number of entries removed for it, handles stay,
and the indices whose count reached 0 are pushed onto the front of the unused
list. -/
theorem Inv.updatePass_spec {w : World} {out : Sound_Output} {s : SoundManager}
    (h : Inv out s) (getPosition : Ptr → Vec3f) (duration : Rat) :
    (updatePass w s getPosition duration).mActiveSounds
      = prunedRegistry w s.mListenerPos getPosition duration s.mActiveSounds ∧
    (∀ j, ((updatePass w s getPosition duration).buffer j).mReferences
      = (s.buffer j).mReferences
        - ((removedIndices w s.mListenerPos getPosition duration s.mActiveSounds).count j
            : Int)) ∧
    (∀ j, ((updatePass w s getPosition duration).buffer j).mHandle = (s.buffer j).mHandle) ∧
    (∃ pushed, (updatePass w s getPosition duration).mUnusedBuffers
        = pushed ++ s.mUnusedBuffers ∧
      ∀ j, j ∈ pushed ↔
        (j ∈ removedIndices w s.mListenerPos getPosition duration s.mActiveSounds ∧
          ((updatePass w s getPosition duration).buffer j).mReferences = 0)) ∧
    (updatePass w s getPosition duration).mBufferCacheSize = s.mBufferCacheSize := by
  have hs : SInv out s none
      (removedIndices w s.mListenerPos getPosition duration s.mActiveSounds ++ []) :=
    CacheInv.mono h.cache (fun i => by
      rw [List.append_nil,
        count_removedIndices_add_pruned w s.mListenerPos getPosition duration i s.mActiveSounds]
      omega)
  obtain ⟨a, b, pushed, c, d⟩ := foldl_releaseReference_spec out _ [] s hs
  rw [updatePass_eq]
  exact ⟨rfl, a, b, ⟨pushed, c, d⟩, (foldl_releaseReference_listener _ s).2.1⟩

theorem updateSound_demoTone (listenerPos : Vec3f) (v f d : Rat) (hf : 0 < f) (hd : d ≤ f) :
    updateSound demoWorld listenerPos demoPositions (demoTone v f) 0 d
      = (true, demoTone (v - d / f * v) (f - d)) := by
  have h1 : ¬ d > f := not_lt.mpr hd
  simp [updateSound, demoTone, demoSound, hf, h1]

theorem updateSound_demoTone_zero (listenerPos : Vec3f) (v d : Rat) :
    updateSound demoWorld listenerPos demoPositions (demoTone v 0) 0 d
      = (true, demoTone v 0) := by
  simp [updateSound, demoTone, demoSound]

/-- A pass over a registry holding one entry, which is kept. -/
theorem updatePass_single_kept (w : World) (s : SoundManager) (getPosition : Ptr → Vec3f)
    (duration : Rat) (ptr : Ptr) (sound sound2 : Sound) (sfxid : Nat)
    (hreg : s.mActiveSounds = [(ptr, [(sound, sfxid)])]) (hsay : s.mActiveSaySounds = [])
    (hk : updateSound w s.mListenerPos getPosition sound ptr duration = (true, sound2)) :
    updatePass w s getPosition duration = { s with mActiveSounds := [(ptr, [(sound2, sfxid)])] } := by
  obtain ⟨keys, bufs, total, unused, active, say, pos⟩ := s
  simp only at hreg hsay hk
  subst hreg hsay
  rw [updatePass_eq]
  simp [removedIndices, removedOf, prunedRegistry, survivors, hk, updateSaySounds]

theorem demoFadeStart_eq :
    demoFadeStart.mActiveSounds = [(0, [(demoTone 1 2, 0)])] ∧
    demoFadeStart.mActiveSaySounds = [] ∧
    (demoFadeStart.buffer 0).mReferences = 1 := by
  decide

theorem demoFadeStart_eq_demoFadeAt : demoFadeStart = demoFadeAt 1 2 := by
  unfold demoFadeAt
  rw [← demoFadeStart_eq.1]

theorem updatePass_demoFadeAt (v f d : Rat) (hf : 0 < f) (hd : d ≤ f) :
    updatePass demoWorld (demoFadeAt v f) demoPositions d
      = demoFadeAt (v - d / f * v) (f - d) :=
  updatePass_single_kept demoWorld (demoFadeAt v f) demoPositions d 0 (demoTone v f)
    (demoTone (v - d / f * v) (f - d)) 0 rfl demoFadeStart_eq.2.1
    (updateSound_demoTone _ v f d hf hd)

theorem updatePass_demoFadeAt_zero (v d : Rat) :
    updatePass demoWorld (demoFadeAt v 0) demoPositions d = demoFadeAt v 0 :=
  updatePass_single_kept demoWorld (demoFadeAt v 0) demoPositions d 0 (demoTone v 0)
    (demoTone v 0) 0 rfl demoFadeStart_eq.2.1 (updateSound_demoTone_zero _ v d)

/-- After the four passes the fade-out has completed: volume 0, no fade time
left, and the instance is still filed. -/
theorem demoFaded_eq : demoFaded = demoFadeAt 0 0 := by
  unfold demoFaded
  rw [demoFadeStart_eq_demoFadeAt,
    updatePass_demoFadeAt 1 2 (1/2) (by norm_num) (by norm_num),
    updatePass_demoFadeAt _ _ (1/2) (by norm_num) (by norm_num),
    updatePass_demoFadeAt _ _ (1/2) (by norm_num) (by norm_num),
    updatePass_demoFadeAt _ _ (1/2) (by norm_num) (by norm_num)]
  norm_num

/-- C17 fails as stated: "a" is played, a fade-out of 2 seconds is set and four
passes of half a second complete it (volume 0, fade time 0). The following pass
keeps the instance in the registry and the count of its buffer stays 1:
`updateSound` never stops an instance whose fade has run out. -/
theorem faded_instance_is_pruned_counterexample :
    ¬ (demoFaded.mActiveSounds = [(0, [(demoTone 0 0, 0)])] →
      (∀ p ∈ (updatePass demoWorld demoFaded demoPositions (1/2)).mActiveSounds,
        (demoTone 0 0, 0) ∉ p.2) ∧
      ((updatePass demoWorld demoFaded demoPositions (1/2)).buffer 0).mReferences
        < (demoFaded.buffer 0).mReferences) := by
  intro hc
  have hreg : demoFaded.mActiveSounds = [(0, [(demoTone 0 0, 0)])] := by
    rw [demoFaded_eq]; rfl
  have h1 := (hc hreg).1
  rw [demoFaded_eq, updatePass_demoFadeAt_zero] at h1
  exact h1 (0, [(demoTone 0 0, 0)]) (List.mem_singleton.mpr rfl) (List.mem_singleton.mpr rfl)

/-- The entries of an owner around one entry that the pass removes. -/
theorem survivors_removed_entry (w : World) (listenerPos : Vec3f) (getPosition : Ptr → Vec3f)
    (duration : Rat) (ptr : Ptr) (l1 l2 : SoundIndexPairList) (sound : Sound) (sfxid : Nat)
    (hk : (updateSound w listenerPos getPosition sound ptr duration).1 = false) :
    survivors w listenerPos getPosition duration ptr (l1 ++ (sound, sfxid) :: l2)
      = survivors w listenerPos getPosition duration ptr (l1 ++ l2) ∧
    removedOf w listenerPos getPosition duration ptr (l1 ++ (sound, sfxid) :: l2)
      = removedOf w listenerPos getPosition duration ptr l1
        ++ sfxid :: removedOf w listenerPos getPosition duration ptr l2 := by
  rw [survivors_append, survivors_append, removedOf_append]
  constructor
  · congr 1
    simp [survivors, hk]
  · congr 1
    simp [removedOf, hk]

/-- The entries of an owner around one entry that the pass keeps. -/
theorem survivors_kept_entry (w : World) (listenerPos : Vec3f) (getPosition : Ptr → Vec3f)
    (duration : Rat) (ptr : Ptr) (l1 l2 : SoundIndexPairList) (sound : Sound) (sfxid : Nat)
    (hk : (updateSound w listenerPos getPosition sound ptr duration).1 = true) :
    survivors w listenerPos getPosition duration ptr (l1 ++ (sound, sfxid) :: l2)
      = survivors w listenerPos getPosition duration ptr l1
        ++ ((updateSound w listenerPos getPosition sound ptr duration).2, sfxid)
          :: survivors w listenerPos getPosition duration ptr l2 := by
  rw [survivors_append]
  congr 1
  simp [survivors, hk]

/-- C17, amended: an instance whose fade-out has completed (remaining fade
time 0, volume 0) is pruned by an update pass exactly when it is no longer
playing or is stopped for distance. Then the pass leaves the registry it would
leave had the entry been deleted beforehand, and the count of its buffer drops
by one for this entry. While the instance is still playing, the pass keeps the
entry in its place, at volume 0 with no fade time, and the count of its buffer
stays at least 1. -/
theorem faded_instance_is_pruned_once_stopped (w : World) (out : Sound_Output)
    (s : SoundManager) (h : Reachable w out s) (getPosition : Ptr → Vec3f) (duration : Rat)
    (pre post : List (Ptr × SoundIndexPairList)) (ptr : Ptr) (l1 l2 : SoundIndexPairList)
    (sound : Sound) (sfxid : Nat)
    (hreg : s.mActiveSounds = pre ++ (ptr, l1 ++ (sound, sfxid) :: l2) :: post)
    (hfade : sound.mFadeOutTime = 0) (hvol : sound.mVolume = 0) :
    ((updateSound w s.mListenerPos getPosition sound ptr duration).1 = false ↔
      (sound.mPlaying = false ∨
        (ptr ≠ 0 ∧ sound.mFlags &&& w.Play_RemoveAtDistance ≠ 0 ∧
          (s.mListenerPos.sub (getPosition ptr)).length2 > 2000 * 2000))) ∧
    ((updateSound w s.mListenerPos getPosition sound ptr duration).1 = false →
      (updatePass w s getPosition duration).mActiveSounds
        = prunedRegistry w s.mListenerPos getPosition duration
            (pre ++ (ptr, l1 ++ l2) :: post) ∧
      ((updatePass w s getPosition duration).buffer sfxid).mReferences
        = (s.buffer sfxid).mReferences - 1
          - ((removedIndices w s.mListenerPos getPosition duration
              (pre ++ (ptr, l1 ++ l2) :: post)).count sfxid : Int)) ∧
    ((updateSound w s.mListenerPos getPosition sound ptr duration).1 = true →
      (updatePass w s getPosition duration).mActiveSounds
        = prunedRegistry w s.mListenerPos getPosition duration pre
          ++ (ptr, survivors w s.mListenerPos getPosition duration ptr l1
                ++ ((updateSound w s.mListenerPos getPosition sound ptr duration).2, sfxid)
                  :: survivors w s.mListenerPos getPosition duration ptr l2)
            :: prunedRegistry w s.mListenerPos getPosition duration post ∧
      (updateSound w s.mListenerPos getPosition sound ptr duration).2.mVolume = 0 ∧
      (updateSound w s.mListenerPos getPosition sound ptr duration).2.mFadeOutTime = 0 ∧
      (updateSound w s.mListenerPos getPosition sound ptr duration).2.mPlaying = true ∧
      1 ≤ ((updatePass w s getPosition duration).buffer sfxid).mReferences) := by
  have hinv := h.inv
  obtain ⟨hR, hC, _, _, _⟩ := hinv.updatePass_spec (w := w) getPosition duration
  have hfst := updateSound_fst w s.mListenerPos getPosition sound ptr duration
  refine ⟨?_, ?_, ?_⟩
  · rw [hfst]
    by_cases hfar : ptr ≠ 0 ∧ sound.mFlags &&& w.Play_RemoveAtDistance ≠ 0 ∧
        (s.mListenerPos.sub (getPosition ptr)).length2 > 2000 * 2000
    · rw [if_pos hfar]
      exact ⟨fun _ => Or.inr hfar, fun _ => rfl⟩
    · rw [if_neg hfar]
      exact ⟨fun hp => Or.inl hp, fun hp => hp.resolve_right hfar⟩
  · intro hk
    obtain ⟨e1, e2⟩ := survivors_removed_entry w s.mListenerPos getPosition duration ptr l1 l2
      sound sfxid hk
    constructor
    · rw [hR, hreg, prunedRegistry_append, prunedRegistry_append, prunedRegistry_cons,
        prunedRegistry_cons, e1]
    · rw [hC sfxid, hreg, removedIndices_append, removedIndices_append]
      simp only [removedIndices, e2, removedOf_append, List.count_append, List.count_cons_self]
      push_cast
      ring
  · intro hk
    have e1 := survivors_kept_entry w s.mListenerPos getPosition duration ptr l1 l2
      sound sfxid hk
    have hne : ¬ (survivors w s.mListenerPos getPosition duration ptr
        (l1 ++ (sound, sfxid) :: l2) = []) := by
      rw [e1]; simp
    have hreg2 : (updatePass w s getPosition duration).mActiveSounds
        = prunedRegistry w s.mListenerPos getPosition duration pre
          ++ (ptr, survivors w s.mListenerPos getPosition duration ptr l1
                ++ ((updateSound w s.mListenerPos getPosition sound ptr duration).2, sfxid)
                  :: survivors w s.mListenerPos getPosition duration ptr l2)
            :: prunedRegistry w s.mListenerPos getPosition duration post := by
      rw [hR, hreg, prunedRegistry_append, prunedRegistry_cons, if_neg hne, e1]
      rfl
    have hplay : sound.mPlaying = true ∧
        ¬ (ptr ≠ 0 ∧ sound.mFlags &&& w.Play_RemoveAtDistance ≠ 0 ∧
          (s.mListenerPos.sub (getPosition ptr)).length2 > 2000 * 2000) := by
      rw [hfst] at hk
      by_cases hfar : ptr ≠ 0 ∧ sound.mFlags &&& w.Play_RemoveAtDistance ≠ 0 ∧
          (s.mListenerPos.sub (getPosition ptr)).length2 > 2000 * 2000
      · rw [if_pos hfar] at hk
        exact absurd hk (by decide)
      · rw [if_neg hfar] at hk
        exact ⟨hk, hfar⟩
    obtain ⟨_, t2, _, t4, t5⟩ :=
      updateSound_tick w s.mListenerPos getPosition sound ptr duration hplay.1 hplay.2
    have hnot : ¬ sound.mFadeOutTime > 0 := by rw [hfade]; exact lt_irrefl 0
    rw [if_neg hnot] at t4 t5
    refine ⟨hreg2, t5.trans hvol, t4.trans hfade, t2, ?_⟩
    have hinv2 : Inv out (updatePass w s getPosition duration) := hinv.of_updatePass _ _
    have hmem : sfxid ∈ registryIndices (updatePass w s getPosition duration).mActiveSounds := by
      rw [hreg2]
      exact mem_registryIndices
        (p := (ptr, survivors w s.mListenerPos getPosition duration ptr l1
                ++ ((updateSound w s.mListenerPos getPosition sound ptr duration).2, sfxid)
                  :: survivors w s.mListenerPos getPosition duration ptr l2))
        (e := ((updateSound w s.mListenerPos getPosition sound ptr duration).2, sfxid))
        (List.mem_append_right _ (List.mem_cons_self _ _))
        (List.mem_append_right _ (List.mem_cons_self _ _))
    have hc := hinv2.cache.counts sfxid
    have hpos := List.count_pos_iff.mpr hmem
    show 1 ≤ ((updatePass w s getPosition duration).mSoundBuffers.getD sfxid default).mReferences
    omega

theorem demoFadedStopped_reachable : Reachable demoWorld demoOutput demoFadedStopped :=
  ⟨demoFadeOps ++ [Op.touchSounds demoStop], by decide, rfl⟩

theorem demoFadedStopped_registry :
    demoFadedStopped.mActiveSounds
      = [] ++ (0, [] ++ (demoStop 0 (demoTone 0 0), 0) :: []) :: [] := by
  show (touchSounds demoFaded demoStop).mActiveSounds = _
  rw [demoFaded_eq]
  rfl

/-- C17, amended, on the faded instance of "a" once it has been stopped: the
pass removes the entry, the registry is empty and the count of buffer 0 is
1 - 1 - 0. -/
theorem faded_instance_is_pruned_once_stopped_witness :
    Reachable demoWorld demoOutput demoFadedStopped ∧
    (demoStop 0 (demoTone 0 0)).mFadeOutTime = 0 ∧
    (demoStop 0 (demoTone 0 0)).mVolume = 0 ∧
    (updateSound demoWorld demoFadedStopped.mListenerPos demoPositions
      (demoStop 0 (demoTone 0 0)) 0 (1/2)).1 = false ∧
    ((updatePass demoWorld demoFadedStopped demoPositions (1/2)).mActiveSounds
        = prunedRegistry demoWorld demoFadedStopped.mListenerPos demoPositions (1/2)
            ([] ++ (0, [] ++ []) :: []) ∧
      ((updatePass demoWorld demoFadedStopped demoPositions (1/2)).buffer 0).mReferences
        = (demoFadedStopped.buffer 0).mReferences - 1
          - ((removedIndices demoWorld demoFadedStopped.mListenerPos demoPositions (1/2)
              ([] ++ (0, [] ++ []) :: [])).count 0 : Int)) :=
  ⟨demoFadedStopped_reachable, rfl, rfl, rfl,
    (faded_instance_is_pruned_once_stopped demoWorld demoOutput demoFadedStopped
      demoFadedStopped_reachable demoPositions (1/2) [] [] 0 [] []
      (demoStop 0 (demoTone 0 0)) 0 demoFadedStopped_registry rfl rfl).2.1 rfl⟩

/-- C18: an update pass on a reachable state leaves the pruned registry: the
entries for which `updateSound` returns false (their instance is not playing
once it has been placed and tested for distance) are removed, the others stay
in their previous order under their owner, and no owner is left with an empty
list. The count of every buffer drops by the number of removed entries that
refer to it; no handle and no total changes; the indices of the removed
entries whose count has reached 0 are pushed, each once, onto the front of the
unused list. -/
theorem update_pass_prunes_the_stopped_entries (w : World) (out : Sound_Output)
    (s : SoundManager) (h : Reachable w out s) (getPosition : Ptr → Vec3f) (duration : Rat) :
    (updatePass w s getPosition duration).mActiveSounds
      = prunedRegistry w s.mListenerPos getPosition duration s.mActiveSounds ∧
    (∀ (sound : Sound) (ptr : Ptr),
      (updateSound w s.mListenerPos getPosition sound ptr duration).1
        = (placeSound w s.mListenerPos getPosition sound ptr).mPlaying) ∧
    (∀ p ∈ (updatePass w s getPosition duration).mActiveSounds, p.2 ≠ []) ∧
    (∀ j, ((updatePass w s getPosition duration).buffer j).mReferences
      = (s.buffer j).mReferences
        - ((removedIndices w s.mListenerPos getPosition duration s.mActiveSounds).count j
            : Int)) ∧
    (∃ pushed, (updatePass w s getPosition duration).mUnusedBuffers
        = pushed ++ s.mUnusedBuffers ∧ pushed.Nodup ∧
      ∀ j, j ∈ pushed ↔
        (j ∈ removedIndices w s.mListenerPos getPosition duration s.mActiveSounds ∧
          ((updatePass w s getPosition duration).buffer j).mReferences = 0)) ∧
    (∀ j, ((updatePass w s getPosition duration).buffer j).mHandle = (s.buffer j).mHandle) ∧
    (updatePass w s getPosition duration).mBufferCacheSize = s.mBufferCacheSize := by
  have hinv := h.inv
  obtain ⟨hR, hC, hH, ⟨pushed, hU, hP⟩, hT⟩ := hinv.updatePass_spec (w := w) getPosition duration
  have hinv2 : Inv out (updatePass w s getPosition duration) := hinv.of_updatePass _ _
  refine ⟨hR, ?_, ?_, hC, ⟨pushed, hU, ?_, hP⟩, hH, hT⟩
  · intro sound ptr
    rw [updateSound_eq, (fadeSound_fst _ _).1]
  · rw [hR]
    exact prunedRegistry_nonempty _ _ _ _ _
  · have hnd := hinv2.cache.nodup
    rw [hU] at hnd
    exact hnd.of_append_left

theorem demoMixed_reachable : Reachable demoWorld demoOutput demoMixed :=
  ⟨demoMixedOps, by decide, rfl⟩

/-- C18 on `demoMixed`: the pass removes the stopped entry of entity 5 and
drops the entity, keeps the entry of "a", takes the count of buffer 1 from 1
to 0 and pushes index 1 onto the unused list. -/
theorem update_pass_prunes_the_stopped_entries_witness :
    Reachable demoWorld demoOutput demoMixed ∧
    demoMixed.mActiveSounds
      = [(0, [(demoSound, 0)]), (5, [({ demoSound with mPlaying := false }, 1)])] ∧
    demoMixed.mUnusedBuffers = [] ∧
    (demoMixed.buffer 0).mReferences = 1 ∧ (demoMixed.buffer 1).mReferences = 1 ∧
    (updatePass demoWorld demoMixed demoPositions (1/30)).mActiveSounds
      = [(0, [(demoSound, 0)])] ∧
    (updatePass demoWorld demoMixed demoPositions (1/30)).mUnusedBuffers = [1] ∧
    ((updatePass demoWorld demoMixed demoPositions (1/30)).buffer 0).mReferences = 1 ∧
    ((updatePass demoWorld demoMixed demoPositions (1/30)).buffer 1).mReferences = 0 ∧
    (updatePass demoWorld demoMixed demoPositions (1/30)).mActiveSounds
      = prunedRegistry demoWorld demoMixed.mListenerPos demoPositions (1/30)
          demoMixed.mActiveSounds :=
  ⟨demoMixed_reachable, by decide, by decide, by decide, by decide, by decide, by decide,
    by decide, by decide,
    (update_pass_prunes_the_stopped_entries demoWorld demoOutput demoMixed demoMixed_reachable
      demoPositions (1/30)).1⟩

theorem passDuration_eq_none {timePassed duration : Rat}
    (h : timePassed + duration < 1 / 30) : passDuration timePassed duration = none :=
  if_pos h

theorem passDuration_eq_some {timePassed duration : Rat}
    (h : ¬ timePassed + duration < 1 / 30) :
    passDuration timePassed duration = some (timePassed + duration) :=
  if_neg h

/-- The accumulator of the code is the sum of the durations since the previous
pass: the passes of the code are those of the spec. -/
theorem passDurations_eq_specPasses :
    ∀ (ds pending : List Rat),
      passDurations pending.sum ds = specPasses pending ds ∧
      timePassedAfter pending.sum ds = (specPending pending ds).sum := by
  intro ds
  induction ds with
  | nil => intro pending; exact ⟨rfl, rfl⟩
  | cons d ds ih =>
    intro pending
    have hsum : (pending ++ [d]).sum = pending.sum + d := by
      rw [List.sum_append, List.sum_singleton]
    unfold passDurations timePassedAfter specPasses specPending
    by_cases h : pending.sum + d < 1 / 30
    · have h2 : ¬ 1 / 30 ≤ (pending ++ [d]).sum := by rw [hsum]; exact not_le.mpr h
      rw [passDuration_eq_none h, if_neg h2, if_neg h2]
      dsimp only
      rw [← hsum]
      exact ih (pending ++ [d])
    · have h2 : 1 / 30 ≤ (pending ++ [d]).sum := by rw [hsum]; exact not_lt.mp h
      rw [passDuration_eq_some h, if_pos h2, if_pos h2]
      dsimp only
      have := ih []
      rw [List.sum_nil] at this
      rw [this.1, this.2, hsum]
      exact ⟨rfl, rfl⟩

/-- No time is lost: the calls split into those up to the last pass, whose
durations sum to the durations of the passes, and those made since. -/
theorem specPasses_sum :
    ∀ (ds pending : List Rat),
      ∃ done, pending ++ ds = done ++ specPending pending ds ∧
        (specPasses pending ds).sum = done.sum := by
  intro ds
  induction ds with
  | nil => intro pending; exact ⟨[], by simp [specPending], by simp [specPasses]⟩
  | cons d ds ih =>
    intro pending
    unfold specPasses specPending
    by_cases h : 1 / 30 ≤ (pending ++ [d]).sum
    · rw [if_pos h, if_pos h]
      obtain ⟨done, e1, e2⟩ := ih []
      refine ⟨(pending ++ [d]) ++ done, ?_, ?_⟩
      · rw [List.nil_append] at e1
        rw [List.append_assoc, ← e1]
        simp
      · simp only [List.sum_cons, e2, List.sum_append]
    · rw [if_neg h, if_neg h]
      obtain ⟨done, e1, e2⟩ := ih (pending ++ [d])
      exact ⟨done, by rw [← e1]; simp, e2⟩

/-- The time pending stays below the threshold, and every pass runs with at
least the threshold. -/
theorem specPending_lt :
    ∀ (ds pending : List Rat), pending.sum < 1 / 30 →
      (specPending pending ds).sum < 1 / 30 ∧ ∀ t ∈ specPasses pending ds, 1 / 30 ≤ t := by
  intro ds
  induction ds with
  | nil => intro pending hp; exact ⟨hp, fun t ht => absurd ht (List.not_mem_nil _)⟩
  | cons d ds ih =>
    intro pending hp
    unfold specPasses specPending
    by_cases h : 1 / 30 ≤ (pending ++ [d]).sum
    · rw [if_pos h, if_pos h]
      obtain ⟨a, b⟩ := ih [] (by norm_num)
      refine ⟨a, ?_⟩
      intro t ht
      rcases List.mem_cons.mp ht with h1 | h1
      · rw [h1]; exact h
      · exact b t h1
    · rw [if_neg h, if_neg h]
      exact ih (pending ++ [d]) (not_le.mp h)

theorem specPending_nonneg :
    ∀ (ds pending : List Rat), (∀ d ∈ pending, 0 ≤ d) → (∀ d ∈ ds, 0 ≤ d) →
      ∀ d ∈ specPending pending ds, 0 ≤ d := by
  intro ds
  induction ds with
  | nil => intro pending hp _; exact hp
  | cons d ds ih =>
    intro pending hp hds
    have hd : 0 ≤ d := hds d (List.mem_cons_self _ _)
    have hds2 : ∀ x ∈ ds, 0 ≤ x := fun x hx => hds x (List.mem_cons_of_mem _ hx)
    unfold specPending
    by_cases h : 1 / 30 ≤ (pending ++ [d]).sum
    · rw [if_pos h]
      exact ih [] (fun x hx => absurd hx (List.not_mem_nil _)) hds2
    · rw [if_neg h]
      refine ih (pending ++ [d]) ?_ hds2
      intro x hx
      rcases List.mem_append.mp hx with h1 | h1
      · exact hp x h1
      · rw [List.mem_singleton.mp h1]; exact hd

/-- A sequence of calls leaves the accumulator of its durations and the
manager that the passes leave; the calls below the threshold leave no trace
in the manager. -/
theorem updateSoundsRun_eq (w : World) (out : Sound_Output) :
    ∀ (calls : List UpdateCall) (timePassed : Rat) (s : SoundManager),
      updateSoundsRun w out calls (timePassed, s)
        = (timePassedAfter timePassed (calls.map UpdateCall.duration),
            runPasses w out s (passCalls timePassed calls)) ∧
      (passCalls timePassed calls).map UpdateCall.duration
        = passDurations timePassed (calls.map UpdateCall.duration) := by
  intro calls
  induction calls with
  | nil => intro t s; exact ⟨rfl, rfl⟩
  | cons c calls ih =>
    intro t s
    unfold updateSoundsRun passCalls
    simp only [List.map_cons]
    unfold timePassedAfter passDurations updateSounds
    by_cases h : t + c.duration < 1 / 30
    · rw [passDuration_eq_none h, if_pos h]
      dsimp only
      exact ih (t + c.duration) s
    · rw [passDuration_eq_some h, if_neg h]
      dsimp only
      obtain ⟨a, b⟩ := ih 0 (updateSoundsBody w out s c.action c.getPosition (t + c.duration))
      rw [a]
      exact ⟨rfl, by rw [List.map_cons, b]⟩

/-- C19: in a sequence of `updateSounds` calls with durations `d_i ≥ 0`,
starting with the accumulator at 0, a call runs the body (and with it the
update pass) exactly when the durations of the calls since the previous pass,
this call included, sum to at least 1/30; the body then runs with that sum as
its duration and the accumulator returns to 0. Otherwise the call returns at
once: the manager is unchanged and the accumulator holds the sum. The manager
after the sequence is the one the passes leave, the durations of the passes
sum to the durations of all calls up to the last pass, and the accumulator,
the sum of the durations since, stays in [0, 1/30). Durations are exact
rationals. -/
theorem updateSounds_runs_the_pass_at_one_thirtieth (w : World) (out : Sound_Output)
    (s : SoundManager) (calls : List UpdateCall) (hd : ∀ c ∈ calls, 0 ≤ c.duration) :
    (∀ pre c post, calls = pre ++ c :: post →
      updateSounds w out (updateSoundsRun w out pre (0, s)).1 (updateSoundsRun w out pre (0, s)).2
          c.duration c.action c.getPosition
        = if 1 / 30 ≤ (specPending [] (pre.map UpdateCall.duration) ++ [c.duration]).sum then
            (0, updateSoundsBody w out (updateSoundsRun w out pre (0, s)).2 c.action c.getPosition
              (specPending [] (pre.map UpdateCall.duration) ++ [c.duration]).sum)
          else ((specPending [] (pre.map UpdateCall.duration) ++ [c.duration]).sum,
            (updateSoundsRun w out pre (0, s)).2)) ∧
    (updateSoundsRun w out calls (0, s)).2 = runPasses w out s (passCalls 0 calls) ∧
    (passCalls 0 calls).map UpdateCall.duration
      = specPasses [] (calls.map UpdateCall.duration) ∧
    (updateSoundsRun w out calls (0, s)).1
      = (specPending [] (calls.map UpdateCall.duration)).sum ∧
    (∃ done, calls.map UpdateCall.duration
        = done ++ specPending [] (calls.map UpdateCall.duration) ∧
      (specPasses [] (calls.map UpdateCall.duration)).sum = done.sum) ∧
    (∀ t ∈ specPasses [] (calls.map UpdateCall.duration), 1 / 30 ≤ t) ∧
    0 ≤ (updateSoundsRun w out calls (0, s)).1 ∧
    (updateSoundsRun w out calls (0, s)).1 < 1 / 30 := by
  have hspec : ∀ ds : List Rat, passDurations 0 ds = specPasses [] ds ∧
      timePassedAfter 0 ds = (specPending [] ds).sum := by
    intro ds
    have := passDurations_eq_specPasses ds []
    rwa [List.sum_nil] at this
  have hrun := updateSoundsRun_eq w out
  have hacc : (updateSoundsRun w out calls (0, s)).1
      = (specPending [] (calls.map UpdateCall.duration)).sum := by
    rw [(hrun calls 0 s).1, (hspec _).2]
  have hbound := specPending_lt (calls.map UpdateCall.duration) [] (by norm_num)
  refine ⟨?_, ?_, ?_, hacc, ?_, hbound.2, ?_, ?_⟩
  · intro pre c post _
    have h1 : (updateSoundsRun w out pre (0, s)).1
        = (specPending [] (pre.map UpdateCall.duration)).sum := by
      rw [(hrun pre 0 s).1, (hspec _).2]
    have hsum : (specPending [] (pre.map UpdateCall.duration) ++ [c.duration]).sum
        = (updateSoundsRun w out pre (0, s)).1 + c.duration := by
      rw [List.sum_append, List.sum_singleton, h1]
    rw [hsum]
    unfold updateSounds
    by_cases h : (updateSoundsRun w out pre (0, s)).1 + c.duration < 1 / 30
    · rw [if_pos h, if_neg (not_le.mpr h)]
    · rw [if_neg h, if_pos (not_lt.mp h)]
  · rw [(hrun calls 0 s).1]
  · rw [(hrun calls 0 s).2, (hspec _).1]
  · have := specPasses_sum (calls.map UpdateCall.duration) []
    rwa [List.nil_append] at this
  · rw [hacc]
    apply List.sum_nonneg
    apply specPending_nonneg (calls.map UpdateCall.duration) []
    · intro x hx; exact absurd hx (List.not_mem_nil _)
    · intro x hx
      obtain ⟨c, hc, rfl⟩ := List.mem_map.mp hx
      exact hd c hc
  · rw [hacc]
    exact hbound.1

theorem specPasses_demoCalls :
    specPasses [] (demoCalls.map UpdateCall.duration) = [1/30] ∧
    specPending [] (demoCalls.map UpdateCall.duration) = [1/100] := by
  norm_num [demoCalls, specPasses, specPending]

/-- C19 on calls of 1/60, 1/60 and 1/100 second: the second call runs the one
pass, with duration 1/30, and 1/100 second is pending afterwards. -/
theorem updateSounds_runs_the_pass_at_one_thirtieth_witness :
    (∀ c ∈ demoCalls, 0 ≤ c.duration) ∧
    specPasses [] (demoCalls.map UpdateCall.duration) = [1/30] ∧
    specPending [] (demoCalls.map UpdateCall.duration) = [1/100] ∧
    (passCalls 0 demoCalls).map UpdateCall.duration
      = specPasses [] (demoCalls.map UpdateCall.duration) ∧
    (updateSoundsRun demoWorld demoOutput demoCalls (0, demoMixed)).1
      = (specPending [] (demoCalls.map UpdateCall.duration)).sum ∧
    (updateSoundsRun demoWorld demoOutput demoCalls (0, demoMixed)).2
      = runPasses demoWorld demoOutput demoMixed (passCalls 0 demoCalls) :=
  have hd : ∀ c ∈ demoCalls, 0 ≤ c.duration := by
    intro c hc
    simp only [demoCalls, List.mem_cons, List.mem_singleton, List.not_mem_nil, or_false] at hc
    rcases hc with rfl | rfl | rfl <;> norm_num
  ⟨hd, specPasses_demoCalls.1, specPasses_demoCalls.2,
    (updateSounds_runs_the_pass_at_one_thirtieth demoWorld demoOutput demoMixed demoCalls
      hd).2.2.1,
    (updateSounds_runs_the_pass_at_one_thirtieth demoWorld demoOutput demoMixed demoCalls
      hd).2.2.2.1,
    (updateSounds_runs_the_pass_at_one_thirtieth demoWorld demoOutput demoMixed demoCalls
      hd).2.1⟩

theorem regionTotal_foldl (l : List ESM.SoundRef) :
    ∀ total : Int, l.foldl (fun total sr => total + (sr.mChance : Int)) total
      = total + (((l.map (fun sr => sr.mChance)).sum : Nat) : Int) := by
  induction l with
  | nil => intro total; simp
  | cons sr rest ih =>
    intro total
    rw [List.foldl_cons, ih, List.map_cons, List.sum_cons]
    push_cast
    ring

/-- The first loop of `updateRegionSound` sums the chances. -/
theorem regionTotal_eq (l : List ESM.SoundRef) :
    regionTotal l = (((l.map (fun sr => sr.mChance)).sum : Nat) : Int) := by
  unfold regionTotal
  rw [regionTotal_foldl, zero_add]

theorem chanceBefore_zero (l : List ESM.SoundRef) : chanceBefore l 0 = 0 := by
  simp [chanceBefore]

theorem chanceBefore_cons_succ (sr : ESM.SoundRef) (rest : List ESM.SoundRef) (i : Nat) :
    chanceBefore (sr :: rest) (i + 1) = sr.mChance + chanceBefore rest i := by
  simp [chanceBefore]

theorem chanceAt_cons_zero (sr : ESM.SoundRef) (rest : List ESM.SoundRef) :
    chanceAt (sr :: rest) 0 = sr.mChance := rfl

theorem chanceAt_cons_succ (sr : ESM.SoundRef) (rest : List ESM.SoundRef) (i : Nat) :
    chanceAt (sr :: rest) (i + 1) = chanceAt rest i := rfl

theorem chanceAt_of_length_le (l : List ESM.SoundRef) (i : Nat) (h : l.length ≤ i) :
    chanceAt l i = 0 := by
  unfold chanceAt
  rw [List.getD_eq_default _ _ h]

/-- The band of an index lies inside the total. -/
theorem chanceBefore_add_le :
    ∀ (l : List ESM.SoundRef) (i : Nat), i < l.length →
      chanceBefore l i + chanceAt l i ≤ (l.map (fun sr => sr.mChance)).sum := by
  intro l
  induction l with
  | nil => intro i hi; exact absurd hi (Nat.not_lt_zero _)
  | cons sr rest ih =>
    intro i hi
    cases i with
    | zero =>
      rw [chanceBefore_zero, chanceAt_cons_zero, List.map_cons, List.sum_cons]
      omega
    | succ k =>
      have := ih k (by simpa using hi)
      rw [chanceBefore_cons_succ, chanceAt_cons_succ, List.map_cons, List.sum_cons]
      omega

/-- The scan stops at index `i` exactly when the draw lies in the band of `i`. -/
theorem regionScan_eq_some_iff (r : Int) :
    ∀ (l : List ESM.SoundRef) (pos : Int) (i : Nat), pos ≤ r →
      (regionScan r pos l = some i ↔
        (i < l.length ∧ pos + (chanceBefore l i : Int) ≤ r ∧
          r < pos + (chanceBefore l i : Int) + (chanceAt l i : Int))) := by
  intro l
  induction l with
  | nil =>
    intro pos i _
    simp [regionScan]
  | cons sr rest ih =>
    intro pos i hpos
    unfold regionScan
    by_cases h : r - pos < (sr.mChance : Int)
    · rw [if_pos h]
      cases i with
      | zero =>
        rw [chanceBefore_zero, chanceAt_cons_zero]
        simp only [List.length_cons, Nat.zero_lt_succ, true_and, Nat.cast_zero, add_zero,
          true_iff]
        constructor
        · exact hpos
        · omega
      | succ k =>
        rw [chanceBefore_cons_succ]
        constructor
        · intro hc
          exact absurd (Option.some.inj hc) (by omega)
        · rintro ⟨_, h2, _⟩
          push_cast at h2
          omega
    · rw [if_neg h]
      have hpos2 : pos + (sr.mChance : Int) ≤ r := by omega
      cases i with
      | zero =>
        rw [chanceBefore_zero, chanceAt_cons_zero]
        constructor
        · intro hc
          cases hs : regionScan r (pos + (sr.mChance : Int)) rest with
          | none => rw [hs] at hc; exact absurd hc (by simp)
          | some k => rw [hs] at hc; exact absurd (Option.some.inj hc) (by simp)
        · rintro ⟨_, _, h3⟩
          push_cast at h3
          omega
      | succ k =>
        rw [chanceBefore_cons_succ, chanceAt_cons_succ]
        have := ih (pos + (sr.mChance : Int)) k hpos2
        constructor
        · intro hc
          have hk : regionScan r (pos + (sr.mChance : Int)) rest = some k := by
            cases hs : regionScan r (pos + (sr.mChance : Int)) rest with
            | none => rw [hs] at hc; exact absurd hc (by simp)
            | some k2 =>
              rw [hs] at hc
              have := Option.some.inj hc
              simp only at this
              congr 1
              omega
          obtain ⟨a, b, c⟩ := this.mp hk
          refine ⟨by simpa using a, ?_, ?_⟩
          · push_cast; omega
          · push_cast; omega
        · rintro ⟨a, b, c⟩
          push_cast at b c
          rw [this.mpr ⟨by simpa using a, by omega, by omega⟩]
          rfl

/-- A draw below the sum of the chances stops the scan somewhere. -/
theorem regionScan_isSome (r : Int) :
    ∀ (l : List ESM.SoundRef) (pos : Int), pos ≤ r →
      r < pos + (((l.map (fun sr => sr.mChance)).sum : Nat) : Int) →
      ∃ i, regionScan r pos l = some i := by
  intro l
  induction l with
  | nil =>
    intro pos hpos h
    exfalso
    rw [List.map_nil, List.sum_nil, Nat.cast_zero, add_zero] at h
    omega
  | cons sr rest ih =>
    intro pos hpos h
    unfold regionScan
    by_cases hc : r - pos < (sr.mChance : Int)
    · exact ⟨0, if_pos hc⟩
    · rw [if_neg hc]
      rw [List.map_cons, List.sum_cons, Nat.cast_add] at h
      obtain ⟨k, hk⟩ := ih (pos + (sr.mChance : Int)) (by omega) (by omega)
      exact ⟨k + 1, by rw [hk]; rfl⟩

/-- C20: for a region sound list whose chances sum to `T` and a draw `r` with
`0 ≤ r < T`, the scan of `updateRegionSound` stops at exactly one entry, the
one at the only index `i` with `w_0 + ... + w_(i-1) ≤ r < w_0 + ... + w_i`;
its chance is not 0. Of the `T` draws, exactly `w_i` select index `i`, and an
entry of chance 0 is selected by none. -/
theorem regionScan_selects_in_proportion_to_chance (l : List ESM.SoundRef) (r : Int)
    (h0 : 0 ≤ r) (hr : r < regionTotal l) :
    regionTotal l = (((l.map (fun sr => sr.mChance)).sum : Nat) : Int) ∧
    (∃ i, regionScan r 0 l = some i ∧ i < l.length ∧
      (chanceBefore l i : Int) ≤ r ∧ r < (chanceBefore l i : Int) + (chanceAt l i : Int) ∧
      chanceAt l i ≠ 0 ∧
      ∀ j, j < l.length → (chanceBefore l j : Int) ≤ r →
        r < (chanceBefore l j : Int) + (chanceAt l j : Int) → j = i) ∧
    (∀ i, ((Finset.range (regionTotal l).toNat).filter
        (fun d : Nat => regionScan (d : Int) 0 l = some i)).card = chanceAt l i) ∧
    (∀ i (d : Int), 0 ≤ d → chanceAt l i = 0 → regionScan d 0 l ≠ some i) := by
  have hT := regionTotal_eq l
  refine ⟨hT, ?_, ?_, ?_⟩
  · rw [hT] at hr
    obtain ⟨i, hi⟩ := regionScan_isSome r l 0 h0 (by rw [zero_add]; exact hr)
    obtain ⟨a, b, c⟩ := (regionScan_eq_some_iff r l 0 i h0).mp hi
    rw [zero_add] at b c
    refine ⟨i, hi, a, b, c, ?_, ?_⟩
    · intro hz
      rw [hz] at c
      push_cast at c
      omega
    · intro j hj hb hc
      have hj2 := (regionScan_eq_some_iff r l 0 j h0).mpr
        ⟨hj, by rw [zero_add]; exact hb, by rw [zero_add]; exact hc⟩
      rw [hi] at hj2
      exact (Option.some.inj hj2).symm
  · intro i
    by_cases hi : i < l.length
    · have hle := chanceBefore_add_le l i hi
      have hset : (Finset.range (regionTotal l).toNat).filter
          (fun d : Nat => regionScan (d : Int) 0 l = some i)
          = Finset.Ico (chanceBefore l i) (chanceBefore l i + chanceAt l i) := by
        ext d
        rw [Finset.mem_filter, Finset.mem_range, Finset.mem_Ico,
          regionScan_eq_some_iff (d : Int) l 0 i (Int.ofNat_nonneg d), hT, Int.toNat_ofNat]
        constructor
        · rintro ⟨_, _, b, c⟩
          rw [zero_add] at b c
          exact ⟨by exact_mod_cast b, by exact_mod_cast c⟩
        · rintro ⟨b, c⟩
          refine ⟨by omega, hi, ?_, ?_⟩
          · rw [zero_add]; exact_mod_cast b
          · rw [zero_add]; exact_mod_cast c
      rw [hset, Nat.card_Ico]
      omega
    · have hz : chanceAt l i = 0 := chanceAt_of_length_le l i (not_lt.mp hi)
      rw [hz, Finset.card_eq_zero, Finset.filter_eq_empty_iff]
      intro d _ hd
      exact hi ((regionScan_eq_some_iff (d : Int) l 0 i (Int.ofNat_nonneg d)).mp hd).1
  · intro i d hd hz hc
    obtain ⟨_, b, c⟩ := (regionScan_eq_some_iff d l 0 i hd).mp hc
    rw [hz] at c
    push_cast at c
    omega

/-- C20 on chances 10, 0 and 5: the draw 12 selects index 2, the draws 0..9
select index 0, the draws 10..14 select index 2, and index 1 is selected by
no draw. -/
theorem regionScan_selects_in_proportion_to_chance_witness :
    (0 : Int) ≤ 12 ∧ (12 : Int) < regionTotal demoRegion ∧
    regionTotal demoRegion = 15 ∧
    regionScan 12 0 demoRegion = some 2 ∧
    (∀ d : Nat, d < 10 → regionScan (d : Int) 0 demoRegion = some 0) ∧
    (∀ d : Nat, d < 15 → 10 ≤ d → regionScan (d : Int) 0 demoRegion = some 2) ∧
    (∀ i, ((Finset.range (regionTotal demoRegion).toNat).filter
        (fun d : Nat => regionScan (d : Int) 0 demoRegion = some i)).card
      = chanceAt demoRegion i) :=
  ⟨by decide, by decide, by decide, by decide, by decide, by decide,
    (regionScan_selects_in_proportion_to_chance demoRegion 12 (by decide) (by decide)).2.2.1⟩

theorem mapFind_eq_none_iff {β : Type} (m : List (Ptr × β)) (key : Ptr) :
    mapFind m key = none ↔ key ∉ m.map Prod.fst := by
  induction m with
  | nil => simp [mapFind]
  | cons p m ih =>
    obtain ⟨k, v⟩ := p
    unfold mapFind
    by_cases h : key = k
    · simp [h]
    · rw [if_neg h, ih]
      simp [h]

theorem mapFind_mapErase_ne {β : Type} (m : List (Ptr × β)) (key j : Ptr) (h : j ≠ key) :
    mapFind (mapErase m key) j = mapFind m j := by
  induction m with
  | nil => rfl
  | cons p m ih =>
    obtain ⟨k, v⟩ := p
    unfold mapErase
    by_cases hk : key = k
    · rw [if_pos hk]
      have : j ≠ k := hk ▸ h
      simp [mapFind, this]
    · rw [if_neg hk]
      unfold mapFind
      rw [ih]

theorem MapSorted.tail {β : Type} {p : Ptr × β} {m : List (Ptr × β)}
    (h : MapSorted (p :: m)) : MapSorted m :=
  (List.pairwise_cons.mp h).2

theorem MapSorted.head_lt {β : Type} {p : Ptr × β} {m : List (Ptr × β)}
    (h : MapSorted (p :: m)) : ∀ k ∈ m.map Prod.fst, p.1 < k :=
  (List.pairwise_cons.mp h).1

theorem mapFind_mapErase_self {β : Type} (m : List (Ptr × β)) (key : Ptr) (hs : MapSorted m) :
    mapFind (mapErase m key) key = none := by
  induction m with
  | nil => rfl
  | cons p m ih =>
    obtain ⟨k, v⟩ := p
    unfold mapErase
    by_cases hk : key = k
    · rw [if_pos hk, mapFind_eq_none_iff]
      intro hmem
      have := hs.head_lt key hmem
      simp only at this
      rw [hk] at this
      exact lt_irrefl _ this
    · rw [if_neg hk]
      unfold mapFind
      rw [if_neg hk]
      exact ih hs.tail

theorem mapErase_keys_subset {β : Type} (m : List (Ptr × β)) (key : Ptr) :
    ∀ k ∈ (mapErase m key).map Prod.fst, k ∈ m.map Prod.fst := by
  induction m with
  | nil => intro k hk; exact hk
  | cons p m ih =>
    obtain ⟨k0, v⟩ := p
    intro k hk
    unfold mapErase at hk
    by_cases h : key = k0
    · rw [if_pos h] at hk
      exact List.mem_cons_of_mem _ hk
    · rw [if_neg h] at hk
      simp only [List.map_cons, List.mem_cons] at hk ⊢
      rcases hk with h1 | h1
      · exact Or.inl h1
      · exact Or.inr (ih k h1)

theorem MapSorted.of_mapErase {β : Type} {m : List (Ptr × β)} (hs : MapSorted m) (key : Ptr) :
    MapSorted (mapErase m key) := by
  induction m with
  | nil => exact hs
  | cons p m ih =>
    obtain ⟨k, v⟩ := p
    unfold mapErase
    by_cases hk : key = k
    · rw [if_pos hk]; exact hs.tail
    · rw [if_neg hk]
      refine List.pairwise_cons.mpr ⟨?_, ih hs.tail⟩
      intro k2 hk2
      exact hs.head_lt k2 (mapErase_keys_subset m key k2 hk2)

theorem mapAssign_keys {β : Type} (m : List (Ptr × β)) (key : Ptr) (v : β) :
    ∀ k, k ∈ (mapAssign m key v).map Prod.fst ↔ (k = key ∨ k ∈ m.map Prod.fst) := by
  induction m with
  | nil => intro k; simp [mapAssign]
  | cons p m ih =>
    obtain ⟨k0, v0⟩ := p
    intro k
    unfold mapAssign
    by_cases h1 : key < k0
    · rw [if_pos h1]; simp
    · rw [if_neg h1]
      by_cases h2 : key = k0
      · rw [if_pos h2]
        simp only [List.map_cons, List.mem_cons]
        constructor
        · rintro (h | h)
          · exact Or.inr (Or.inl h)
          · exact Or.inr (Or.inr h)
        · rintro (h | h | h)
          · exact Or.inl (h.trans h2)
          · exact Or.inl h
          · exact Or.inr h
      · rw [if_neg h2]
        simp only [List.map_cons, List.mem_cons, ih]
        constructor
        · rintro (h | h | h)
          · exact Or.inr (Or.inl h)
          · exact Or.inl h
          · exact Or.inr (Or.inr h)
        · rintro (h | h | h)
          · exact Or.inr (Or.inl h)
          · exact Or.inl h
          · exact Or.inr (Or.inr h)

theorem MapSorted.of_mapAssign {β : Type} {m : List (Ptr × β)} (hs : MapSorted m) (key : Ptr)
    (v : β) : MapSorted (mapAssign m key v) := by
  induction m with
  | nil => simp [mapAssign, MapSorted]
  | cons p m ih =>
    obtain ⟨k, v0⟩ := p
    have hlt := hs.head_lt
    simp only at hlt
    unfold mapAssign
    by_cases h1 : key < k
    · rw [if_pos h1]
      refine List.pairwise_cons.mpr ⟨?_, hs⟩
      intro k2 hk2
      rcases List.mem_cons.mp hk2 with h | h
      · rw [h]; exact h1
      · exact lt_trans h1 (hlt k2 h)
    · rw [if_neg h1]
      by_cases h2 : key = k
      · rw [if_pos h2]; exact hs
      · rw [if_neg h2]
        refine List.pairwise_cons.mpr ⟨?_, ih hs.tail⟩
        intro k2 hk2
        rcases (mapAssign_keys m key v k2).mp hk2 with h | h
        · rw [h]; exact lt_of_le_of_ne (not_lt.mp h1) (Ne.symm h2)
        · exact hlt k2 h

theorem mapFind_mapAssign_self {β : Type} (m : List (Ptr × β)) (key : Ptr) (v : β) :
    mapFind (mapAssign m key v) key = some v := by
  induction m with
  | nil => simp [mapAssign, mapFind]
  | cons p m ih =>
    obtain ⟨k, v0⟩ := p
    unfold mapAssign
    by_cases h1 : key < k
    · rw [if_pos h1]; simp [mapFind]
    · rw [if_neg h1]
      by_cases h2 : key = k
      · rw [if_pos h2]; simp [mapFind, h2]
      · rw [if_neg h2]
        unfold mapFind
        rw [if_neg h2]
        exact ih

theorem mapFind_mapAssign_ne {β : Type} (m : List (Ptr × β)) (key j : Ptr) (v : β)
    (h : j ≠ key) : mapFind (mapAssign m key v) j = mapFind m j := by
  induction m with
  | nil => simp [mapAssign, mapFind, h]
  | cons p m ih =>
    obtain ⟨k, v0⟩ := p
    unfold mapAssign
    by_cases h1 : key < k
    · rw [if_pos h1]
      show (if j = key then _ else _) = _
      rw [if_neg h]
    · rw [if_neg h1]
      by_cases h2 : key = k
      · rw [if_pos h2]
        have : j ≠ k := h2 ▸ h
        simp [mapFind, this]
      · rw [if_neg h2]
        unfold mapFind
        rw [ih]

theorem length_mapErase {β : Type} (m : List (Ptr × β)) (key : Ptr) (v : β)
    (h : mapFind m key = some v) : (mapErase m key).length + 1 = m.length := by
  induction m with
  | nil => simp [mapFind] at h
  | cons p m ih =>
    obtain ⟨k, v0⟩ := p
    unfold mapErase
    unfold mapFind at h
    by_cases hk : key = k
    · rw [if_pos hk]; rfl
    · rw [if_neg hk] at h ⊢
      simp only [List.length_cons]
      rw [ih h]

theorem length_mapAssign_of_absent {β : Type} (m : List (Ptr × β)) (key : Ptr) (v : β)
    (h : mapFind m key = none) : (mapAssign m key v).length = m.length + 1 := by
  induction m with
  | nil => rfl
  | cons p m ih =>
    obtain ⟨k, v0⟩ := p
    unfold mapFind at h
    unfold mapAssign
    by_cases h2 : key = k
    · rw [if_pos h2] at h; exact absurd h (by simp)
    · rw [if_neg h2] at h
      by_cases h1 : key < k
      · rw [if_pos h1]; rfl
      · rw [if_neg h1, if_neg h2]
        simp only [List.length_cons]
        rw [ih h]

theorem length_mapAssign_of_present {β : Type} (m : List (Ptr × β)) (key : Ptr) (v v0 : β)
    (hs : MapSorted m) (h : mapFind m key = some v0) :
    (mapAssign m key v).length = m.length := by
  induction m with
  | nil => simp [mapFind] at h
  | cons p m ih =>
    obtain ⟨k, v1⟩ := p
    unfold mapFind at h
    unfold mapAssign
    by_cases h2 : key = k
    · have h1 : ¬ key < k := by rw [h2]; exact lt_irrefl k
      rw [if_neg h1, if_pos h2]; rfl
    · rw [if_neg h2] at h
      have hmem : key ∈ m.map Prod.fst := by
        by_contra hc
        rw [(mapFind_eq_none_iff m key).mpr hc] at h
        exact absurd h (by simp)
      have hlt := hs.head_lt key hmem
      simp only at hlt
      have h1 : ¬ key < k := not_lt.mpr (le_of_lt hlt)
      rw [if_neg h1, if_neg h2]
      simp only [List.length_cons]
      rw [ih hs.tail h]

/-- Assigning a list to a key that owns none adds its entries. -/
theorem count_registryIndices_mapAssign_of_absent (m : List (Ptr × SoundIndexPairList))
    (key : Ptr) (l : SoundIndexPairList) (h : mapFind m key = none) (j : Nat) :
    (registryIndices (mapAssign m key l)).count j
      = (registryIndices m).count j + (l.map Prod.snd).count j := by
  induction m with
  | nil => simp [mapAssign, registryIndices]
  | cons p m ih =>
    obtain ⟨k, l0⟩ := p
    unfold mapFind at h
    unfold mapAssign
    by_cases h2 : key = k
    · rw [if_pos h2] at h; exact absurd h (by simp)
    · rw [if_neg h2] at h
      by_cases h1 : key < k
      · rw [if_pos h1]
        simp only [registryIndices, List.count_append]
        omega
      · rw [if_neg h1, if_neg h2]
        simp only [registryIndices, List.count_append, ih h]
        omega

/-- Assigning a list to a key that owns one replaces the entries of that key. -/
theorem count_registryIndices_mapAssign_of_present (m : List (Ptr × SoundIndexPairList))
    (key : Ptr) (l l0 : SoundIndexPairList) (hs : MapSorted m) (h : mapFind m key = some l0)
    (j : Nat) :
    (registryIndices (mapAssign m key l)).count j + (l0.map Prod.snd).count j
      = (registryIndices m).count j + (l.map Prod.snd).count j := by
  induction m with
  | nil => simp [mapFind] at h
  | cons p m ih =>
    obtain ⟨k, l1⟩ := p
    unfold mapFind at h
    unfold mapAssign
    by_cases h2 : key = k
    · have h1 : ¬ key < k := by rw [h2]; exact lt_irrefl k
      rw [if_pos h2] at h
      have hl : l1 = l0 := Option.some.inj h
      rw [if_neg h1, if_pos h2, hl]
      simp only [registryIndices, List.count_append]
      omega
    · rw [if_neg h2] at h
      have hmem : key ∈ m.map Prod.fst := by
        by_contra hc
        rw [(mapFind_eq_none_iff m key).mpr hc] at h
        exact absurd h (by simp)
      have hlt := hs.head_lt key hmem
      simp only at hlt
      have h1 : ¬ key < k := not_lt.mpr (le_of_lt hlt)
      rw [if_neg h1, if_neg h2]
      have := ih hs.tail h
      simp only [registryIndices, List.count_append]
      omega

theorem lookupId_registry (w : World) (s : SoundManager) (soundId : String) :
    (lookupId w s soundId).1.mActiveSounds = s.mActiveSounds ∧
    (lookupId w s soundId).1.mActiveSaySounds = s.mActiveSaySounds := by
  obtain ⟨_, _, f3, f4, _⟩ :=
    insertAll_frame w (w.sounds.map (fun r => (w.lowerCase r.mId, r))) s
  rw [← loadAllSounds_eq_insertAll] at f3 f4
  unfold lookupId
  dsimp only
  split
  · exact ⟨rfl, rfl⟩
  · split
    · split
      · exact ⟨f3, f4⟩
      · exact ⟨f3, f4⟩
    · exact ⟨rfl, rfl⟩

theorem lookup_registry (out : Sound_Output) (s : SoundManager) (sfxid : Nat)
    (loaded : Option Sound_Handle) :
    (lookup out s sfxid loaded).1.mActiveSounds = s.mActiveSounds ∧
    (lookup out s sfxid loaded).1.mActiveSaySounds = s.mActiveSaySounds := by
  unfold lookup
  split
  · cases loaded with
    | none => exact ⟨rfl, rfl⟩
    | some h =>
      obtain ⟨_, f2, f3, _, _⟩ :=
        evictLoop_frame out (afterLoad out s sfxid h).mUnusedBuffers.length (afterLoad out s sfxid h)
      exact ⟨f2, f3⟩
  · exact ⟨rfl, rfl⟩

theorem lookupByName_registry (w : World) (out : Sound_Output) (s : SoundManager)
    (soundId : String) (loaded : Option Sound_Handle) :
    (lookupByName w out s soundId loaded).1.mActiveSounds = s.mActiveSounds ∧
    (lookupByName w out s soundId loaded).1.mActiveSaySounds = s.mActiveSaySounds := by
  obtain ⟨a, b⟩ := lookupId_registry w s soundId
  unfold lookupByName
  cases h : (lookupId w s soundId).2 with
  | none => exact ⟨a, b⟩
  | some sfxid =>
    obtain ⟨c, d⟩ := lookup_registry out (lookupId w s soundId).1 sfxid loaded
    exact ⟨c.trans a, d.trans b⟩

/-- A play leaves the registry as it was or files one entry under its key. -/
theorem playFiled_registry (w : World) (out : Sound_Output) (s : SoundManager) (key : Ptr)
    (soundId : String) (loaded : Option Sound_Handle) (created : Option Sound) :
    ((playFiled w out s key soundId loaded created).1.mActiveSounds = s.mActiveSounds ∨
      ∃ e, (playFiled w out s key soundId loaded created).1.mActiveSounds
        = mapPushBack s.mActiveSounds key e) ∧
    (playFiled w out s key soundId loaded created).1.mActiveSaySounds = s.mActiveSaySounds := by
  obtain ⟨a, b⟩ := lookupByName_registry w out s (w.lowerCase soundId) loaded
  unfold playFiled
  by_cases hinit : out.isInitialized = false
  · rw [if_pos hinit]; exact ⟨Or.inl rfl, rfl⟩
  · rw [if_neg hinit]
    cases hl : (lookupByName w out s (w.lowerCase soundId) loaded).2 with
    | none => exact ⟨Or.inl a, b⟩
    | some sfxid =>
      cases created with
      | none => exact ⟨Or.inl a, b⟩
      | some sound =>
        refine ⟨Or.inr ⟨(sound, sfxid), ?_⟩, b⟩
        show mapPushBack (lookupByName w out s (w.lowerCase soundId) loaded).1.mActiveSounds key
          (sound, sfxid) = _
        rw [a]

theorem mapPushBack_keys {β : Type} (m : List (Ptr × List β)) (key : Ptr) (e : β) :
    ∀ k, k ∈ (mapPushBack m key e).map Prod.fst ↔ (k = key ∨ k ∈ m.map Prod.fst) := by
  induction m with
  | nil => intro k; simp [mapPushBack]
  | cons p m ih =>
    obtain ⟨k0, v0⟩ := p
    intro k
    unfold mapPushBack
    by_cases h1 : key < k0
    · rw [if_pos h1]; simp
    · rw [if_neg h1]
      by_cases h2 : key = k0
      · rw [if_pos h2]
        simp only [List.map_cons, List.mem_cons]
        constructor
        · rintro (h | h)
          · exact Or.inr (Or.inl h)
          · exact Or.inr (Or.inr h)
        · rintro (h | h | h)
          · exact Or.inl (h.trans h2)
          · exact Or.inl h
          · exact Or.inr h
      · rw [if_neg h2]
        simp only [List.map_cons, List.mem_cons, ih]
        constructor
        · rintro (h | h | h)
          · exact Or.inr (Or.inl h)
          · exact Or.inl h
          · exact Or.inr (Or.inr h)
        · rintro (h | h | h)
          · exact Or.inr (Or.inl h)
          · exact Or.inl h
          · exact Or.inr (Or.inr h)

theorem MapSorted.of_mapPushBack {β : Type} {m : List (Ptr × List β)} (hs : MapSorted m)
    (key : Ptr) (e : β) : MapSorted (mapPushBack m key e) := by
  induction m with
  | nil => simp [mapPushBack, MapSorted]
  | cons p m ih =>
    obtain ⟨k, v0⟩ := p
    have hlt := hs.head_lt
    simp only at hlt
    unfold mapPushBack
    by_cases h1 : key < k
    · rw [if_pos h1]
      refine List.pairwise_cons.mpr ⟨?_, hs⟩
      intro k2 hk2
      rcases List.mem_cons.mp hk2 with h | h
      · rw [h]; exact h1
      · exact lt_trans h1 (hlt k2 h)
    · rw [if_neg h1]
      by_cases h2 : key = k
      · rw [if_pos h2]; exact hs
      · rw [if_neg h2]
        refine List.pairwise_cons.mpr ⟨?_, ih hs.tail⟩
        intro k2 hk2
        rcases (mapPushBack_keys m key e k2).mp hk2 with h | h
        · rw [h]; exact lt_of_le_of_ne (not_lt.mp h1) (Ne.symm h2)
        · exact hlt k2 h

theorem MapSorted.of_sublist {β γ : Type} {m : List (Ptr × β)} {m2 : List (Ptr × γ)}
    (hs : MapSorted m) (h : (m2.map Prod.fst).Sublist (m.map Prod.fst)) : MapSorted m2 :=
  List.Pairwise.sublist h hs

theorem prunedRegistry_keys (w : World) (listenerPos : Vec3f) (getPosition : Ptr → Vec3f)
    (duration : Rat) (m : List (Ptr × SoundIndexPairList)) :
    ((prunedRegistry w listenerPos getPosition duration m).map Prod.fst).Sublist
      (m.map Prod.fst) := by
  unfold prunedRegistry
  have h1 := (List.filter_sublist (p := fun p : Ptr × SoundIndexPairList => !p.2.isEmpty)
    (m.map (fun p => (p.1, survivors w listenerPos getPosition duration p.1 p.2)))).map Prod.fst
  simpa [List.map_map, Function.comp_def] using h1

theorem updateSaySounds_keys (w : World) (listenerPos : Vec3f) (getPosition : Ptr → Vec3f)
    (duration : Rat) (m : List (Ptr × (Sound × String))) :
    ((updateSaySounds w listenerPos getPosition duration m).map Prod.fst).Sublist
      (m.map Prod.fst) := by
  induction m with
  | nil => exact List.Sublist.refl _
  | cons p m ih =>
    obtain ⟨ptr, sound, name⟩ := p
    unfold updateSaySounds
    split
    · exact List.Sublist.cons _ ih
    · exact List.Sublist.cons₂ _ ih

theorem RegistriesSorted.of_playFiled {w : World} {out : Sound_Output} {s : SoundManager}
    (h : RegistriesSorted s) (key : Ptr) (soundId : String) (loaded : Option Sound_Handle)
    (created : Option Sound) :
    RegistriesSorted (playFiled w out s key soundId loaded created).1 := by
  obtain ⟨a, b⟩ := playFiled_registry w out s key soundId loaded created
  refine ⟨?_, by rw [b]; exact h.2⟩
  rcases a with a | ⟨e, a⟩
  · rw [a]; exact h.1
  · rw [a]; exact h.1.of_mapPushBack key e

theorem RegistriesSorted.after_step {w : World} {out : Sound_Output} {s : SoundManager}
    (h : RegistriesSorted s) (op : Op) : RegistriesSorted (step w out s op) := by
  cases op with
  | lookupId soundId =>
    obtain ⟨a, b⟩ := lookupId_registry w s soundId
    exact ⟨by show MapSorted (lookupId w s soundId).1.mActiveSounds; rw [a]; exact h.1,
      by show MapSorted (lookupId w s soundId).1.mActiveSaySounds; rw [b]; exact h.2⟩
  | lookup soundId loaded =>
    obtain ⟨a, b⟩ := lookupByName_registry w out s soundId loaded
    exact ⟨by show MapSorted (lookupByName w out s soundId loaded).1.mActiveSounds
              rw [a]; exact h.1,
      by show MapSorted (lookupByName w out s soundId loaded).1.mActiveSaySounds
         rw [b]; exact h.2⟩
  | playSound soundId loaded created =>
    show RegistriesSorted (playSound w out s soundId loaded created).1
    rw [playSound_eq_playFiled]
    exact h.of_playFiled 0 soundId loaded created
  | playSound3D ptr objpos soundId mode loaded created =>
    show RegistriesSorted (playSound3D w out s ptr objpos soundId mode loaded created).1
    rw [playSound3D_eq]
    split
    · obtain ⟨a, b⟩ := lookupByName_registry w out s (w.lowerCase soundId) loaded
      exact ⟨by show MapSorted (lookupByName w out s (w.lowerCase soundId) loaded).1.mActiveSounds
                rw [a]; exact h.1,
        by show MapSorted (lookupByName w out s (w.lowerCase soundId) loaded).1.mActiveSaySounds
           rw [b]; exact h.2⟩
    · exact h.of_playFiled ptr soundId loaded created
  | playSound3DAt initialPos soundId mode loaded created =>
    show RegistriesSorted (playSound3DAt w out s initialPos soundId mode loaded created).1
    rw [playSound3DAt_eq_playFiled]
    exact h.of_playFiled 0 soundId loaded created
  | updatePass getPosition duration =>
    show RegistriesSorted (updatePass w s getPosition duration)
    rw [updatePass_eq]
    exact ⟨h.1.of_sublist (prunedRegistry_keys _ _ _ _ _),
      h.2.of_sublist (updateSaySounds_keys _ _ _ _ _)⟩
  | updatePtr old updated =>
    constructor
    · show MapSorted (updatePtr s old updated).mActiveSounds
      unfold updatePtr
      dsimp only
      cases mapFind s.mActiveSounds old with
      | none => exact h.1
      | some l => exact (h.1.of_mapErase old).of_mapAssign updated l
    · show MapSorted (updatePtr s old updated).mActiveSaySounds
      unfold updatePtr
      dsimp only
      cases mapFind s.mActiveSaySounds old with
      | none => exact h.2
      | some l => exact (h.2.of_mapErase old).of_mapAssign updated l
  | clear => exact ⟨List.Pairwise.nil, List.Pairwise.nil⟩
  | setListenerPos pos => exact h
  | touchSounds f =>
    constructor
    · show MapSorted (touchSounds s f).mActiveSounds
      unfold touchSounds MapSorted
      simpa [List.map_map, Function.comp_def] using h.1
    · show MapSorted (touchSounds s f).mActiveSaySounds
      unfold touchSounds MapSorted
      simpa [List.map_map, Function.comp_def] using h.2

/-- In every reachable state both registries are well-formed maps. -/
theorem Reachable.registriesSorted {w : World} {out : Sound_Output} {s : SoundManager}
    (h : Reachable w out s) : RegistriesSorted s := by
  obtain ⟨ops, _, hrun⟩ := h
  rw [← hrun]
  unfold run
  have key : ∀ (l : List Op) (s0 : SoundManager), RegistriesSorted s0 →
      RegistriesSorted (l.foldl (step w out) s0) := by
    intro l
    induction l with
    | nil => intro s0 h0; exact h0
    | cons op l ih => intro s0 h0; exact ih _ (h0.after_step op)
  exact key ops _ ⟨List.Pairwise.nil, List.Pairwise.nil⟩

/-- What `updatePtr` does to one registry map. -/
theorem updatePtr_registry (s : SoundManager) (old updated : Ptr) :
    (updatePtr s old updated).mActiveSounds
      = (match mapFind s.mActiveSounds old with
         | some sndlist => mapAssign (mapErase s.mActiveSounds old) updated sndlist
         | none => s.mActiveSounds) ∧
    (updatePtr s old updated).mActiveSaySounds
      = (match mapFind s.mActiveSaySounds old with
         | some sndlist => mapAssign (mapErase s.mActiveSaySounds old) updated sndlist
         | none => s.mActiveSaySounds) ∧
    (updatePtr s old updated).mSoundBuffers = s.mSoundBuffers ∧
    (updatePtr s old updated).mUnusedBuffers = s.mUnusedBuffers ∧
    (updatePtr s old updated).mBufferKeys = s.mBufferKeys ∧
    (updatePtr s old updated).mBufferCacheSize = s.mBufferCacheSize :=
  ⟨rfl, rfl, rfl, rfl, rfl, rfl⟩

theorem RegistriesSorted.after_updatePtr {s : SoundManager} (h : RegistriesSorted s)
    (old updated : Ptr) : RegistriesSorted (updatePtr s old updated) := by
  obtain ⟨e1, e2, _⟩ := updatePtr_registry s old updated
  constructor
  · rw [e1]
    cases mapFind s.mActiveSounds old with
    | none => exact h.1
    | some l => exact (h.1.of_mapErase old).of_mapAssign updated l
  · rw [e2]
    cases mapFind s.mActiveSaySounds old with
    | none => exact h.2
    | some l => exact (h.2.of_mapErase old).of_mapAssign updated l

/-- Moving the value of `old` to a key `updated` that owns none, in any map. -/
theorem mapAssign_mapErase_move {β : Type} (m : List (Ptr × β)) (old updated : Ptr) (v : β)
    (hne : old ≠ updated) (hs : MapSorted m) (hold : mapFind m old = some v)
    (hup : mapFind m updated = none) :
    mapFind (mapAssign (mapErase m old) updated v) updated = some v ∧
    mapFind (mapAssign (mapErase m old) updated v) old = none ∧
    (∀ k, k ≠ old → k ≠ updated →
      mapFind (mapAssign (mapErase m old) updated v) k = mapFind m k) ∧
    (mapAssign (mapErase m old) updated v).length = m.length ∧
    MapSorted (mapAssign (mapErase m old) updated v) := by
  refine ⟨mapFind_mapAssign_self _ _ _, ?_, ?_, ?_, (hs.of_mapErase old).of_mapAssign updated v⟩
  · rw [mapFind_mapAssign_ne _ _ _ _ hne, mapFind_mapErase_self m old hs]
  · intro k h1 h2
    rw [mapFind_mapAssign_ne _ _ _ _ h2, mapFind_mapErase_ne _ _ _ h1]
  · have h1 : mapFind (mapErase m old) updated = none := by
      rw [mapFind_mapErase_ne _ _ _ (Ne.symm hne)]; exact hup
    rw [length_mapAssign_of_absent _ _ _ h1, length_mapErase m old v hold]

/-- C21: when `old` owns an entry list `L` and the distinct key `updated`
owns none, `updatePtr(old, updated)` leaves a registry that maps `updated` to
`L`, has no key `old`, agrees with the previous one on every other key, has as
many keys as before and holds the same entries (every buffer index as often
as before, the same number in all). An entry of the say registry is moved in
the same way, and a registry in which `old` owns nothing is left as it was. -/
theorem updatePtr_moves_the_entries_of_old (s : SoundManager) (old updated : Ptr)
    (hne : old ≠ updated) (hsorted : RegistriesSorted s) :
    (∀ L, mapFind s.mActiveSounds old = some L → mapFind s.mActiveSounds updated = none →
      mapFind (updatePtr s old updated).mActiveSounds updated = some L ∧
      mapFind (updatePtr s old updated).mActiveSounds old = none ∧
      (∀ k, k ≠ old → k ≠ updated →
        mapFind (updatePtr s old updated).mActiveSounds k = mapFind s.mActiveSounds k) ∧
      (updatePtr s old updated).mActiveSounds.length = s.mActiveSounds.length ∧
      (∀ j, (registryIndices (updatePtr s old updated).mActiveSounds).count j
        = (registryIndices s.mActiveSounds).count j) ∧
      (registryIndices (updatePtr s old updated).mActiveSounds).length
        = (registryIndices s.mActiveSounds).length) ∧
    (∀ v, mapFind s.mActiveSaySounds old = some v → mapFind s.mActiveSaySounds updated = none →
      mapFind (updatePtr s old updated).mActiveSaySounds updated = some v ∧
      mapFind (updatePtr s old updated).mActiveSaySounds old = none ∧
      (∀ k, k ≠ old → k ≠ updated →
        mapFind (updatePtr s old updated).mActiveSaySounds k = mapFind s.mActiveSaySounds k) ∧
      (updatePtr s old updated).mActiveSaySounds.length = s.mActiveSaySounds.length) ∧
    (mapFind s.mActiveSounds old = none →
      (updatePtr s old updated).mActiveSounds = s.mActiveSounds) ∧
    (mapFind s.mActiveSaySounds old = none →
      (updatePtr s old updated).mActiveSaySounds = s.mActiveSaySounds) ∧
    RegistriesSorted (updatePtr s old updated) := by
  obtain ⟨e1, e2, _⟩ := updatePtr_registry s old updated
  refine ⟨?_, ?_, ?_, ?_, ?_⟩
  · intro L hold hup
    rw [hold] at e1
    dsimp only at e1
    obtain ⟨a, b, c, d, _⟩ :=
      mapAssign_mapErase_move s.mActiveSounds old updated L hne hsorted.1 hold hup
    have hcount : ∀ j, (registryIndices (updatePtr s old updated).mActiveSounds).count j
        = (registryIndices s.mActiveSounds).count j := by
      intro j
      have h1 : mapFind (mapErase s.mActiveSounds old) updated = none := by
        rw [mapFind_mapErase_ne _ _ _ (Ne.symm hne)]; exact hup
      rw [e1, count_registryIndices_mapAssign_of_absent _ _ _ h1,
        count_registryIndices_mapErase s.mActiveSounds old L hold j]
    rw [e1]
    rw [e1] at hcount
    exact ⟨a, b, c, d, hcount, (List.perm_iff_count.mpr hcount).length_eq⟩
  · intro v hold hup
    rw [hold] at e2
    dsimp only at e2
    obtain ⟨a, b, c, d, _⟩ :=
      mapAssign_mapErase_move s.mActiveSaySounds old updated v hne hsorted.2 hold hup
    rw [e2]
    exact ⟨a, b, c, d⟩
  · intro hold
    rw [e1, hold]
  · intro hold
    rw [e2, hold]
  · exact hsorted.after_updatePtr old updated

/-- C21 on `demoOwners`: entity 3 owns two entries and one say entry, entity 5
none; after `updatePtr(3, 5)` entity 5 owns them, entity 7 keeps its entry and
the registry has two keys and three entries as before. -/
theorem updatePtr_moves_the_entries_of_old_witness :
    (3 : Ptr) ≠ 5 ∧ RegistriesSorted demoOwners ∧
    mapFind demoOwners.mActiveSounds 3 = some [(demoSound, 0), (demoSound, 1)] ∧
    mapFind demoOwners.mActiveSounds 5 = none ∧
    (updatePtr demoOwners 3 5).mActiveSounds
      = [(5, [(demoSound, 0), (demoSound, 1)]), (7, [(demoSound, 2)])] ∧
    (updatePtr demoOwners 3 5).mActiveSaySounds = [(5, (demoSound, "hello"))] ∧
    (mapFind (updatePtr demoOwners 3 5).mActiveSounds 5
        = some [(demoSound, 0), (demoSound, 1)] ∧
      mapFind (updatePtr demoOwners 3 5).mActiveSounds 3 = none ∧
      (∀ k, k ≠ 3 → k ≠ 5 →
        mapFind (updatePtr demoOwners 3 5).mActiveSounds k
          = mapFind demoOwners.mActiveSounds k) ∧
      (updatePtr demoOwners 3 5).mActiveSounds.length = demoOwners.mActiveSounds.length ∧
      (∀ j, (registryIndices (updatePtr demoOwners 3 5).mActiveSounds).count j
        = (registryIndices demoOwners.mActiveSounds).count j) ∧
      (registryIndices (updatePtr demoOwners 3 5).mActiveSounds).length
        = (registryIndices demoOwners.mActiveSounds).length) :=
  ⟨by decide, by decide, by decide, by decide, by decide, by decide,
    (updatePtr_moves_the_entries_of_old demoOwners 3 5 (by decide) (by decide)).1
      [(demoSound, 0), (demoSound, 1)] (by decide) (by decide)⟩

theorem demoTwoOwners_reachable : Reachable demoWorld demoOutput demoTwoOwners :=
  ⟨demoTwoOwnersOps, by decide, rfl⟩

/-- C26: when `old` and the distinct key `updated` both own entry lists,
`updatePtr(old, updated)` maps `updated` to the list of `old`, removes the key
`old` and keeps every other key. The entries `updated` owned are gone from
the registry, yet no buffer is touched: every reference count, every handle
and the unused list are as before. So the registry holds, for each buffer,
exactly the previous entries less those `updated` owned, and for every buffer
that one of these referred to, fewer entries than its reference count. -/
theorem updatePtr_onto_an_owner_drops_its_entries (w : World) (out : Sound_Output)
    (s : SoundManager) (h : Reachable w out s) (old updated : Ptr) (hne : old ≠ updated)
    (L L2 : SoundIndexPairList) (hold : mapFind s.mActiveSounds old = some L)
    (hup : mapFind s.mActiveSounds updated = some L2) :
    mapFind (updatePtr s old updated).mActiveSounds updated = some L ∧
    mapFind (updatePtr s old updated).mActiveSounds old = none ∧
    (∀ k, k ≠ old → k ≠ updated →
      mapFind (updatePtr s old updated).mActiveSounds k = mapFind s.mActiveSounds k) ∧
    (updatePtr s old updated).mSoundBuffers = s.mSoundBuffers ∧
    (updatePtr s old updated).mUnusedBuffers = s.mUnusedBuffers ∧
    (∀ j, (registryIndices (updatePtr s old updated).mActiveSounds).count j
        + (L2.map Prod.snd).count j
      = (registryIndices s.mActiveSounds).count j) ∧
    (∀ e ∈ L2, ((registryIndices (updatePtr s old updated).mActiveSounds).count e.2 : Int)
      < ((updatePtr s old updated).buffer e.2).mReferences) := by
  have hsorted := h.registriesSorted.1
  have hinv := h.inv
  obtain ⟨e1, _, e3, e4, _⟩ := updatePtr_registry s old updated
  rw [hold] at e1
  dsimp only at e1
  have hup2 : mapFind (mapErase s.mActiveSounds old) updated = some L2 := by
    rw [mapFind_mapErase_ne _ _ _ (Ne.symm hne)]; exact hup
  have hcount : ∀ j, (registryIndices (updatePtr s old updated).mActiveSounds).count j
        + (L2.map Prod.snd).count j
      = (registryIndices s.mActiveSounds).count j := by
    intro j
    rw [e1, count_registryIndices_mapAssign_of_present _ updated L L2
      (hsorted.of_mapErase old) hup2 j, count_registryIndices_mapErase s.mActiveSounds old L hold j]
  refine ⟨?_, ?_, ?_, e3, e4, hcount, ?_⟩
  · rw [e1]; exact mapFind_mapAssign_self _ _ _
  · rw [e1, mapFind_mapAssign_ne _ _ _ _ hne, mapFind_mapErase_self _ old hsorted]
  · intro k h1 h2
    rw [e1, mapFind_mapAssign_ne _ _ _ _ h2, mapFind_mapErase_ne _ _ _ h1]
  · intro e he
    have h1 := hcount e.2
    have h2 := hinv.cache.counts e.2
    have h3 : 0 < (L2.map Prod.snd).count e.2 :=
      List.count_pos_iff.mpr (List.mem_map.mpr ⟨e, he, rfl⟩)
    show _ < ((updatePtr s old updated).mSoundBuffers.getD e.2 default).mReferences
    rw [e3]
    omega

/-- C26 on `demoTwoOwners`: after `updatePtr(3, 7)` the entry of "b" is gone
from the registry while the count of buffer 1 is still 1. -/
theorem updatePtr_onto_an_owner_drops_its_entries_witness :
    Reachable demoWorld demoOutput demoTwoOwners ∧ (3 : Ptr) ≠ 7 ∧
    mapFind demoTwoOwners.mActiveSounds 3 = some [(demoSound, 0)] ∧
    mapFind demoTwoOwners.mActiveSounds 7 = some [(demoSound, 1)] ∧
    (updatePtr demoTwoOwners 3 7).mActiveSounds = [(7, [(demoSound, 0)])] ∧
    ((updatePtr demoTwoOwners 3 7).buffer 1).mReferences = 1 ∧
    (∀ e ∈ [(demoSound, 1)],
      ((registryIndices (updatePtr demoTwoOwners 3 7).mActiveSounds).count e.2 : Int)
        < ((updatePtr demoTwoOwners 3 7).buffer e.2).mReferences) :=
  ⟨demoTwoOwners_reachable, by decide, by decide, by decide, by decide, by decide,
    (updatePtr_onto_an_owner_drops_its_entries demoWorld demoOutput demoTwoOwners
      demoTwoOwners_reachable 3 7 (by decide) [(demoSound, 0)] [(demoSound, 1)]
      (by decide) (by decide)).2.2.2.2.2.2⟩

theorem mapFind_map_values {β : Type} (g : Ptr → β → β) (m : List (Ptr × β)) (key : Ptr) :
    mapFind (m.map (fun p => (p.1, g p.1 p.2))) key = (mapFind m key).map (g key) := by
  induction m with
  | nil => rfl
  | cons p m ih =>
    obtain ⟨k, v⟩ := p
    simp only [List.map_cons, mapFind]
    by_cases h : key = k
    · rw [if_pos h, if_pos h, h]; rfl
    · rw [if_neg h, if_neg h]; exact ih

theorem stopSound_eq_touchSounds (s : SoundManager) (v : CellView) (cell : Nat) :
    stopSound s v cell
      = touchSounds s (fun ptr sound => if ownerInCell v cell ptr then sound.stop else sound) := by
  unfold stopSound touchSounds
  congr 1
  · apply List.map_congr_left
    intro p _
    by_cases h : ownerInCell v cell p.1
    · simp [h]
    · simp [h]
  · apply List.map_congr_left
    intro p _
    by_cases h : ownerInCell v cell p.1
    · simp [h]
    · simp [h]

/-- C22: `stopSound(cell)` calls `stop()` on the instances, in both
registries, of exactly the owners that are not the empty `Ptr`, are not the
player and are in the cell: under such a key every instance is stopped and
nothing else about it changes; under every other key (the detached key, the
player even when in the cell, an entity of another cell) the entries are as
before. Keys, buffer indices, names and the number of entries are unchanged
in both registries, and so is the rest of the manager. -/
theorem stopSound_stops_the_instances_of_the_cell (s : SoundManager) (v : CellView)
    (cell : Nat) :
    (∀ k, mapFind (stopSound s v cell).mActiveSounds k
      = if k ≠ 0 ∧ k ≠ v.player ∧ v.getCell k = cell then
          (mapFind s.mActiveSounds k).map (fun l => l.map (fun e => (e.1.stop, e.2)))
        else mapFind s.mActiveSounds k) ∧
    (∀ k, mapFind (stopSound s v cell).mActiveSaySounds k
      = if k ≠ 0 ∧ k ≠ v.player ∧ v.getCell k = cell then
          (mapFind s.mActiveSaySounds k).map (fun e => (e.1.stop, e.2))
        else mapFind s.mActiveSaySounds k) ∧
    (∀ sound : Sound, sound.stop.mPlaying = false ∧ sound.stop.mPos = sound.mPos ∧
      sound.stop.mVolume = sound.mVolume ∧ sound.stop.mBaseVolume = sound.mBaseVolume ∧
      sound.stop.mFlags = sound.mFlags ∧ sound.stop.mFadeOutTime = sound.mFadeOutTime) ∧
    (stopSound s v cell).mActiveSounds.map Prod.fst = s.mActiveSounds.map Prod.fst ∧
    (stopSound s v cell).mActiveSounds.map (fun p => p.2.map Prod.snd)
      = s.mActiveSounds.map (fun p => p.2.map Prod.snd) ∧
    (stopSound s v cell).mActiveSaySounds.map (fun p => (p.1, p.2.2))
      = s.mActiveSaySounds.map (fun p => (p.1, p.2.2)) ∧
    (stopSound s v cell).mSoundBuffers = s.mSoundBuffers ∧
    (stopSound s v cell).mUnusedBuffers = s.mUnusedBuffers ∧
    (stopSound s v cell).mBufferKeys = s.mBufferKeys ∧
    (stopSound s v cell).mBufferCacheSize = s.mBufferCacheSize := by
  refine ⟨?_, ?_, fun sound => ⟨rfl, rfl, rfl, rfl, rfl, rfl⟩, ?_, ?_, ?_, rfl, rfl, rfl, rfl⟩
  · intro k
    have h := mapFind_map_values
      (fun ptr (l : SoundIndexPairList) =>
        if ownerInCell v cell ptr then l.map (fun e => (e.1.stop, e.2)) else l)
      s.mActiveSounds k
    have hmap : (stopSound s v cell).mActiveSounds
        = s.mActiveSounds.map (fun p => (p.1,
            if ownerInCell v cell p.1 then p.2.map (fun e => (e.1.stop, e.2)) else p.2)) := by
      unfold stopSound
      apply List.map_congr_left
      intro p _
      by_cases hc : ownerInCell v cell p.1
      · simp [hc]
      · simp [hc]
    rw [hmap, h]
    by_cases hc : ownerInCell v cell k
    · have hc2 : k ≠ 0 ∧ k ≠ v.player ∧ v.getCell k = cell := hc
      rw [if_pos hc2]
      simp only [hc, ↓reduceIte]
    · have hc2 : ¬ (k ≠ 0 ∧ k ≠ v.player ∧ v.getCell k = cell) := hc
      rw [if_neg hc2]
      simp only [hc, ↓reduceIte]
      cases mapFind s.mActiveSounds k <;> rfl
  · intro k
    have h := mapFind_map_values
      (fun ptr (e : Sound × String) =>
        if ownerInCell v cell ptr then (e.1.stop, e.2) else e)
      s.mActiveSaySounds k
    have hmap : (stopSound s v cell).mActiveSaySounds
        = s.mActiveSaySounds.map (fun p => (p.1,
            if ownerInCell v cell p.1 then (p.2.1.stop, p.2.2) else p.2)) := by
      unfold stopSound
      apply List.map_congr_left
      intro p _
      by_cases hc : ownerInCell v cell p.1
      · simp [hc]
      · simp [hc]
    rw [hmap, h]
    by_cases hc : ownerInCell v cell k
    · have hc2 : k ≠ 0 ∧ k ≠ v.player ∧ v.getCell k = cell := hc
      rw [if_pos hc2]
      simp only [hc, ↓reduceIte]
    · have hc2 : ¬ (k ≠ 0 ∧ k ≠ v.player ∧ v.getCell k = cell) := hc
      rw [if_neg hc2]
      simp only [hc, ↓reduceIte]
      cases mapFind s.mActiveSaySounds k <;> rfl
  · unfold stopSound
    rw [List.map_map]
    apply List.map_congr_left
    intro p _
    by_cases hc : ownerInCell v cell p.1
    · simp [hc]
    · simp [hc]
  · unfold stopSound
    rw [List.map_map]
    apply List.map_congr_left
    intro p _
    by_cases hc : ownerInCell v cell p.1
    · simp [hc, List.map_map, Function.comp_def]
    · simp [hc]
  · unfold stopSound
    rw [List.map_map]
    apply List.map_congr_left
    intro p _
    by_cases hc : ownerInCell v cell p.1
    · simp [hc]
    · simp [hc]

/-- C22 on `demoCellState` and cell 1: the entries of entity 3 are stopped;
those of the empty owner, of entity 4 (another cell) and of the player 9 (in
cell 1) are not. -/
theorem stopSound_stops_the_instances_of_the_cell_witness :
    (stopSound demoCellState demoCells 1).mActiveSounds
      = [(0, [(demoSound, 0)]), (3, [(demoSound.stop, 0), (demoSound.stop, 1)]),
          (4, [(demoSound, 2)]), (9, [(demoSound, 1)])] ∧
    (stopSound demoCellState demoCells 1).mActiveSaySounds
      = [(3, (demoSound.stop, "hello")), (9, (demoSound, "hey"))] ∧
    (∀ k, mapFind (stopSound demoCellState demoCells 1).mActiveSounds k
      = if k ≠ 0 ∧ k ≠ demoCells.player ∧ demoCells.getCell k = 1 then
          (mapFind demoCellState.mActiveSounds k).map
            (fun l => l.map (fun e => (e.1.stop, e.2)))
        else mapFind demoCellState.mActiveSounds k) :=
  ⟨by decide, by decide,
    (stopSound_stops_the_instances_of_the_cell demoCellState demoCells 1).1⟩

theorem SameTable.refl (s : SoundManager) : SameTable s s := ⟨rfl, rfl⟩

theorem SameTable.trans {a b c : SoundManager} (h1 : SameTable a b) (h2 : SameTable b c) :
    SameTable a c :=
  ⟨h2.1.trans h1.1, h2.2.trans h1.2⟩

/-- Overwriting an entry with one that has the same definition. -/
theorem map_definition_set (l : List Sound_Buffer) (i : Nat) (b : Sound_Buffer)
    (h : b.definition = (l.getD i default).definition) :
    (l.set i b).map Sound_Buffer.definition = l.map Sound_Buffer.definition := by
  by_cases hi : i < l.length
  · apply List.ext_getElem
    · simp
    · intro n h1 h2
      simp only [List.getElem_map, List.getElem_set]
      by_cases hn : i = n
      · rw [if_pos hn, h]
        subst hn
        rw [List.getD_eq_getElem _ _ hi]
      · rw [if_neg hn]
  · rw [List.set_eq_of_length_le (not_lt.mp hi)]

theorem SameTable.of_set {s s2 : SoundManager} (i : Nat) (b : Sound_Buffer)
    (hk : s2.mBufferKeys = s.mBufferKeys) (hb : s2.mSoundBuffers = s.mSoundBuffers.set i b)
    (h : b.definition = (s.buffer i).definition) : SameTable s s2 :=
  ⟨hk, by rw [hb]; exact map_definition_set _ _ _ h⟩

theorem acquireReference_sameTable (s : SoundManager) (sfxid : Nat) :
    SameTable s (acquireReference s sfxid) :=
  SameTable.of_set sfxid _ rfl rfl rfl

theorem releaseReference_sameTable (s : SoundManager) (sfxid : Nat) :
    SameTable s (releaseReference s sfxid) :=
  SameTable.of_set sfxid _ rfl rfl rfl

theorem foldl_releaseReference_sameTable (L : List Nat) :
    ∀ s : SoundManager, SameTable s (L.foldl releaseReference s) := by
  induction L with
  | nil => intro s; exact SameTable.refl s
  | cons i L ih => intro s; exact (releaseReference_sameTable s i).trans (ih _)

theorem afterLoad_sameTable (out : Sound_Output) (s : SoundManager) (sfxid : Nat)
    (h : Sound_Handle) : SameTable s (afterLoad out s sfxid h) :=
  SameTable.of_set sfxid _ rfl rfl rfl

theorem evictLoop_sameTable (out : Sound_Output) (fuel : Nat) (s : SoundManager) :
    SameTable s (evictLoop out fuel s).1 := by
  refine evictLoop_induction out (fun a b _ => SameTable a b) (fun a => SameTable.refl a) ?_
    fuel s
  intro a a1 a2 ev evs hstep h12
  obtain ⟨_, _, _, heq⟩ := evictStep_eq_some hstep
  have h01 : SameTable a a1 := by
    rw [heq]
    exact SameTable.of_set ev.1 _ rfl rfl rfl
  exact h01.trans h12

theorem lookup_sameTable (out : Sound_Output) (s : SoundManager) (sfxid : Nat)
    (loaded : Option Sound_Handle) : SameTable s (lookup out s sfxid loaded).1 := by
  unfold lookup
  split
  · cases loaded with
    | none => exact SameTable.refl s
    | some h =>
      have h1 := afterLoad_sameTable out s sfxid h
      have h2 := evictLoop_sameTable out (afterLoad out s sfxid h).mUnusedBuffers.length
        (afterLoad out s sfxid h)
      exact ⟨(h1.trans h2).1, (h1.trans h2).2⟩
  · exact SameTable.refl s

/-- The non-const `lookupId` leaves the state alone unless the table is empty,
in which case it leaves the bulk-loaded state. -/
theorem lookupId_state (w : World) (s : SoundManager) (soundId : String) :
    (lookupId w s soundId).1 = s ∨
      (s.mBufferKeys = [] ∧ (lookupId w s soundId).1 = loadAllSounds w s) := by
  unfold lookupId
  dsimp only
  split
  · exact Or.inl rfl
  · split
    · next hem =>
      have he : s.mBufferKeys = [] := List.isEmpty_iff.mp hem
      split
      · exact Or.inr ⟨he, rfl⟩
      · exact Or.inr ⟨he, rfl⟩
    · exact Or.inl rfl

theorem lookupByName_sameTable (w : World) (out : Sound_Output) (s : SoundManager)
    (soundId : String) (loaded : Option Sound_Handle) :
    SameTable (lookupId w s soundId).1 (lookupByName w out s soundId loaded).1 := by
  unfold lookupByName
  cases h : (lookupId w s soundId).2 with
  | none => exact SameTable.refl _
  | some sfxid => exact lookup_sameTable out _ sfxid loaded

theorem playFiled_sameTable (w : World) (out : Sound_Output) (s : SoundManager) (key : Ptr)
    (soundId : String) (loaded : Option Sound_Handle) (created : Option Sound) :
    (playFiled w out s key soundId loaded created).1 = s ∨
      SameTable (lookupId w s (w.lowerCase soundId)).1
        (playFiled w out s key soundId loaded created).1 := by
  have hl := lookupByName_sameTable w out s (w.lowerCase soundId) loaded
  unfold playFiled
  by_cases hinit : out.isInitialized = false
  · rw [if_pos hinit]; exact Or.inl rfl
  · rw [if_neg hinit]
    right
    cases h : (lookupByName w out s (w.lowerCase soundId) loaded).2 with
    | none => exact hl
    | some sfxid =>
      cases created with
      | none => exact hl
      | some sound =>
        have ha := acquireReference_sameTable
          (lookupByName w out s (w.lowerCase soundId) loaded).1 sfxid
        exact ⟨(hl.trans ha).1, (hl.trans ha).2⟩

theorem updatePass_sameTable (w : World) (s : SoundManager) (getPosition : Ptr → Vec3f)
    (duration : Rat) : SameTable s (updatePass w s getPosition duration) := by
  rw [updatePass_eq]
  have := foldl_releaseReference_sameTable
    (removedIndices w s.mListenerPos getPosition duration s.mActiveSounds) s
  exact ⟨this.1, this.2⟩

theorem clear_sameTable (s : SoundManager) : SameTable s (clear s) := by
  have := foldl_releaseReference_sameTable (registryIndices s.mActiveSounds) s
  exact ⟨this.1, this.2⟩

/-- One operation leaves the table it finds, or the bulk-loaded table when it
finds none. -/
theorem step_sameTable (w : World) (out : Sound_Output) (s : SoundManager) (op : Op) :
    SameTable s (step w out s op) ∨
      (s.mBufferKeys = [] ∧ SameTable (loadAllSounds w s) (step w out s op)) := by
  have viaLookupId : ∀ (soundId : String) (s2 : SoundManager),
      SameTable (lookupId w s soundId).1 s2 →
      SameTable s s2 ∨ (s.mBufferKeys = [] ∧ SameTable (loadAllSounds w s) s2) := by
    intro soundId s2 h
    rcases lookupId_state w s soundId with h1 | ⟨h1, h2⟩
    · rw [h1] at h; exact Or.inl h
    · rw [h2] at h; exact Or.inr ⟨h1, h⟩
  have viaPlay : ∀ (key : Ptr) (soundId : String) (loaded : Option Sound_Handle)
      (created : Option Sound),
      SameTable s (playFiled w out s key soundId loaded created).1 ∨
        (s.mBufferKeys = [] ∧
          SameTable (loadAllSounds w s) (playFiled w out s key soundId loaded created).1) := by
    intro key soundId loaded created
    rcases playFiled_sameTable w out s key soundId loaded created with h | h
    · rw [h]; exact Or.inl (SameTable.refl s)
    · exact viaLookupId _ _ h
  cases op with
  | lookupId soundId => exact viaLookupId soundId _ (SameTable.refl _)
  | lookup soundId loaded => exact viaLookupId soundId _ (lookupByName_sameTable w out s _ _)
  | playSound soundId loaded created =>
    show SameTable s (playSound w out s soundId loaded created).1 ∨ _ ∧
      SameTable _ (playSound w out s soundId loaded created).1
    rw [playSound_eq_playFiled]
    exact viaPlay 0 soundId loaded created
  | playSound3D ptr objpos soundId mode loaded created =>
    show SameTable s (playSound3D w out s ptr objpos soundId mode loaded created).1 ∨ _ ∧
      SameTable _ (playSound3D w out s ptr objpos soundId mode loaded created).1
    rw [playSound3D_eq]
    split
    · exact viaLookupId _ _ (lookupByName_sameTable w out s _ _)
    · exact viaPlay ptr soundId loaded created
  | playSound3DAt initialPos soundId mode loaded created =>
    show SameTable s (playSound3DAt w out s initialPos soundId mode loaded created).1 ∨ _ ∧
      SameTable _ (playSound3DAt w out s initialPos soundId mode loaded created).1
    rw [playSound3DAt_eq_playFiled]
    exact viaPlay 0 soundId loaded created
  | updatePass getPosition duration => exact Or.inl (updatePass_sameTable w s _ _)
  | updatePtr old updated => exact Or.inl ⟨rfl, rfl⟩
  | clear => exact Or.inl (clear_sameTable s)
  | setListenerPos pos => exact Or.inl ⟨rfl, rfl⟩
  | touchSounds f => exact Or.inl ⟨rfl, rfl⟩

theorem step_sameTable_of_ne_nil (w : World) (out : Sound_Output) (s : SoundManager) (op : Op)
    (hne : s.mBufferKeys ≠ []) : SameTable s (step w out s op) := by
  rcases step_sameTable w out s op with h | ⟨h, _⟩
  · exact h
  · exact absurd h hne

theorem foldl_step_sameTable (w : World) (out : Sound_Output) :
    ∀ (ops : List Op) (s : SoundManager), s.mBufferKeys ≠ [] →
      SameTable s (ops.foldl (step w out) s) := by
  intro ops
  induction ops with
  | nil => intro s _; exact SameTable.refl s
  | cons op ops ih =>
    intro s hne
    have h1 := step_sameTable_of_ne_nil w out s op hne
    have hne2 : (step w out s op).mBufferKeys ≠ [] := by rw [h1.1]; exact hne
    exact h1.trans (ih _ hne2)

/-- Index by index, the same table means the same registered attributes. -/
theorem SameTable.buffer_eq {s s2 : SoundManager} (h : SameTable s s2) (i : Nat) :
    s2.mSoundBuffers.length = s.mSoundBuffers.length ∧
    (s2.buffer i).definition = (s.buffer i).definition := by
  have hlen : s2.mSoundBuffers.length = s.mSoundBuffers.length := by
    have := congrArg List.length h.2
    simpa using this
  refine ⟨hlen, ?_⟩
  show (s2.mSoundBuffers.getD i default).definition = (s.mSoundBuffers.getD i default).definition
  by_cases hi : i < s.mSoundBuffers.length
  · have h2 : i < s2.mSoundBuffers.length := hlen ▸ hi
    rw [List.getD_eq_getElem _ _ hi, List.getD_eq_getElem _ _ h2]
    have := congrArg (fun l => l[i]?) h.2
    simpa [hi, h2] using this
  · have h2 : ¬ i < s2.mSoundBuffers.length := hlen ▸ hi
    rw [List.getD_eq_default _ _ (not_lt.mp hi), List.getD_eq_default _ _ (not_lt.mp h2)]

theorem makeBuffer_distances (w : World) (sound : ESM.Sound) :
    (sound.mData.mMinRange = 0 ∧ sound.mData.mMaxRange = 0 →
      (makeBuffer w sound).mMinDist
        = max 1 (w.fAudioDefaultMinDistance * w.fAudioMinDistanceMult) ∧
      (makeBuffer w sound).mMaxDist
        = max (makeBuffer w sound).mMinDist
            (w.fAudioDefaultMaxDistance * w.fAudioMaxDistanceMult)) ∧
    (¬ (sound.mData.mMinRange = 0 ∧ sound.mData.mMaxRange = 0) →
      (makeBuffer w sound).mMinDist
        = max 1 ((sound.mData.mMinRange : Rat) * w.fAudioMinDistanceMult) ∧
      (makeBuffer w sound).mMaxDist
        = max (makeBuffer w sound).mMinDist
            ((sound.mData.mMaxRange : Rat) * w.fAudioMaxDistanceMult)) ∧
    1 ≤ (makeBuffer w sound).mMinDist ∧
    (makeBuffer w sound).mMinDist ≤ (makeBuffer w sound).mMaxDist := by
  refine ⟨?_, ?_, ?_, ?_⟩
  · intro h
    simp only [makeBuffer, h, and_self, ↓reduceIte]
    exact ⟨max_comm _ _, trivial⟩
  · intro h
    simp only [makeBuffer, h, ↓reduceIte]
    exact ⟨max_comm _ _, trivial⟩
  · exact le_max_right _ _
  · exact le_max_left _ _

theorem RangesOk.of_insertSound {w : World} {s : SoundManager} (h : RangesOk s)
    (soundId : String) (sound : ESM.Sound) : RangesOk (insertSound w s soundId sound) := by
  unfold insertSound
  dsimp only
  split
  · exact h
  · intro b hb
    rcases (mem_vectorInsert _ _ _ _).mp hb with h1 | h1
    · rw [h1]
      exact ⟨(makeBuffer_distances w sound).2.2.1, (makeBuffer_distances w sound).2.2.2⟩
    · exact h b h1

theorem RangesOk.after_loadAllSounds {w : World} {s : SoundManager} (h : RangesOk s) :
    RangesOk (loadAllSounds w s) := by
  unfold loadAllSounds
  have key : ∀ (l : List ESM.Sound) (s0 : SoundManager), RangesOk s0 →
      RangesOk (l.foldl (fun acc rec => insertSound w acc (w.lowerCase rec.mId) rec) s0) := by
    intro l
    induction l with
    | nil => intro s0 h0; exact h0
    | cons r l ih => intro s0 h0; exact ih _ (h0.of_insertSound _ r)
  exact key _ _ h

theorem RangesOk.of_sameTable {s s2 : SoundManager} (h : RangesOk s) (ht : SameTable s s2) :
    RangesOk s2 := by
  intro b hb
  have h1 : b.definition ∈ s2.mSoundBuffers.map Sound_Buffer.definition :=
    List.mem_map.mpr ⟨b, hb, rfl⟩
  rw [ht.2] at h1
  obtain ⟨b0, hb0, heq⟩ := List.mem_map.mp h1
  have h2 := h b0 hb0
  simp only [Sound_Buffer.definition, Prod.mk.injEq] at heq
  obtain ⟨_, _, e3, e4⟩ := heq
  rw [← e3, ← e4]
  exact h2

theorem RangesOk.step_ok {w : World} {out : Sound_Output} {s : SoundManager} (h : RangesOk s)
    (op : Op) : RangesOk (step w out s op) := by
  rcases step_sameTable w out s op with h1 | ⟨_, h1⟩
  · exact h.of_sameTable h1
  · exact h.after_loadAllSounds.of_sameTable h1

theorem Reachable.rangesOk {w : World} {out : Sound_Output} {s : SoundManager}
    (h : Reachable w out s) : RangesOk s := by
  obtain ⟨ops, _, hrun⟩ := h
  rw [← hrun]
  unfold run
  have key : ∀ (l : List Op) (s0 : SoundManager), RangesOk s0 →
      RangesOk (l.foldl (step w out) s0) := by
    intro l
    induction l with
    | nil => intro s0 h0; exact h0
    | cons op l ih => intro s0 h0; exact ih _ (h0.step_ok op)
  exact key ops _ (fun b hb => absurd hb (List.not_mem_nil _))

/-- C23 fails as stated: the record "c" has raw ranges 1 and 0. `insertSound`
takes the raw fields, since not both are zero, and stores min 1 and max 1;
with the defaults 5 and 10, as the claim has it for a single zero field, min
would be 5. -/
theorem insertSound_range_defaults_counterexample :
    ¬ (((insertSound demoWorld SoundManager.init "c" demoRecord).buffer 0).mMinDist
        = max 1 ((specRange demoWorld demoRecord).1 * demoWorld.fAudioMinDistanceMult) ∧
      ((insertSound demoWorld SoundManager.init "c" demoRecord).buffer 0).mMaxDist
        = max ((insertSound demoWorld SoundManager.init "c" demoRecord).buffer 0).mMinDist
            ((specRange demoWorld demoRecord).2 * demoWorld.fAudioMaxDistanceMult)) := by
  have hb : (insertSound demoWorld SoundManager.init "c" demoRecord).buffer 0
      = makeBuffer demoWorld demoRecord := rfl
  rw [hb]
  intro hc
  have h1 := hc.1
  norm_num [makeBuffer, specRange, demoWorld, demoRecord] at h1

/-- C23, amended: for a newly registered sound `insertSound` stores
min = max(1, m * minMult) and max = max(min, M * maxMult), where (m, M) are
the game-data default distances if both raw range fields are zero and the raw
fields otherwise (so also when exactly one raw field is zero); every
registered definition therefore has min distance at least 1 and max distance
at least its min distance, in every reachable state. -/
theorem insertSound_stores_clamped_distances (w : World) (s : SoundManager)
    (soundId : String) (sound : ESM.Sound)
    (hnew : keyFoundAt s.mBufferKeys (lower_bound s.mBufferKeys soundId) soundId = false) :
    (insertSound w s soundId sound).mSoundBuffers
      = vectorInsert s.mSoundBuffers (lower_bound s.mBufferKeys soundId) (makeBuffer w sound) ∧
    (sound.mData.mMinRange = 0 ∧ sound.mData.mMaxRange = 0 →
      (makeBuffer w sound).mMinDist
        = max 1 (w.fAudioDefaultMinDistance * w.fAudioMinDistanceMult) ∧
      (makeBuffer w sound).mMaxDist
        = max (makeBuffer w sound).mMinDist
            (w.fAudioDefaultMaxDistance * w.fAudioMaxDistanceMult)) ∧
    (¬ (sound.mData.mMinRange = 0 ∧ sound.mData.mMaxRange = 0) →
      (makeBuffer w sound).mMinDist
        = max 1 ((sound.mData.mMinRange : Rat) * w.fAudioMinDistanceMult) ∧
      (makeBuffer w sound).mMaxDist
        = max (makeBuffer w sound).mMinDist
            ((sound.mData.mMaxRange : Rat) * w.fAudioMaxDistanceMult)) ∧
    1 ≤ (makeBuffer w sound).mMinDist ∧
    (makeBuffer w sound).mMinDist ≤ (makeBuffer w sound).mMaxDist ∧
    (∀ (out : Sound_Output) (s2 : SoundManager), Reachable w out s2 →
      ∀ i, i < s2.mSoundBuffers.length →
        1 ≤ (s2.buffer i).mMinDist ∧ (s2.buffer i).mMinDist ≤ (s2.buffer i).mMaxDist) := by
  obtain ⟨a, b, c, d⟩ := makeBuffer_distances w sound
  refine ⟨?_, a, b, c, d, ?_⟩
  · unfold insertSound
    dsimp only
    rw [hnew]
    rfl
  · intro out s2 h2 i hi
    apply h2.rangesOk
    show s2.mSoundBuffers.getD i default ∈ s2.mSoundBuffers
    rw [List.getD_eq_getElem _ _ hi]
    exact List.getElem_mem _

/-- C23, amended, on the record "c" (raw ranges 1 and 0) registered in an
empty table: min 1, max 1. -/
theorem insertSound_stores_clamped_distances_witness :
    keyFoundAt SoundManager.init.mBufferKeys
      (lower_bound SoundManager.init.mBufferKeys "c") "c" = false ∧
    (insertSound demoWorld SoundManager.init "c" demoRecord).mSoundBuffers
      = [makeBuffer demoWorld demoRecord] ∧
    (makeBuffer demoWorld demoRecord).mMinDist = 1 ∧
    (makeBuffer demoWorld demoRecord).mMaxDist = 1 ∧
    1 ≤ (makeBuffer demoWorld demoRecord).mMinDist ∧
    (makeBuffer demoWorld demoRecord).mMinDist ≤ (makeBuffer demoWorld demoRecord).mMaxDist :=
  ⟨by decide,
    (insertSound_stores_clamped_distances demoWorld SoundManager.init "c" demoRecord
      (by decide)).1,
    by norm_num [makeBuffer, demoWorld, demoRecord],
    by norm_num [makeBuffer, demoWorld, demoRecord],
    (insertSound_stores_clamped_distances demoWorld SoundManager.init "c" demoRecord
      (by decide)).2.2.2.1,
    (insertSound_stores_clamped_distances demoWorld SoundManager.init "c" demoRecord
      (by decide)).2.2.2.2.1⟩

theorem lookupId_snd_of_keys (w : World) (s s2 : SoundManager) (soundId : String)
    (hk : s2.mBufferKeys = s.mBufferKeys) (hne : s.mBufferKeys ≠ []) :
    (lookupId w s2 soundId).2 = (lookupId w s soundId).2 := by
  have he : s.mBufferKeys.isEmpty = false := by
    cases hs : s.mBufferKeys with
    | nil => exact absurd hs hne
    | cons _ _ => rfl
  unfold lookupId
  dsimp only
  rw [hk, he]
  by_cases hf : keyFoundAt s.mBufferKeys (lower_bound s.mBufferKeys soundId) soundId = true
  · rw [if_pos hf, if_pos hf]
  · rw [if_neg hf, if_neg hf]
    rfl

theorem updateSounds_sameTable (w : World) (out : Sound_Output) (timePassed : Rat)
    (s : SoundManager) (duration : Rat) (action : UnderwaterAction)
    (getPosition : Ptr → Vec3f) (hne : s.mBufferKeys ≠ []) :
    SameTable s (updateSounds w out timePassed s duration action getPosition).2 := by
  unfold updateSounds
  split
  · exact SameTable.refl s
  · unfold updateSoundsBody
    cases action with
    | idle => exact updatePass_sameTable w s _ _
    | stop f => exact SameTable.trans ⟨rfl, rfl⟩ (updatePass_sameTable w (touchSounds s f) _ _)
    | play loaded created =>
      have h1 := step_sameTable_of_ne_nil w out s (Op.playSound "Underwater" loaded created) hne
      exact h1.trans (updatePass_sameTable w _ _ _)

/-- C25: once the definition table is non-empty, no sequence of `lookupId`,
`lookup`, `playSound` / `playSound3D`, stop and fade calls, update passes,
`updatePtr`, `clear` and listener moves changes `mBufferKeys`, the number of
buffer entries, or the resource name, volume, min and max distance of any
entry; `lookupId` keeps returning the same index for an identity. The same
holds for `stopSound(cell)` and for a whole `updateSounds` call. -/
theorem definition_table_is_immutable_once_loaded (w : World) (out : Sound_Output)
    (s : SoundManager) (hne : s.mBufferKeys ≠ []) (ops : List Op) :
    (ops.foldl (step w out) s).mBufferKeys = s.mBufferKeys ∧
    (ops.foldl (step w out) s).mSoundBuffers.length = s.mSoundBuffers.length ∧
    (∀ i, ((ops.foldl (step w out) s).buffer i).mResourceName = (s.buffer i).mResourceName ∧
      ((ops.foldl (step w out) s).buffer i).mVolume = (s.buffer i).mVolume ∧
      ((ops.foldl (step w out) s).buffer i).mMinDist = (s.buffer i).mMinDist ∧
      ((ops.foldl (step w out) s).buffer i).mMaxDist = (s.buffer i).mMaxDist) ∧
    (∀ soundId, (lookupId w (ops.foldl (step w out) s) soundId).2 = (lookupId w s soundId).2) ∧
    (∀ (v : CellView) (cell : Nat), SameTable s (stopSound s v cell)) ∧
    (∀ (timePassed duration : Rat) (action : UnderwaterAction) (getPosition : Ptr → Vec3f),
      SameTable s (updateSounds w out timePassed s duration action getPosition).2) := by
  have h := foldl_step_sameTable w out ops s hne
  refine ⟨h.1, (h.buffer_eq 0).1, ?_, ?_, ?_, ?_⟩
  · intro i
    have := (h.buffer_eq i).2
    simp only [Sound_Buffer.definition, Prod.mk.injEq] at this
    exact this
  · intro soundId
    exact lookupId_snd_of_keys w s _ soundId h.1 hne
  · intro v cell
    exact ⟨rfl, rfl⟩
  · intro t d action g
    exact updateSounds_sameTable w out t s d action g hne

/-- C25 on `demoState` and `demoLifeOps`: the three keys and the attributes of
the buffers are as before, while handles and counts have changed. -/
theorem definition_table_is_immutable_once_loaded_witness :
    demoState.mBufferKeys ≠ [] ∧
    (demoLifeOps.foldl (step demoWorld demoOutput) demoState).mBufferKeys = ["a", "b", "c"] ∧
    ((demoLifeOps.foldl (step demoWorld demoOutput) demoState).buffer 2).mHandle = 5 ∧
    (demoState.buffer 2).mHandle = 0 ∧
    (demoLifeOps.foldl (step demoWorld demoOutput) demoState).mBufferKeys
      = demoState.mBufferKeys ∧
    (∀ i, ((demoLifeOps.foldl (step demoWorld demoOutput) demoState).buffer i).mResourceName
        = (demoState.buffer i).mResourceName ∧
      ((demoLifeOps.foldl (step demoWorld demoOutput) demoState).buffer i).mVolume
        = (demoState.buffer i).mVolume ∧
      ((demoLifeOps.foldl (step demoWorld demoOutput) demoState).buffer i).mMinDist
        = (demoState.buffer i).mMinDist ∧
      ((demoLifeOps.foldl (step demoWorld demoOutput) demoState).buffer i).mMaxDist
        = (demoState.buffer i).mMaxDist) :=
  ⟨by decide, by decide, by decide, by decide,
    (definition_table_is_immutable_once_loaded demoWorld demoOutput demoState (by decide)
      demoLifeOps).1,
    (definition_table_is_immutable_once_loaded demoWorld demoOutput demoState (by decide)
      demoLifeOps).2.2.1⟩

theorem length_vectorResize (v : List Nat) (n : Nat) : (vectorResize v n).length = n := by
  unfold vectorResize
  rw [List.length_append, List.length_take, List.length_replicate]
  omega

theorem take_vectorResize (v : List Nat) (n k : Nat) (hk : k ≤ n) (hv : k ≤ v.length) :
    (vectorResize v n).take k = v.take k := by
  unfold vectorResize
  rw [List.take_append_of_le_length (by rw [List.length_take]; omega), List.take_take]
  congr 1
  omega

theorem vectorResize_of_le (v : List Nat) (n : Nat) (h : n ≤ v.length) :
    vectorResize v n = v.take n := by
  unfold vectorResize
  rw [Nat.sub_eq_zero_of_le h]
  simp

theorem length_writeAt (output : List Nat) (total : Nat) (chunk : List Nat)
    (h : total + chunk.length ≤ output.length) :
    (writeAt output total chunk).length = output.length := by
  unfold writeAt
  simp only [List.length_append, List.length_take, List.length_drop]
  omega

theorem take_writeAt (output : List Nat) (total : Nat) (chunk : List Nat)
    (h : total + chunk.length ≤ output.length) :
    (writeAt output total chunk).take (total + chunk.length) = output.take total ++ chunk := by
  unfold writeAt
  have hl : (output.take total ++ chunk).length = total + chunk.length := by
    rw [List.length_append, List.length_take]
    omega
  rw [List.take_append_of_le_length (by rw [hl]), ← hl, List.take_length]

/-- The loop, from a state in which `total` bytes are in place and room is
left: it ends within `μ st + 1` calls and appends the chunks read. -/
theorem readAllLoop_spec {σ : Type} (d : Sound_Decoder σ) (μ : σ → Nat)
    (hread : ∀ st n, (d.read st n).1.length ≤ n)
    (hμ : ∀ st n, (d.read st n).1 ≠ [] → μ (d.read st n).2 < μ st) :
    ∀ (fuel : Nat) (st : σ) (output : List Nat) (total : Nat),
      μ st < fuel → total < output.length →
      ∃ res, readAllLoop d fuel st output total = some res ∧
        res.output = output.take total ++ res.chunks.flatten ∧
        (∀ c ∈ res.offered, 0 < c) ∧
        (∀ c ∈ res.chunks, c ≠ []) ∧
        res.offered.length = res.chunks.length + 1 := by
  intro fuel
  induction fuel with
  | zero => intro st output total h; exact absurd h (Nat.not_lt_zero _)
  | succ fuel ih =>
    intro st output total hfuel htotal
    have hle := hread st (output.length - total)
    unfold readAllLoop
    by_cases hgot : (d.read st (output.length - total)).1.length > 0
    · rw [if_pos hgot]
      have hne : (d.read st (output.length - total)).1 ≠ [] := by
        intro hc; rw [hc] at hgot; exact absurd hgot (by simp)
      have hdec := hμ st (output.length - total) hne
      have hfit : total + (d.read st (output.length - total)).1.length ≤ output.length := by
        omega
      have hlen2 := length_vectorResize
        (writeAt output total (d.read st (output.length - total)).1)
        ((total + (d.read st (output.length - total)).1.length) * 2)
      obtain ⟨res, h1, h2, h3, h4, h5⟩ := ih (d.read st (output.length - total)).2
        (vectorResize (writeAt output total (d.read st (output.length - total)).1)
          ((total + (d.read st (output.length - total)).1.length) * 2))
        (total + (d.read st (output.length - total)).1.length) (by omega)
        (by rw [hlen2]; omega)
      rw [h1]
      refine ⟨_, rfl, ?_, ?_, ?_, ?_⟩
      · show res.output = _
        rw [h2, take_vectorResize _ _ _ (by omega)
          (by rw [length_writeAt _ _ _ hfit]; exact hfit), take_writeAt _ _ _ hfit]
        simp
      · intro c hc
        rcases List.mem_cons.mp hc with h | h
        · rw [h]; omega
        · exact h3 c h
      · intro c hc
        rcases List.mem_cons.mp hc with h | h
        · rw [h]; exact hne
        · exact h4 c h
      · show (_ :: res.offered).length = (_ :: res.chunks).length + 1
        simp only [List.length_cons, h5]
    · rw [if_neg hgot]
      refine ⟨_, rfl, ?_, ?_, ?_, rfl⟩
      · show vectorResize output total = output.take total ++ ([] : List (List Nat)).flatten
        rw [vectorResize_of_le _ _ (le_of_lt htotal)]
        simp
      · intro c hc
        rw [List.mem_singleton.mp hc]
        omega
      · intro c hc
        exact absurd hc (List.not_mem_nil _)

theorem readAllLoop_mono {σ : Type} (d : Sound_Decoder σ) :
    ∀ (fuel : Nat) (st : σ) (output : List Nat) (total : Nat) (res : ReadAllResult σ),
      readAllLoop d fuel st output total = some res →
      ∀ k, readAllLoop d (fuel + k) st output total = some res := by
  intro fuel
  induction fuel with
  | zero => intro st output total res h; exact absurd h (by simp [readAllLoop])
  | succ fuel ih =>
    intro st output total res h k
    rw [Nat.add_right_comm]
    unfold readAllLoop at h ⊢
    by_cases hgot : (d.read st (output.length - total)).1.length > 0
    · rw [if_pos hgot] at h ⊢
      cases hr : readAllLoop d fuel (d.read st (output.length - total)).2
          (vectorResize (writeAt output total (d.read st (output.length - total)).1)
            ((total + (d.read st (output.length - total)).1.length) * 2))
          (total + (d.read st (output.length - total)).1.length) with
      | none => rw [hr] at h; exact absurd h (by simp)
      | some r =>
        rw [hr] at h
        rw [ih _ _ _ r hr k]
        exact h
    · rw [if_neg hgot] at h ⊢
      exact h

/-- C24: for a decoder whose `read(buffer, n)` returns at most `n` bytes and
which returns 0 bytes after finitely many calls (every call that returns
bytes lowers a measure `μ`), `readAll` ends: any fuel above `μ st` gives the
same result. It leaves the output equal to its initial contents followed by
the chunks read, in order, with nothing after them, so that the final size is
the initial size plus the bytes read. Every call of `read` is offered a
capacity above 0, the first one 32768. -/
theorem readAll_appends_the_chunks_read {σ : Type} (d : Sound_Decoder σ) (μ : σ → Nat)
    (hread : ∀ st n, (d.read st n).1.length ≤ n)
    (hμ : ∀ st n, (d.read st n).1 ≠ [] → μ (d.read st n).2 < μ st)
    (st : σ) (output : List Nat) :
    ∃ res, (∀ fuel, μ st < fuel → readAll d fuel st output = some res) ∧
      res.output = output ++ res.chunks.flatten ∧
      res.output.length = output.length + (res.chunks.map List.length).sum ∧
      (∀ c ∈ res.offered, 0 < c) ∧
      res.offered.head? = some 32768 ∧
      (∀ c ∈ res.chunks, c ≠ []) ∧
      res.offered.length = res.chunks.length + 1 := by
  have hlen := length_vectorResize output (output.length + 32768)
  obtain ⟨res, h1, h2, h3, h4, h5⟩ := readAllLoop_spec d μ hread hμ (μ st + 1) st
    (vectorResize output (output.length + 32768)) output.length (Nat.lt_succ_self _)
    (by rw [hlen]; omega)
  have hout : res.output = output ++ res.chunks.flatten := by
    rw [h2, take_vectorResize _ _ _ (by omega) (le_refl _), List.take_length]
  refine ⟨res, ?_, hout, ?_, h3, ?_, h4, h5⟩
  · intro fuel hfuel
    obtain ⟨k, hk⟩ : ∃ k, fuel = μ st + 1 + k := ⟨fuel - (μ st + 1), by omega⟩
    rw [hk]
    exact readAllLoop_mono d _ _ _ _ res h1 k
  · rw [hout, List.length_append, List.length_flatten]
  · unfold readAllLoop at h1
    split at h1
    · cases hr : readAllLoop d (μ st) (d.read st
          ((vectorResize output (output.length + 32768)).length - output.length)).2
          (vectorResize (writeAt (vectorResize output (output.length + 32768)) output.length
            (d.read st
              ((vectorResize output (output.length + 32768)).length - output.length)).1)
            ((output.length + (d.read st
              ((vectorResize output (output.length + 32768)).length
                - output.length)).1.length) * 2))
          (output.length + (d.read st
            ((vectorResize output (output.length + 32768)).length - output.length)).1.length) with
      | none => rw [hr] at h1; exact absurd h1 (by simp)
      | some r =>
        rw [hr] at h1
        have := Option.some.inj h1
        rw [← this, hlen]
        simp
    · have := Option.some.inj h1
      rw [← this, hlen]
      simp

theorem demoDecoder_read (st : List Nat) (n : Nat) :
    ((demoDecoder.read st n).1.length ≤ n) ∧
    ((demoDecoder.read st n).1 ≠ [] →
      (demoDecoder.read st n).2.length < st.length) := by
  simp only [demoDecoder, List.length_take, List.length_drop]
  constructor
  · omega
  · intro h
    have h1 : 0 < min n 2 := by
      by_contra hc
      have : min n 2 = 0 := by omega
      rw [this] at h
      exact h rfl
    have h2 : 0 < st.length := by
      cases st with
      | nil => simp at h
      | cons _ _ => simp
    omega

/-- C24 on `demoDecoder` holding the bytes 1, 2, 3 and an output that holds
the byte 9. -/
theorem readAll_appends_the_chunks_read_witness :
    (∀ st n, (demoDecoder.read st n).1.length ≤ n) ∧
    (∀ st n, (demoDecoder.read st n).1 ≠ [] →
      (demoDecoder.read st n).2.length < st.length) ∧
    ∃ res, (∀ fuel, [1, 2, 3].length < fuel →
        readAll demoDecoder fuel [1, 2, 3] [9] = some res) ∧
      res.output = [9] ++ res.chunks.flatten ∧
      res.output.length = [9].length + (res.chunks.map List.length).sum ∧
      (∀ c ∈ res.offered, 0 < c) ∧
      res.offered.head? = some 32768 ∧
      (∀ c ∈ res.chunks, c ≠ []) ∧
      res.offered.length = res.chunks.length + 1 :=
  ⟨fun st n => (demoDecoder_read st n).1, fun st n => (demoDecoder_read st n).2,
    readAll_appends_the_chunks_read demoDecoder List.length
      (fun st n => (demoDecoder_read st n).1) (fun st n => (demoDecoder_read st n).2)
      [1, 2, 3] [9]⟩

theorem framesToBytes_eq (bits frames : Nat) (config : ChannelConfig) (type : SampleType) :
    framesToBytes bits frames config type
      = frames * channels config * bytesPerSample type % 2 ^ bits := by
  cases config <;> cases type <;> simp [framesToBytes, channels, bytesPerSample, Nat.mod_mul_mod]

theorem frame_size_bounds (config : ChannelConfig) (type : SampleType) :
    0 < channels config * bytesPerSample type ∧ channels config * bytesPerSample type ≤ 32 := by
  cases config <;> cases type <;> simp [channels, bytesPerSample]

/-- C27: on a `size_t` of at least 6 bits, `framesToBytes(n, c, t)` is
`n * channels(c) * bytesPerSample(t)` in `size_t` arithmetic, with 1, 2, 4, 6
or 8 channels and 1, 2 or 4 bytes per sample. The divisor
`framesToBytes(1, c, t)` of `bytesToFrames` is the frame size and never 0.
When the product does not overflow, `framesToBytes` is the exact product and
`bytesToFrames` undoes it; for every byte count `b`,
`framesToBytes(bytesToFrames(b))` is at most `b`, with equality exactly when
`b` is a multiple of the frame size. -/
theorem framesToBytes_is_frames_times_frame_size (bits : Nat) (hbits : 6 ≤ bits)
    (config : ChannelConfig) (type : SampleType) (n b : Nat) (hb : b < 2 ^ bits) :
    framesToBytes bits n config type
      = n * channels config * bytesPerSample type % 2 ^ bits ∧
    (channels config = 1 ∨ channels config = 2 ∨ channels config = 4 ∨
      channels config = 6 ∨ channels config = 8) ∧
    (bytesPerSample type = 1 ∨ bytesPerSample type = 2 ∨ bytesPerSample type = 4) ∧
    framesToBytes bits 1 config type = channels config * bytesPerSample type ∧
    framesToBytes bits 1 config type ≠ 0 ∧
    (n * channels config * bytesPerSample type < 2 ^ bits →
      framesToBytes bits n config type = n * channels config * bytesPerSample type ∧
      bytesToFrames bits (framesToBytes bits n config type) config type = n) ∧
    framesToBytes bits (bytesToFrames bits b config type) config type ≤ b ∧
    (framesToBytes bits (bytesToFrames bits b config type) config type = b ↔
      channels config * bytesPerSample type ∣ b) := by
  obtain ⟨hpos, hle⟩ := frame_size_bounds config type
  have hpow : 64 ≤ 2 ^ bits := by
    calc 64 = 2 ^ 6 := by norm_num
      _ ≤ 2 ^ bits := Nat.pow_le_pow_right (by norm_num) hbits
  have hone : framesToBytes bits 1 config type = channels config * bytesPerSample type := by
    rw [framesToBytes_eq, Nat.one_mul, Nat.mod_eq_of_lt (by omega)]
  have hdiv : bytesToFrames bits b config type * (channels config * bytesPerSample type) ≤ b := by
    unfold bytesToFrames
    rw [hone]
    exact Nat.div_mul_le_self b _
  have hback : framesToBytes bits (bytesToFrames bits b config type) config type
      = bytesToFrames bits b config type * (channels config * bytesPerSample type) := by
    rw [framesToBytes_eq, Nat.mul_assoc, Nat.mod_eq_of_lt (lt_of_le_of_lt hdiv hb)]
  refine ⟨framesToBytes_eq _ _ _ _, ?_, ?_, hone, ?_, ?_, ?_, ?_⟩
  · cases config <;> simp [channels]
  · cases type <;> simp [bytesPerSample]
  · rw [hone]; omega
  · intro hno
    have h1 : framesToBytes bits n config type = n * channels config * bytesPerSample type := by
      rw [framesToBytes_eq, Nat.mod_eq_of_lt hno]
    refine ⟨h1, ?_⟩
    unfold bytesToFrames
    rw [hone, h1, Nat.mul_assoc, Nat.mul_div_cancel _ hpos]
  · rw [hback]; exact hdiv
  · rw [hback]
    unfold bytesToFrames
    rw [hone]
    constructor
    · intro h
      exact ⟨b / (channels config * bytesPerSample type), by rw [Nat.mul_comm]; exact h.symm⟩
    · intro h
      exact Nat.div_mul_cancel h

/-- C27 on a 64-bit `size_t`, 5.1 channels of 16-bit samples: 100 frames are
1200 bytes, 1205 bytes are 100 frames. -/
theorem framesToBytes_is_frames_times_frame_size_witness :
    6 ≤ 64 ∧ 1205 < 2 ^ 64 ∧
    framesToBytes 64 100 .ChannelConfig_5point1 .SampleType_Int16 = 1200 ∧
    bytesToFrames 64 1205 .ChannelConfig_5point1 .SampleType_Int16 = 100 ∧
    framesToBytes 64 (bytesToFrames 64 1205 .ChannelConfig_5point1 .SampleType_Int16)
      .ChannelConfig_5point1 .SampleType_Int16 ≤ 1205 ∧
    framesToBytes 64 1 .ChannelConfig_5point1 .SampleType_Int16 ≠ 0 :=
  ⟨by decide, by decide, by decide, by decide,
    (framesToBytes_is_frames_times_frame_size 64 (by decide) .ChannelConfig_5point1
      .SampleType_Int16 100 1205 (by decide)).2.2.2.2.2.2.1,
    (framesToBytes_is_frames_times_frame_size 64 (by decide) .ChannelConfig_5point1
      .SampleType_Int16 100 1205 (by decide)).2.2.2.2.1⟩

theorem testBit_intNot (bits x i : Nat) (hx : x < 2 ^ bits) :
    (intNot bits x).testBit i = (decide (i < bits) && !x.testBit i) := by
  unfold intNot
  rw [Nat.sub_sub, Nat.add_comm 1 x]
  exact Nat.testBit_two_pow_sub_succ hx i

theorem testBit_of_lt_two_pow {x bits i : Nat} (hx : x < 2 ^ bits) (hi : bits ≤ i) :
    x.testBit i = false :=
  Nat.testBit_lt_two_pow (lt_of_lt_of_le hx (Nat.pow_le_pow_right (by norm_num) hi))

theorem resume_argument (types mask paused : Nat) :
    types &&& (types &&& mask &&& paused) = types &&& mask &&& paused := by
  apply Nat.eq_of_testBit_eq
  intro i
  simp only [Nat.testBit_and]
  cases types.testBit i <;> cases mask.testBit i <;> cases paused.testBit i <;> rfl

/-- One call keeps the mask inside `Play_TypeMask`. -/
theorem paused_step_inside (bits : Nat) (out : Sound_Output) (mask paused t : Nat)
    (h : paused &&& mask = paused) :
    (pauseSounds out mask paused t).1 &&& mask = (pauseSounds out mask paused t).1 ∧
    (resumeSounds bits out mask paused t).1 &&& mask
      = (resumeSounds bits out mask paused t).1 := by
  have hbit : ∀ i, paused.testBit i = true → mask.testBit i = true := by
    intro i hi
    have := congrArg (fun x => x.testBit i) h
    simp only [Nat.testBit_and, hi, Bool.true_and] at this
    exact this
  unfold pauseSounds resumeSounds
  by_cases hinit : out.isInitialized = true
  · rw [if_pos hinit, if_pos hinit]
    constructor
    · apply Nat.eq_of_testBit_eq
      intro i
      simp only [Nat.testBit_and, Nat.testBit_or]
      have := hbit i
      cases hp : paused.testBit i <;> cases hm : mask.testBit i <;> cases t.testBit i <;>
        simp_all
    · apply Nat.eq_of_testBit_eq
      intro i
      simp only [Nat.testBit_and]
      have := hbit i
      cases hp : paused.testBit i <;> cases hm : mask.testBit i <;> simp_all
  · rw [if_neg hinit, if_neg hinit]
    exact ⟨h, h⟩

theorem pausedAfter_inside (bits : Nat) (out : Sound_Output) (mask : Nat)
    (calls : List PauseCall) :
    pausedAfter bits out mask calls &&& mask = pausedAfter bits out mask calls := by
  unfold pausedAfter
  have key : ∀ (l : List PauseCall) (p : Nat), p &&& mask = p →
      (l.foldl (fun paused c =>
        match c with
        | .pause t => (pauseSounds out mask paused t).1
        | .resume t => (resumeSounds bits out mask paused t).1) p) &&& mask
      = l.foldl (fun paused c =>
        match c with
        | .pause t => (pauseSounds out mask paused t).1
        | .resume t => (resumeSounds bits out mask paused t).1) p := by
    intro l
    induction l with
    | nil => intro p hp; exact hp
    | cons c l ih =>
      intro p hp
      rw [List.foldl_cons]
      apply ih
      cases c with
      | pause t => exact (paused_step_inside bits out mask p t hp).1
      | resume t => exact (paused_step_inside bits out mask p t hp).2
  exact key calls 0 (by simp)

/-- C28: with an initialized output and `int` values of `bits` bits, after
any sequence of `pauseSounds` and `resumeSounds` calls the paused mask has
only bits of `Play_TypeMask`. From such a mask, `pauseSounds(t)` passes
`t & Play_TypeMask` to the backend and adds exactly these bits;
`resumeSounds(t)` passes `t & Play_TypeMask & mPausedSoundTypes` to the
backend and clears exactly these bits, so resuming a type that is not paused
passes 0 and leaves the mask as it is. -/
theorem paused_mask_stays_inside_type_mask (bits : Nat) (out : Sound_Output)
    (Play_TypeMask : Nat) (calls : List PauseCall) (t : Nat)
    (hinit : out.isInitialized = true) (hmask : Play_TypeMask < 2 ^ bits)
    (ht : t < 2 ^ bits) :
    pausedAfter bits out Play_TypeMask calls &&& Play_TypeMask
      = pausedAfter bits out Play_TypeMask calls ∧
    pauseSounds out Play_TypeMask (pausedAfter bits out Play_TypeMask calls) t
      = (pausedAfter bits out Play_TypeMask calls ||| (t &&& Play_TypeMask),
          some (t &&& Play_TypeMask)) ∧
    (resumeSounds bits out Play_TypeMask (pausedAfter bits out Play_TypeMask calls) t).2
      = some (t &&& Play_TypeMask &&& pausedAfter bits out Play_TypeMask calls) ∧
    (∀ i, ((resumeSounds bits out Play_TypeMask
        (pausedAfter bits out Play_TypeMask calls) t).1).testBit i
      = ((pausedAfter bits out Play_TypeMask calls).testBit i &&
          !(t &&& Play_TypeMask &&& pausedAfter bits out Play_TypeMask calls).testBit i)) ∧
    (t &&& Play_TypeMask &&& pausedAfter bits out Play_TypeMask calls = 0 →
      resumeSounds bits out Play_TypeMask (pausedAfter bits out Play_TypeMask calls) t
        = (pausedAfter bits out Play_TypeMask calls, some 0)) := by
  have hin := pausedAfter_inside bits out Play_TypeMask calls
  have hlt : pausedAfter bits out Play_TypeMask calls < 2 ^ bits := by
    rw [← hin]
    exact lt_of_le_of_lt Nat.and_le_right hmask
  have hr : t &&& Play_TypeMask &&& pausedAfter bits out Play_TypeMask calls < 2 ^ bits :=
    lt_of_le_of_lt (le_trans Nat.and_le_left Nat.and_le_left) ht
  have hbits : ∀ i, ((resumeSounds bits out Play_TypeMask
        (pausedAfter bits out Play_TypeMask calls) t).1).testBit i
      = ((pausedAfter bits out Play_TypeMask calls).testBit i &&
          !(t &&& Play_TypeMask &&& pausedAfter bits out Play_TypeMask calls).testBit i) := by
    intro i
    unfold resumeSounds
    rw [if_pos hinit, resume_argument]
    show (_ &&& intNot bits _).testBit i = _
    rw [Nat.testBit_and, testBit_intNot _ _ _ hr]
    by_cases hi : i < bits
    · simp [hi]
    · rw [testBit_of_lt_two_pow hlt (not_lt.mp hi)]
      simp
  refine ⟨hin, ?_, ?_, hbits, ?_⟩
  · unfold pauseSounds
    rw [if_pos hinit]
  · unfold resumeSounds
    rw [if_pos hinit, resume_argument]
  · intro hz
    have h1 : (resumeSounds bits out Play_TypeMask
        (pausedAfter bits out Play_TypeMask calls) t).1
        = pausedAfter bits out Play_TypeMask calls := by
      apply Nat.eq_of_testBit_eq
      intro i
      rw [hbits i, hz]
      simp
    have h2 : (resumeSounds bits out Play_TypeMask
        (pausedAfter bits out Play_TypeMask calls) t).2 = some 0 := by
      unfold resumeSounds
      rw [if_pos hinit, resume_argument, hz]
    exact Prod.ext h1 h2

/-- C28 with 32-bit `int`, type mask 0xF0 and the calls `pauseSounds(0x31)`,
`resumeSounds(0x10)`: the mask is 0x20; resuming 0x41, of which nothing is
paused, passes 0 to the backend and leaves 0x20. -/
theorem paused_mask_stays_inside_type_mask_witness :
    demoOutput.isInitialized = true ∧ 240 < 2 ^ 32 ∧ 65 < 2 ^ 32 ∧
    pausedAfter 32 demoOutput 240 [.pause 49, .resume 16] = 32 ∧
    resumeSounds 32 demoOutput 240 (pausedAfter 32 demoOutput 240 [.pause 49, .resume 16]) 65
      = (pausedAfter 32 demoOutput 240 [.pause 49, .resume 16], some 0) ∧
    pausedAfter 32 demoOutput 240 [.pause 49, .resume 16] &&& 240
      = pausedAfter 32 demoOutput 240 [.pause 49, .resume 16] :=
  ⟨rfl, by decide, by decide, by decide,
    (paused_mask_stays_inside_type_mask 32 demoOutput 240 [.pause 49, .resume 16] 65 rfl
      (by decide) (by decide)).2.2.2.2 (by decide),
    (paused_mask_stays_inside_type_mask 32 demoOutput 240 [.pause 49, .resume 16] 65 rfl
      (by decide) (by decide)).1⟩

theorem musicFileList_sublist (index : List String) (pattern : String) :
    (musicFileList index pattern).Sublist index :=
  (List.takeWhile_sublist _).trans (List.dropWhile_sublist _)

/-- The file list has no entry twice, since the keys of the index have none. -/
theorem musicFileList_nodup (index : List String) (pattern : String) (h : index.Nodup) :
    (musicFileList index pattern).Nodup :=
  h.sublist (musicFileList_sublist index pattern)

/-- C29: for a file list with at least two entries, all distinct (the list
is a run of keys of the VFS index), and every dice roll `i` below its size,
`startRandomTitle` hands a track to `streamMusicFull`, the index it settles
on is within the list, and the track differs from `mLastPlayedMusic`. -/
theorem startRandomTitle_avoids_the_last_track (filelist : List String)
    (mLastPlayedMusic : String) (i : Nat) (hnodup : filelist.Nodup)
    (hsize : 2 ≤ filelist.length) (hi : i < filelist.length) :
    chosenIndex filelist mLastPlayedMusic i < filelist.length ∧
    startRandomTitle filelist mLastPlayedMusic i
      = some (filelist.getD (chosenIndex filelist mLastPlayedMusic i) "") ∧
    filelist.getD (chosenIndex filelist mLastPlayedMusic i) "" ≠ mLastPlayedMusic ∧
    (∀ index pattern, index.Nodup → (musicFileList index pattern).Nodup) := by
  have hlt : (i + 1) % filelist.length < filelist.length := Nat.mod_lt _ (by omega)
  refine ⟨?_, ?_, ?_, fun index pattern h => musicFileList_nodup index pattern h⟩
  · unfold chosenIndex
    split
    · exact hlt
    · exact hi
  · unfold startRandomTitle
    rw [if_neg (by omega)]
  · unfold chosenIndex
    by_cases hlast : filelist.getD i "" = mLastPlayedMusic
    · rw [if_pos hlast, ← hlast]
      intro heq
      rw [List.getD_eq_getElem _ _ hlt, List.getD_eq_getElem _ _ hi] at heq
      have := (List.Nodup.getElem_inj_iff hnodup).mp heq
      by_cases hlast2 : i + 1 < filelist.length
      · rw [Nat.mod_eq_of_lt hlast2] at this
        omega
      · have h3 : i + 1 = filelist.length := by omega
        rw [h3, Nat.mod_self] at this
        omega
    · rw [if_neg hlast]
      exact hlast

/-- C29 on a playlist of three tracks when the roll lands on the track played
last: the next track is taken, also from the last index round to the first. -/
theorem startRandomTitle_avoids_the_last_track_witness :
    demoPlaylist.Nodup ∧ 2 ≤ demoPlaylist.length ∧ 2 < demoPlaylist.length ∧
    startRandomTitle demoPlaylist "music/b.mp3" 1 = some "music/c.mp3" ∧
    startRandomTitle demoPlaylist "music/c.mp3" 2 = some "music/a.mp3" ∧
    chosenIndex demoPlaylist "music/c.mp3" 2 < demoPlaylist.length ∧
    demoPlaylist.getD (chosenIndex demoPlaylist "music/c.mp3" 2) "" ≠ "music/c.mp3" :=
  ⟨by decide, by decide, by decide, by decide, by decide,
    (startRandomTitle_avoids_the_last_track demoPlaylist "music/c.mp3" 2 (by decide)
      (by decide) (by decide)).1,
    (startRandomTitle_avoids_the_last_track demoPlaylist "music/c.mp3" 2 (by decide)
      (by decide) (by decide)).2.2.1⟩

end MWSound
